import Mathlib

/-!
# Quantizer_MTS_ESP: a verification development

Shallow embedding of `src/Quantizer_MTS_ESP.cpp` (the `Quantizer_MTS_ESP` module of the
MTS-ESP plugin for VCV Rack) and theorems about it.

Modelling conventions.

* `float`/`double` values are idealised as elements of a linearly ordered field `α`
  (with a floor function where the code truncates).  The definitions are generic in `α`
  and therefore executable over `ℚ`; the theorems that involve `pow` and `log` are
  stated over `ℝ`.  Rounding error, NaN and infinities of computed values are outside
  the model; a non-finite *input* voltage is modelled explicitly (`Volt`).
* One rounding is modelled, because an integer is read off its result: the store of
  `60.0f + vin * 12.0f` in the `float midikeyf` (line 184) is `toFloat32`, the rounding to the
  nearest single-precision value.
* The C library calls `pow(2., x)` and `log(x)`, the member constant `ln2` and the Rack
  constant `dsp::FREQ_C4` are fields of `MathEnv`.  `ExactLibm` says that they are the
  exact real functions.
* `abs(d)` in the scan is read as the floating-point absolute value.
* C arrays are functions on `Nat`; loops are recursive functions over the index.
-/

namespace QuantizerMTS

/-! ## Numeric environment -/

/-- The numeric primitives the module takes from outside the source file. -/
structure MathEnv (α : Type) where
  /-- The Rack constant `dsp::FREQ_C4` (declared in the Rack SDK, `261.6256f`). -/
  FREQ_C4 : α
  /-- The member constant `ln2`, the `double` written `0.693147180559945309417`. -/
  ln2 : α
  /-- The libm call `pow(2., x)`. -/
  pow2 : α → α
  /-- The libm call `log(x)`. -/
  log : α → α

/-- Values of the loop variables of the scan in the lambda `qfun` (lines 124-130). -/
structure Scan (α : Type) where
  iLower : Nat
  iUpper : Nat
  dLower : α
  dUpper : α
  found : Bool

section Resolver

variable {α : Type} [LinearOrderedField α]

/-- Scan state before the loop: `iLower = iUpper = 0`, `dLower = dUpper = 0`,
`found = false` (lines 124-130). -/
def scanInit : Scan α :=
  { iLower := 0, iUpper := 0, dLower := 0, dUpper := 0, found := false }

/-- The loop `for (int i = 0; i < 128; i++)` of `qfun` (lines 131-154), started at index `i`
with `n` iterations left.  `break` is the branch that does not recurse. -/
def scanLoop (freqs : Nat → α) (shouldFilter : Nat → Bool) (freq : α) :
    Nat → Nat → Scan α → Scan α
  | 0, _, s => s
  | n + 1, i, s =>
    if shouldFilter i then
      scanLoop freqs shouldFilter freq n (i + 1) s
    else
      let d := freqs i - freq
      if |d| < 1 / 10000000 then
        { s with found := true }
      else if d < 0 then
        if s.dLower = 0 ∨ d > s.dLower then
          scanLoop freqs shouldFilter freq n (i + 1) { s with dLower := d, iLower := i }
        else
          scanLoop freqs shouldFilter freq n (i + 1) s
      else if s.dUpper = 0 ∨ d < s.dUpper then
        scanLoop freqs shouldFilter freq n (i + 1) { s with dUpper := d, iUpper := i }
      else
        scanLoop freqs shouldFilter freq n (i + 1) s

/-- The midpoint `fLower * pow(2., 0.5 * (log(fUpper / fLower) / ln2))` of line 169. -/
def fmid (m : MathEnv α) (fLower fUpper : α) : α :=
  fLower * m.pow2 (1 / 2 * (m.log (fUpper / fLower) / m.ln2))

/-- Result selection of `qfun` (lines 155-173) from the final scan state: `qf` starts as
`freq` and is reassigned only when `found` is false. -/
def selectResult (m : MathEnv α) (freqs : Nat → α) (roundingMode : Int) (freq : α)
    (s : Scan α) : α :=
  if s.found then freq
  else if s.dLower = 0 then freqs s.iUpper
  else if s.dUpper = 0 ∨ s.iLower = s.iUpper then freqs s.iLower
  else if roundingMode = -1 then freqs s.iLower
  else if roundingMode = 1 then freqs s.iUpper
  else if freq < fmid m (freqs s.iLower) (freqs s.iUpper) then freqs s.iLower
  else freqs s.iUpper

/-- The body of the lambda `qfun` after its first line, as a function of the target
frequency `freq`: the scan over the 128 table entries followed by the result selection. -/
def resolve (m : MathEnv α) (freqs : Nat → α) (shouldFilter : Nat → Bool)
    (roundingMode : Int) (freq : α) : α :=
  selectResult m freqs roundingMode freq (scanLoop freqs shouldFilter freq 128 0 scanInit)

/-- The lambda `qfun` (lines 121-174): `freq = dsp::FREQ_C4 * pow(2., inputvolts)`, then the
scan and the selection. -/
def qfun (m : MathEnv α) (freqs : Nat → α) (shouldFilter : Nat → Bool)
    (roundingMode : Int) (inputvolts : α) : α :=
  resolve m freqs shouldFilter roundingMode (m.FREQ_C4 * m.pow2 inputvolts)

end Resolver

/-! ## The module state and one tick of `process` -/

/-- A voltage as it is read from a port: a finite value, or one of the non-finite floats. -/
inductive Volt (α : Type) where
  | finite (v : α) : Volt α
  | nan : Volt α
  | posInf : Volt α
  | negInf : Volt α

/-- The members of `Quantizer_MTS_ESP` (lines 30-42) together with the ports and the light
the module writes (members inherited from `Module`).  `triggerCalled` is instrumentation:
it records for which channels `pulseGenerators[c].trigger` was called during the latest
`process` call. -/
structure Quantizer (α : Type) where
  /-- The `remaining` time of each `dsp::PulseGenerator`. -/
  pulseGenerators : Nat → α
  tuningMode : Int
  hasMaster : Bool
  bypassed : Bool
  roundingMode : Int
  freqs : Nat → α
  cv_out : Nat → α
  last_cv_in : Nat → α
  last_cv_out : Nat → α
  rateLimiterPhase : α
  /-- Voltages of `outputs[CV_OUT_OUTPUT]`. -/
  cvOutPort : Nat → Volt α
  /-- Voltages of `outputs[TRIGGER_OUTPUT]`. -/
  triggerPort : Nat → α
  cvOutChannels : Nat
  triggerChannels : Nat
  /-- Brightness of `lights[CONNECTED_LIGHT]`. -/
  connectedLight : α
  triggerCalled : Nat → Bool

/-- What one call of `process` or `processBypass` observes from the host and from the
MTS-ESP client library. -/
structure Tick (α : Type) where
  /-- The field `args.sampleTime`. -/
  sampleTime : α
  /-- The value of `mtsClient && MTS_HasMaster(mtsClient)`. -/
  master : Bool
  /-- The value of `params[ROUNDING_PARAM].getValue()`. -/
  roundingParam : α
  /-- The value of `inputs[CV_IN_INPUT].getChannels()`. -/
  channels : Nat
  /-- The value of `inputs[CV_IN_INPUT].getVoltage(c)`. -/
  voltage : Nat → Volt α
  /-- The value of `MTS_NoteToFrequency(mtsClient, i, -1)`. -/
  noteToFrequency : Nat → α
  /-- The value of `MTS_ShouldFilterNote(mtsClient, i, -1)`. -/
  shouldFilterNote : Nat → Bool

section Engine

variable {α : Type} [LinearOrderedField α] [FloorRing α]

/-- Lines 111-113 (and 224-226): `vin` is the port voltage, replaced by `0` when it is NaN or
infinite. -/
def sanitize : Volt α → α
  | Volt.finite v => v
  | Volt.nan => 0
  | Volt.posInf => 0
  | Volt.negInf => 0

/-- The C function `std::round` followed by the conversion to `int` (line 67): nearest
integer, halves away from zero. -/
def cround (x : α) : Int :=
  if 0 ≤ x then Int.floor (x + 1 / 2) else -Int.floor (-x + 1 / 2)

/-- Conversion of a floating value to `int` (line 186): truncation towards zero. -/
def ctrunc (x : α) : Int :=
  if 0 ≤ x then Int.floor x else Int.ceil x

/-- Rack's `clamp(x, a, b)`: `fmax(fmin(x, b), a)`. -/
def clamp (x a b : α) : α := max (min x b) a

/-- Modelled from the spec: the method `trigger(duration)` of `dsp::PulseGenerator` (Rack SDK,
not under src/), acting on the remaining time: the pulse is set to `duration` when that is
longer than what remains. -/
def pulseTrigger (remaining duration : α) : α :=
  if duration > remaining then duration else remaining

/-- Modelled from the spec: the method `process(deltaTime)` of `dsp::PulseGenerator` (Rack SDK,
not under src/): reports whether the pulse is active and, while it is, subtracts
`deltaTime` from the remaining time. -/
def pulseProcess (remaining deltaTime : α) : Bool × α :=
  if remaining > 0 then (true, remaining - deltaTime) else (false, remaining)

/-- A counting loop `for (int i = first; i < first + n; i++) body(i)`. -/
def forLoop {σ : Type} (body : Nat → σ → σ) : Nat → Nat → σ → σ
  | 0, _, s => s
  | n + 1, i, s => forLoop body n (i + 1) (body i s)

/-- The constructor (lines 44-57) and the member initialisers (lines 32-42).  `cv_out` has no
initialiser in the source, so its initial content `cv_out0` is arbitrary.  The table is the
12-tone equal temperament `440 * pow(2., (i - 69.) / 12.)`; ports and light start at zero. -/
def init (m : MathEnv α) (cv_out0 : Nat → α) : Quantizer α :=
  { pulseGenerators := fun _ => 0
    tuningMode := 0
    hasMaster := false
    bypassed := false
    roundingMode := 0
    freqs := fun i => 440 * m.pow2 (((i : α) - 69) / 12)
    cv_out := cv_out0
    last_cv_in := fun _ => 0
    last_cv_out := fun _ => 0
    rateLimiterPhase := 0
    cvOutPort := fun _ => Volt.finite 0
    triggerPort := fun _ => 0
    cvOutChannels := 0
    triggerChannels := 0
    connectedLight := 0
    triggerCalled := fun _ => false }

/-- The phase accumulator after `rateLimiterPhase += args.sampleTime / rateLimiterPeriod`
(line 73), with `rateLimiterPeriod = 0.005f`. -/
def advancedPhase (t : Tick α) (q : Quantizer α) : α :=
  q.rateLimiterPhase + t.sampleTime / (5 / 1000)

/-- The local `throttle` of `process` (lines 71-82), as a function of the tick and of the
state before the call (`q.hasMaster` is `lastHasMaster`, `q.roundingMode` is
`lastRoundingMode`). -/
def throttle (t : Tick α) (q : Quantizer α) : Bool :=
  if advancedPhase t q ≥ 1 then false
  else t.master && (t.master == q.hasMaster) &&
    (cround t.roundingParam == q.roundingMode) && !q.bypassed

/-- One iteration of the table refresh loop (lines 99-107) on the pair
`(freqs, freqsUpdated)`. -/
def refreshStep (t : Tick α) (i : Nat) (s : (Nat → α) × Bool) : (Nat → α) × Bool :=
  if t.noteToFrequency i ≠ s.1 i then (Function.update s.1 i (t.noteToFrequency i), true)
  else s

/-- The nearest integer, a half going to the even neighbour: the rounding of a value to a
grid of floating-point numbers, measured in units of the grid. -/
def roundHalfEven (x : α) : Int :=
  if x - Int.floor x < 1 / 2 then Int.floor x
  else if 1 / 2 < x - Int.floor x then Int.floor x + 1
  else if Int.floor x % 2 = 0 then Int.floor x else Int.floor x + 1

/-- The conversion of a `double` to `float` (IEEE 754 binary32, round to nearest, ties to
even), as in the initialisation `float midikeyf = ...` of line 184: the value is rounded to
the nearest multiple of `2 ^ (e - 23)`, where `2 ^ e` is the greatest power of two not above
its magnitude and `e` is not taken below `-126` (subnormal range).  A magnitude beyond the
`float` range is kept finite here; the code gets an infinity, which the clamp of line 185
takes to the same bound. -/
def toFloat32 (x : α) : α :=
  (roundHalfEven (x / (2 : α) ^ (max (Int.log 2 |x|) (-126) - 23)) : α) *
    (2 : α) ^ (max (Int.log 2 |x|) (-126) - 23)

/-- Lines 184-187: the MIDI key of an input voltage, `60.0f + vin * 12.0f` stored in the
`float midikeyf`, clamped to `[0, 127]` and converted to `int`.  The sum is formed in
`double` (`vin` is a `double`) and is taken as exact; only its store in the `float` rounds. -/
def midikey (vin : α) : Int :=
  ctrunc (clamp (toFloat32 (60 + vin * 12)) 0 127)

/-- Lines 194-198: an output voltage below `-max_v` is replaced by the voltage of
`qfun(-max_v)`, and then a voltage above `max_v` by the voltage of `qfun(max_v)`, with
`max_v = 5.0`. -/
def stayInTuning (m : MathEnv α) (freqs : Nat → α) (shouldFilter : Nat → Bool)
    (roundingMode : Int) (outcv : α) : α :=
  let outcv1 :=
    if outcv < -5 then m.log (qfun m freqs shouldFilter roundingMode (-5) / m.FREQ_C4) / m.ln2
    else outcv
  if outcv1 > 5 then m.log (qfun m freqs shouldFilter roundingMode 5 / m.FREQ_C4) / m.ln2
  else outcv1

/-- Lines 182-203: the input voltage handled as a MIDI key.  When the key is not filtered,
`cv_out[c]` is assigned; otherwise the state is left as it is. -/
def midiKeyBranch (m : MathEnv α) (t : Tick α) (c : Nat) (vin : α) (q : Quantizer α) :
    Quantizer α :=
  let midikeyi := midikey vin
  if !t.shouldFilterNote midikeyi.toNat then
    let qf := q.freqs midikeyi.toNat
    let outcv := m.log (qf / m.FREQ_C4) / m.ln2
    { q with cv_out := Function.update q.cv_out c
               (stayInTuning m q.freqs t.shouldFilterNote q.roundingMode outcv) }
  else q

/-- The `else` branch of line 114 (lines 119-205): the full recomputation of `cv_out[c]`
from the input voltage, by the resolver (`tuningMode == 0`) or by the MIDI-key mapping. -/
def recompute (m : MathEnv α) (t : Tick α) (c : Nat) (vin : α) (q : Quantizer α) :
    Quantizer α :=
  if q.tuningMode = 0 then
    let qf := qfun m q.freqs t.shouldFilterNote q.roundingMode vin
    { q with cv_out := Function.update q.cv_out c (m.log (qf / m.FREQ_C4) / m.ln2) }
  else midiKeyBranch m t c vin q

/-- Lines 207-217: record the input, emit `cv_out[c]`, trigger the pulse generator when the
output differs from the last one, and run the pulse generator. -/
def emitChannel (t : Tick α) (c : Nat) (vin : α) (q : Quantizer α) : Quantizer α :=
  let q1 : Quantizer α :=
    { q with last_cv_in := Function.update q.last_cv_in c vin,
             cvOutPort := Function.update q.cvOutPort c (Volt.finite (q.cv_out c)) }
  let triggered := pulseTrigger (q1.pulseGenerators c) (1 / 1000)
  let q2 : Quantizer α :=
    if q1.cv_out c ≠ q1.last_cv_out c then
      { q1 with pulseGenerators := Function.update q1.pulseGenerators c triggered,
                last_cv_out := Function.update q1.last_cv_out c (q1.cv_out c),
                triggerCalled := Function.update q1.triggerCalled c true }
    else q1
  let r := pulseProcess (q2.pulseGenerators c) t.sampleTime
  { q2 with pulseGenerators := Function.update q2.pulseGenerators c r.2,
            triggerPort := Function.update q2.triggerPort c (if r.1 then 10 else 0) }

/-- Lines 114-205: `cv_out[c]` is taken from `last_cv_out[c]` when nothing changed
(`!freqsUpdated && vin == last_cv_in[c]`) and recomputed otherwise. -/
def updateOutput (m : MathEnv α) (t : Tick α) (freqsUpdated : Bool) (c : Nat) (vin : α)
    (q : Quantizer α) : Quantizer α :=
  if !freqsUpdated && decide (vin = q.last_cv_in c) then
    { q with cv_out := Function.update q.cv_out c (q.last_cv_out c) }
  else recompute m t c vin q

/-- The body of the channel loop of the `hasMaster` branch (lines 111-217). -/
def quantizeChannel (m : MathEnv α) (t : Tick α) (freqsUpdated : Bool) (c : Nat)
    (q : Quantizer α) : Quantizer α :=
  let vin := sanitize (t.voltage c)
  emitChannel t c vin (updateOutput m t freqsUpdated c vin q)

/-- The body of the channel loop when there is no master (lines 224-228). -/
def passChannel (t : Tick α) (c : Nat) (q : Quantizer α) : Quantizer α :=
  let vin := sanitize (t.voltage c)
  { q with cvOutPort := Function.update q.cvOutPort c (Volt.finite vin),
           last_cv_out := Function.update q.last_cv_out c vin,
           last_cv_in := Function.update q.last_cv_in c vin }

/-- The body of the channel loop of a throttled tick (line 92). -/
def throttledChannel (c : Nat) (q : Quantizer α) : Quantizer α :=
  { q with cvOutPort := Function.update q.cvOutPort c (Volt.finite (q.last_cv_out c)) }

/-- Lines 63-84 of `process`: poll the master, round the rounding parameter, set the light,
advance and wrap the rate limiter phase and clear `bypassed`.  (`triggerCalled` is reset: it
records the calls of this tick only.) -/
def preTick (t : Tick α) (q : Quantizer α) : Quantizer α :=
  let phase := advancedPhase t q
  { q with hasMaster := t.master,
           roundingMode := cround t.roundingParam,
           connectedLight := if t.master then 1 else 1 / 10,
           rateLimiterPhase := if phase ≥ 1 then phase - 1 else phase,
           bypassed := false,
           triggerCalled := fun _ => false }

/-- Lines 98-107: the initial value of `freqsUpdated` and the refresh loop over the 128
table entries; the result is the refreshed table and the final `freqsUpdated`. -/
def refresh (t : Tick α) (lastHasMaster : Bool) (lastRoundingMode : Int) (q : Quantizer α) :
    (Nat → α) × Bool :=
  forLoop (refreshStep t) 128 0
    (q.freqs, (q.hasMaster != lastHasMaster) || (q.roundingMode != lastRoundingMode))

/-- The `hasMaster` branch of `process` (lines 98-218): table refresh and change detection,
then the channel loop. -/
def masterBranch (m : MathEnv α) (t : Tick α) (lastHasMaster : Bool) (lastRoundingMode : Int)
    (q : Quantizer α) : Quantizer α :=
  let r := refresh t lastHasMaster lastRoundingMode q
  forLoop (quantizeChannel m t r.2) t.channels 0 { q with freqs := r.1 }

/-- The method `process` (lines 61-233). -/
def process (m : MathEnv α) (t : Tick α) (q : Quantizer α) : Quantizer α :=
  let q1 := preTick t q
  let q2 :=
    if throttle t q then forLoop throttledChannel t.channels 0 q1
    else if q1.hasMaster then masterBranch m t q.hasMaster q.roundingMode q1
    else forLoop (passChannel t) t.channels 0 q1
  { q2 with cvOutChannels := t.channels, triggerChannels := t.channels }

/-- One channel of the bypass route: the input voltage is copied to the output port. -/
def bypassChannel (t : Tick α) (c : Nat) (s : Quantizer α) : Quantizer α :=
  { s with cvOutPort := Function.update s.cvOutPort c (t.voltage c) }

/-- Modelled from the spec: the inherited `Module::processBypass` (Rack SDK, not under src/),
for the route `configBypass(CV_IN_INPUT, CV_OUT_OUTPUT)`: the output voltage in bypass equals
the input voltage, channel by channel. -/
def moduleProcessBypass (t : Tick α) (q : Quantizer α) : Quantizer α :=
  { forLoop (bypassChannel t) t.channels 0 q with cvOutChannels := t.channels }

/-- The method `processBypass` (lines 235-241). -/
def processBypass (t : Tick α) (q : Quantizer α) : Quantizer α :=
  moduleProcessBypass t
    { q with hasMaster := t.master,
             connectedLight := if t.master then 1 else 1 / 10,
             bypassed := true }

/-- The menu action of `appendContextMenu` (lines 286-291): toggle `tuningMode`. -/
def toggleTuningMode (q : Quantizer α) : Quantizer α :=
  { q with tuningMode := if q.tuningMode = 0 then 1 else 0 }

/-- The final value of `freqsUpdated` in a tick that takes the `hasMaster` branch. -/
def freqsUpdated (t : Tick α) (q : Quantizer α) : Bool :=
  (refresh t q.hasMaster q.roundingMode (preTick t q)).2

/-- The state at the start of the channel loop of the `hasMaster` branch: the flags of the
tick are set and the table is refreshed. -/
def tickStart (t : Tick α) (q : Quantizer α) : Quantizer α :=
  { preTick t q with freqs := (refresh t q.hasMaster q.roundingMode (preTick t q)).1 }

/-- The part of the state that belongs to channel `c`. -/
def chanView (q : Quantizer α) (c : Nat) : α × α × α × α × Volt α × α × Bool :=
  (q.pulseGenerators c, q.cv_out c, q.last_cv_in c, q.last_cv_out c, q.cvOutPort c,
    q.triggerPort c, q.triggerCalled c)

/-- The part of the state that is not per channel. -/
def sharedView (q : Quantizer α) : Int × Bool × Bool × Int × (Nat → α) × α × Nat × Nat × α :=
  (q.tuningMode, q.hasMaster, q.bypassed, q.roundingMode, q.freqs, q.rateLimiterPhase,
    q.cvOutChannels, q.triggerChannels, q.connectedLight)

/-- What iteration `c` of a channel loop reads and writes: the shared part of the state and
the part that belongs to channel `c`. -/
def tickView (c : Nat) (q : Quantizer α) :
    (Int × Bool × Bool × Int × (Nat → α) × α × Nat × Nat × α) ×
      (α × α × α × α × Volt α × α × Bool) :=
  (sharedView q, chanView q c)

/-- A sequence of `process` calls, one per tick of the list, in order. -/
def runTicks (m : MathEnv α) : List (Tick α) → Quantizer α → Quantizer α
  | [], q => q
  | t :: ts, q => runTicks m ts (process m t q)

/-- Every tick of the list, run in order from `q`, is throttled. -/
def AllThrottled (m : MathEnv α) : List (Tick α) → Quantizer α → Prop
  | [], _ => True
  | t :: ts, q => throttle t q = true ∧ AllThrottled m ts (process m t q)

end Engine

/-! ## Persistence of `tuningMode` -/

/-- A JSON value as far as `dataFromJson` tells them apart: an integer or anything else. -/
inductive JsonValue where
  | integer (n : Int) : JsonValue
  | other : JsonValue

/-- The key under which `tuningMode` is stored (lines 245 and 250). -/
def quantizeModeKey : String := "quantize_mode"

/-- Modelled from the spec: the jansson call `json_object_get(root, key)` (library code, not
under src/) on an object given as its list of entries: the value stored under the key, or
nothing (the null pointer) when the key is absent. -/
def json_object_get (root : List (String × JsonValue)) (key : String) : Option JsonValue :=
  root.lookup key

/-- Modelled from the spec: the jansson call `json_integer_value(json)` (library code, not
under src/): the integer of an integer value and `0` for any other value. -/
def json_integer_value : JsonValue → Int
  | JsonValue.integer n => n
  | JsonValue.other => 0

/-- Conversion of a `json_int_t` to the `int` stored in `tuningMode`: the value modulo
`2 ^ 32`, taken in the signed range. -/
def toInt32 (n : Int) : Int := Int.bmod n 4294967296

/-- The method `dataFromJson` (lines 248-253): `tuningMode` is assigned only when the object
has the entry. -/
def dataFromJson {α : Type} (root : List (String × JsonValue)) (q : Quantizer α) :
    Quantizer α :=
  match json_object_get root quantizeModeKey with
  | some qModeJ => { q with tuningMode := toInt32 (json_integer_value qModeJ) }
  | none => q

/-- The method `dataToJson` (lines 242-247): an object with the single entry
`quantize_mode`, the integer `tuningMode`. -/
def dataToJson {α : Type} (q : Quantizer α) : List (String × JsonValue) :=
  [(quantizeModeKey, JsonValue.integer q.tuningMode)]

/-! ## Vocabulary of the specification -/

section Vocabulary

variable {α : Type} [LinearOrderedField α]

/-- A usable index: one of the 128 table indices that the provider does not filter. -/
def Usable (shouldFilter : Nat → Bool) (i : Nat) : Prop :=
  i < 128 ∧ shouldFilter i = false

/-- No usable table entry lies within `1e-7` of the target `t`. -/
def NoneNear (freqs : Nat → α) (shouldFilter : Nat → Bool) (t : α) : Prop :=
  ∀ i, Usable shouldFilter i → ¬ |freqs i - t| < 1 / 10000000

/-- The frequency `L` is the greatest usable table frequency below the target `t`. -/
def GreatestBelow (freqs : Nat → α) (shouldFilter : Nat → Bool) (t L : α) : Prop :=
  (∃ i, Usable shouldFilter i ∧ freqs i = L) ∧ L < t ∧
    ∀ j, Usable shouldFilter j → freqs j < t → freqs j ≤ L

/-- The frequency `U` is the least usable table frequency above the target `t`. -/
def LeastAbove (freqs : Nat → α) (shouldFilter : Nat → Bool) (t U : α) : Prop :=
  (∃ i, Usable shouldFilter i ∧ freqs i = U) ∧ t < U ∧
    ∀ j, Usable shouldFilter j → t < freqs j → U ≤ freqs j

/-- No usable table frequency is below the target `t`. -/
def NoneBelow (freqs : Nat → α) (shouldFilter : Nat → Bool) (t : α) : Prop :=
  ∀ j, Usable shouldFilter j → ¬ freqs j < t

/-- No usable table frequency is above the target `t`. -/
def NoneAbove (freqs : Nat → α) (shouldFilter : Nat → Bool) (t : α) : Prop :=
  ∀ j, Usable shouldFilter j → ¬ t < freqs j

/-- What the loop variables of the scan mean once the indices below `i` have been visited
without leaving the loop: no usable entry so far is within `1e-7` of the target, and each of
`dLower`, `dUpper` is either still `0` (no candidate on that side) or the signed distance of
the closest usable entry on that side, found at `iLower`, `iUpper`. -/
structure ScanInv (freqs : Nat → α) (shouldFilter : Nat → Bool) (freq : α) (i : Nat)
    (s : Scan α) : Prop where
  notFound : s.found = false
  far : ∀ j, j < i → shouldFilter j = false → ¬ |freqs j - freq| < 1 / 10000000
  lowerNone : s.dLower = 0 → ∀ j, j < i → shouldFilter j = false → ¬ freqs j - freq < 0
  lowerSome : s.dLower ≠ 0 →
    s.dLower < 0 ∧ s.iLower < i ∧ shouldFilter s.iLower = false ∧
      freqs s.iLower - freq = s.dLower ∧
      ∀ j, j < i → shouldFilter j = false → freqs j - freq < 0 → freqs j - freq ≤ s.dLower
  upperNone : s.dUpper = 0 → ∀ j, j < i → shouldFilter j = false → freqs j - freq < 0
  upperSome : s.dUpper ≠ 0 →
    0 < s.dUpper ∧ s.iUpper < i ∧ shouldFilter s.iUpper = false ∧
      freqs s.iUpper - freq = s.dUpper ∧
      ∀ j, j < i → shouldFilter j = false → ¬ freqs j - freq < 0 → s.dUpper ≤ freqs j - freq
  lowerIdx : s.dLower = 0 → s.iLower = 0
  upperIdx : s.dUpper = 0 → s.iUpper = 0

/-- Example table: 100 Hz at index 0 and 200 Hz at every other index. -/
def twoNoteTable : Nat → α := fun j => if j = 0 then 100 else 200

/-- Example filter: only the indices 0 and 1 are usable. -/
def firstTwoUsable : Nat → Bool := fun j => decide (2 ≤ j)

/-- Example table: 250 Hz at index 0 and 500 Hz at every other index. -/
def stepTable : Nat → α := fun j => if j = 0 then 250 else 500

/-- Example filter: no index is filtered. -/
def noFilter : Nat → Bool := fun _ => false

/-- Example tick: a master is present, the rounding parameter is `-1` (DOWN), one channel
carries the voltage `v`, the provider's table is `stepTable` and nothing is filtered. -/
def heldTick (sampleTime v : α) : Tick α :=
  { sampleTime := sampleTime
    master := true
    roundingParam := -1
    channels := 1
    voltage := fun _ => Volt.finite v
    noteToFrequency := stepTable
    shouldFilterNote := noFilter }

/-- The numeric environment is the exact one: `pow(2., x)` is the real power `2 ^ x`,
`log` is the natural logarithm and `ln2` is `log 2`. -/
def ExactLibm (m : MathEnv ℝ) : Prop :=
  (∀ x : ℝ, m.pow2 x = (2 : ℝ) ^ x) ∧ (∀ x : ℝ, m.log x = Real.log x) ∧ m.ln2 = Real.log 2

end Vocabulary

section ExampleRuns

variable {α : Type} [LinearOrderedField α] [FloorRing α]

/-- Example run: from the constructed state, one tick at 48 kHz with input `0 V`, then a
bypassed tick, then the menu action that toggles `tuningMode`. -/
def toggledRun (m : MathEnv α) : Quantizer α :=
  toggleTuningMode
    (processBypass (heldTick (1 / 48000) 0)
      (process m (heldTick (1 / 48000) 0) (init m (fun _ => 0))))

/-- Example run: from the constructed state, one tick of 2 ms with input `0 V`. -/
def lagRun (m : MathEnv α) : Quantizer α :=
  process m (heldTick (1 / 500) 0) (init m (fun _ => 0))

/-- Example tick: as `heldTick`, but no master is present. -/
def silentTick (sampleTime v : α) : Tick α :=
  { heldTick sampleTime v with master := false }

/-- Example tick: as `heldTick`, but the provider filters every note. -/
def filteredTick (sampleTime v : α) : Tick α :=
  { heldTick sampleTime v with shouldFilterNote := fun _ => true }

/-- Example tick: as `heldTick`, but the provider's table is `twoNoteTable`. -/
def retunedTick (sampleTime v : α) : Tick α :=
  { heldTick sampleTime v with noteToFrequency := twoNoteTable }

/-- Example run: from the constructed state, one tick at 48 kHz with input `0 V` (the output
changes and the pulse is triggered), followed by `k` more ticks with the same data. -/
def pulseRun (m : MathEnv α) (k : Nat) : Quantizer α :=
  runTicks m (List.replicate k (heldTick (1 / 48000) 0))
    (process m (heldTick (1 / 48000) 0) (init m (fun _ => 0)))

/-- Example run: from the constructed state, one tick at 48 kHz with a master and input
`0 V` in continuous mode, then the menu action that toggles `tuningMode`, then one tick
without master and input `0 V`. -/
def stickyRun (m : MathEnv α) : Quantizer α :=
  process m (silentTick (1 / 48000) 0)
    (toggleTuningMode (process m (heldTick (1 / 48000) 0) (init m (fun _ => 0))))

/-- The voltage of a frequency as the module computes it, `log(qf / dsp::FREQ_C4) / ln2`
(lines 178, 191, 196, 198). -/
def toVolts (m : MathEnv α) (qf : α) : α :=
  m.log (qf / m.FREQ_C4) / m.ln2

end ExampleRuns

/-! ## The scan: loop invariant -/

section ScanProofs

variable {α : Type} [LinearOrderedField α]

theorem scanInv_init (freqs : Nat → α) (shouldFilter : Nat → Bool) (freq : α) :
    ScanInv freqs shouldFilter freq 0 scanInit := by
  refine ⟨rfl, ?_, ?_, ?_, ?_, ?_, fun _ => rfl, fun _ => rfl⟩
  · intro j hj; omega
  · intro _ j hj; omega
  · intro h; exact absurd rfl h
  · intro _ j hj; omega
  · intro h; exact absurd rfl h

theorem scanInv_skip {freqs : Nat → α} {shouldFilter : Nat → Bool} {freq : α} {i : Nat}
    {s : Scan α} (h : ScanInv freqs shouldFilter freq i s) (hf : shouldFilter i = true) :
    ScanInv freqs shouldFilter freq (i + 1) s := by
  have key : ∀ j, j < i + 1 → shouldFilter j = false → j < i := by
    intro j hj hu
    rcases Nat.lt_succ_iff_lt_or_eq.mp hj with hlt | heq
    · exact hlt
    · subst heq; rw [hf] at hu; cases hu
  refine ⟨h.notFound, ?_, ?_, ?_, ?_, ?_, h.lowerIdx, h.upperIdx⟩
  · intro j hj hu; exact h.far j (key j hj hu) hu
  · intro h0 j hj hu; exact h.lowerNone h0 j (key j hj hu) hu
  · intro h0
    obtain ⟨a, b, c, d, e⟩ := h.lowerSome h0
    exact ⟨a, Nat.lt_succ_of_lt b, c, d, fun j hj hu => e j (key j hj hu) hu⟩
  · intro h0 j hj hu; exact h.upperNone h0 j (key j hj hu) hu
  · intro h0
    obtain ⟨a, b, c, d, e⟩ := h.upperSome h0
    exact ⟨a, Nat.lt_succ_of_lt b, c, d, fun j hj hu => e j (key j hj hu) hu⟩

/-- A usable entry below the target that is not within `1e-7` of it: the lower candidate is
replaced when there is none yet or the new entry is closer. -/
theorem scanInv_lower {freqs : Nat → α} {shouldFilter : Nat → Bool} {freq : α} {i : Nat}
    {s : Scan α} (h : ScanInv freqs shouldFilter freq i s) (hu : shouldFilter i = false)
    (hfar : ¬ |freqs i - freq| < 1 / 10000000) (hd : freqs i - freq < 0) :
    ScanInv freqs shouldFilter freq (i + 1)
      (if s.dLower = 0 ∨ freqs i - freq > s.dLower then
        { s with dLower := freqs i - freq, iLower := i } else s) := by
  have split : ∀ j, j < i + 1 → j < i ∨ j = i := fun j hj => Nat.lt_succ_iff_lt_or_eq.mp hj
  by_cases hc : s.dLower = 0 ∨ freqs i - freq > s.dLower
  · rw [if_pos hc]
    refine ⟨h.notFound, ?_, ?_, ?_, ?_, ?_, fun h0 => absurd h0 (ne_of_lt hd), h.upperIdx⟩
    · intro j hj hju
      rcases split j hj with hlt | heq
      · exact h.far j hlt hju
      · subst heq; exact hfar
    · intro h0; exact absurd h0 (ne_of_lt hd)
    · intro _
      refine ⟨hd, Nat.lt_succ_self i, hu, rfl, ?_⟩
      intro j hj hju hjd
      rcases split j hj with hlt | heq
      · show freqs j - freq ≤ freqs i - freq
        rcases hc with h0 | hgt
        · exact absurd hjd (h.lowerNone h0 j hlt hju)
        · by_cases h0 : s.dLower = 0
          · exact absurd hjd (h.lowerNone h0 j hlt hju)
          · exact le_trans ((h.lowerSome h0).2.2.2.2 j hlt hju hjd) (le_of_lt hgt)
      · subst heq; exact le_refl _
    · intro h0 j hj hju
      rcases split j hj with hlt | heq
      · exact h.upperNone h0 j hlt hju
      · subst heq; exact hd
    · intro h0
      obtain ⟨a, b, c, d, e⟩ := h.upperSome h0
      refine ⟨a, Nat.lt_succ_of_lt b, c, d, ?_⟩
      intro j hj hju hjd
      rcases split j hj with hlt | heq
      · exact e j hlt hju hjd
      · subst heq; exact absurd hd hjd
  · rw [if_neg hc]
    have hne : s.dLower ≠ 0 := fun h0 => hc (Or.inl h0)
    have hle : freqs i - freq ≤ s.dLower := le_of_not_lt (fun hgt => hc (Or.inr hgt))
    refine ⟨h.notFound, ?_, ?_, ?_, ?_, ?_, h.lowerIdx, h.upperIdx⟩
    · intro j hj hju
      rcases split j hj with hlt | heq
      · exact h.far j hlt hju
      · subst heq; exact hfar
    · intro h0; exact absurd h0 hne
    · intro h0
      obtain ⟨a, b, c, d, e⟩ := h.lowerSome h0
      refine ⟨a, Nat.lt_succ_of_lt b, c, d, ?_⟩
      intro j hj hju hjd
      rcases split j hj with hlt | heq
      · exact e j hlt hju hjd
      · subst heq; exact hle
    · intro h0 j hj hju
      rcases split j hj with hlt | heq
      · exact h.upperNone h0 j hlt hju
      · subst heq; exact hd
    · intro h0
      obtain ⟨a, b, c, d, e⟩ := h.upperSome h0
      refine ⟨a, Nat.lt_succ_of_lt b, c, d, ?_⟩
      intro j hj hju hjd
      rcases split j hj with hlt | heq
      · exact e j hlt hju hjd
      · subst heq; exact absurd hd hjd

theorem pos_of_far {d : α} (hfar : ¬ |d| < 1 / 10000000) (hd : ¬ d < 0) : 0 < d := by
  rcases lt_or_eq_of_le (le_of_not_lt hd) with h | h
  · exact h
  · exfalso; apply hfar; rw [← h, abs_zero]; norm_num

/-- A usable entry above the target that is not within `1e-7` of it: the upper candidate is
replaced when there is none yet or the new entry is closer. -/
theorem scanInv_upper {freqs : Nat → α} {shouldFilter : Nat → Bool} {freq : α} {i : Nat}
    {s : Scan α} (h : ScanInv freqs shouldFilter freq i s) (hu : shouldFilter i = false)
    (hfar : ¬ |freqs i - freq| < 1 / 10000000) (hd : ¬ freqs i - freq < 0) :
    ScanInv freqs shouldFilter freq (i + 1)
      (if s.dUpper = 0 ∨ freqs i - freq < s.dUpper then
        { s with dUpper := freqs i - freq, iUpper := i } else s) := by
  have split : ∀ j, j < i + 1 → j < i ∨ j = i := fun j hj => Nat.lt_succ_iff_lt_or_eq.mp hj
  have hpos : 0 < freqs i - freq := pos_of_far hfar hd
  by_cases hc : s.dUpper = 0 ∨ freqs i - freq < s.dUpper
  · rw [if_pos hc]
    refine ⟨h.notFound, ?_, ?_, ?_, ?_, ?_, h.lowerIdx, fun h0 => absurd h0 (ne_of_gt hpos)⟩
    · intro j hj hju
      rcases split j hj with hlt | heq
      · exact h.far j hlt hju
      · subst heq; exact hfar
    · intro h0 j hj hju
      rcases split j hj with hlt | heq
      · exact h.lowerNone h0 j hlt hju
      · subst heq; exact hd
    · intro h0
      obtain ⟨a, b, c, d, e⟩ := h.lowerSome h0
      refine ⟨a, Nat.lt_succ_of_lt b, c, d, ?_⟩
      intro j hj hju hjd
      rcases split j hj with hlt | heq
      · exact e j hlt hju hjd
      · subst heq; exact absurd hjd hd
    · intro h0; exact absurd h0 (ne_of_gt hpos)
    · intro _
      refine ⟨hpos, Nat.lt_succ_self i, hu, rfl, ?_⟩
      intro j hj hju hjd
      rcases split j hj with hlt | heq
      · show freqs i - freq ≤ freqs j - freq
        rcases hc with h0 | hgt
        · exact absurd (h.upperNone h0 j hlt hju) hjd
        · by_cases h0 : s.dUpper = 0
          · exact absurd (h.upperNone h0 j hlt hju) hjd
          · exact le_trans (le_of_lt hgt) ((h.upperSome h0).2.2.2.2 j hlt hju hjd)
      · subst heq; exact le_refl _
  · rw [if_neg hc]
    have hne : s.dUpper ≠ 0 := fun h0 => hc (Or.inl h0)
    have hle : s.dUpper ≤ freqs i - freq := le_of_not_lt (fun hgt => hc (Or.inr hgt))
    refine ⟨h.notFound, ?_, ?_, ?_, ?_, ?_, h.lowerIdx, h.upperIdx⟩
    · intro j hj hju
      rcases split j hj with hlt | heq
      · exact h.far j hlt hju
      · subst heq; exact hfar
    · intro h0 j hj hju
      rcases split j hj with hlt | heq
      · exact h.lowerNone h0 j hlt hju
      · subst heq; exact hd
    · intro h0
      obtain ⟨a, b, c, d, e⟩ := h.lowerSome h0
      refine ⟨a, Nat.lt_succ_of_lt b, c, d, ?_⟩
      intro j hj hju hjd
      rcases split j hj with hlt | heq
      · exact e j hlt hju hjd
      · subst heq; exact absurd hjd hd
    · intro h0; exact absurd h0 hne
    · intro h0
      obtain ⟨a, b, c, d, e⟩ := h.upperSome h0
      refine ⟨a, Nat.lt_succ_of_lt b, c, d, ?_⟩
      intro j hj hju hjd
      rcases split j hj with hlt | heq
      · exact e j hlt hju hjd
      · subst heq; exact hle

/-- One iteration of the loop, unfolded. -/
theorem scanLoop_succ (freqs : Nat → α) (shouldFilter : Nat → Bool) (freq : α) (n i : Nat)
    (s : Scan α) :
    scanLoop freqs shouldFilter freq (n + 1) i s =
      if shouldFilter i then scanLoop freqs shouldFilter freq n (i + 1) s
      else if |freqs i - freq| < 1 / 10000000 then { s with found := true }
      else if freqs i - freq < 0 then
        if s.dLower = 0 ∨ freqs i - freq > s.dLower then
          scanLoop freqs shouldFilter freq n (i + 1)
            { s with dLower := freqs i - freq, iLower := i }
        else scanLoop freqs shouldFilter freq n (i + 1) s
      else if s.dUpper = 0 ∨ freqs i - freq < s.dUpper then
        scanLoop freqs shouldFilter freq n (i + 1)
          { s with dUpper := freqs i - freq, iUpper := i }
      else scanLoop freqs shouldFilter freq n (i + 1) s := rfl

/-- The loop, run for `n` more iterations from a state satisfying the invariant at `i`:
either it ends without `found` and the invariant holds at `i + n`, or it left through
`break` at a usable index within `1e-7` of the target, with `found` set. -/
theorem scanLoop_spec (freqs : Nat → α) (shouldFilter : Nat → Bool) (freq : α) :
    ∀ (n i : Nat) (s : Scan α), ScanInv freqs shouldFilter freq i s →
      ((scanLoop freqs shouldFilter freq n i s).found = false ∧
          ScanInv freqs shouldFilter freq (i + n) (scanLoop freqs shouldFilter freq n i s)) ∨
        ((scanLoop freqs shouldFilter freq n i s).found = true ∧
          ∃ j, j < i + n ∧ shouldFilter j = false ∧ |freqs j - freq| < 1 / 10000000) := by
  intro n
  induction n with
  | zero =>
    intro i s h
    exact Or.inl ⟨h.notFound, h⟩
  | succ n ih =>
    intro i s h
    have widen : ∀ r : Scan α,
        ((r.found = false ∧ ScanInv freqs shouldFilter freq (i + 1 + n) r) ∨
          (r.found = true ∧
            ∃ j, j < i + 1 + n ∧ shouldFilter j = false ∧ |freqs j - freq| < 1 / 10000000)) →
        ((r.found = false ∧ ScanInv freqs shouldFilter freq (i + (n + 1)) r) ∨
          (r.found = true ∧
            ∃ j, j < i + (n + 1) ∧ shouldFilter j = false ∧
              |freqs j - freq| < 1 / 10000000)) := by
      intro r hr
      have e : i + 1 + n = i + (n + 1) := by omega
      rw [e] at hr
      exact hr
    by_cases hf : shouldFilter i = true
    · have e : scanLoop freqs shouldFilter freq (n + 1) i s
          = scanLoop freqs shouldFilter freq n (i + 1) s := by
        rw [scanLoop_succ, if_pos hf]
      rw [e]
      exact widen _ (ih (i + 1) s (scanInv_skip h hf))
    · have hu : shouldFilter i = false := by simpa using hf
      by_cases hnear : |freqs i - freq| < 1 / 10000000
      · have e : scanLoop freqs shouldFilter freq (n + 1) i s = { s with found := true } := by
          rw [scanLoop_succ, if_neg hf, if_pos hnear]
        rw [e]
        exact Or.inr ⟨rfl, i, by omega, hu, hnear⟩
      · by_cases hd : freqs i - freq < 0
        · have e : scanLoop freqs shouldFilter freq (n + 1) i s
              = scanLoop freqs shouldFilter freq n (i + 1)
                  (if s.dLower = 0 ∨ freqs i - freq > s.dLower then
                    { s with dLower := freqs i - freq, iLower := i } else s) := by
            by_cases hc : s.dLower = 0 ∨ freqs i - freq > s.dLower
            · rw [scanLoop_succ, if_neg hf, if_neg hnear, if_pos hd, if_pos hc, if_pos hc]
            · rw [scanLoop_succ, if_neg hf, if_neg hnear, if_pos hd, if_neg hc, if_neg hc]
          rw [e]
          exact widen _ (ih (i + 1) _ (scanInv_lower h hu hnear hd))
        · have e : scanLoop freqs shouldFilter freq (n + 1) i s
              = scanLoop freqs shouldFilter freq n (i + 1)
                  (if s.dUpper = 0 ∨ freqs i - freq < s.dUpper then
                    { s with dUpper := freqs i - freq, iUpper := i } else s) := by
            by_cases hc : s.dUpper = 0 ∨ freqs i - freq < s.dUpper
            · rw [scanLoop_succ, if_neg hf, if_neg hnear, if_neg hd, if_pos hc, if_pos hc]
            · rw [scanLoop_succ, if_neg hf, if_neg hnear, if_neg hd, if_neg hc, if_neg hc]
          rw [e]
          exact widen _ (ih (i + 1) _ (scanInv_upper h hu hnear hd))

/-- The scan over the whole table when no usable entry is within `1e-7` of the target. -/
theorem scan_final (freqs : Nat → α) (shouldFilter : Nat → Bool) (t : α)
    (hfar : NoneNear freqs shouldFilter t) :
    (scanLoop freqs shouldFilter t 128 0 scanInit).found = false ∧
      ScanInv freqs shouldFilter t 128 (scanLoop freqs shouldFilter t 128 0 scanInit) := by
  rcases scanLoop_spec freqs shouldFilter t 128 0 scanInit (scanInv_init freqs shouldFilter t)
    with h | ⟨_, j, hj, hu, hnear⟩
  · simpa using h
  · exact absurd hnear (hfar j ⟨by omega, hu⟩)

/-- The scan over the whole table when some usable entry is within `1e-7` of the target. -/
theorem scan_found (freqs : Nat → α) (shouldFilter : Nat → Bool) (t : α) (i : Nat)
    (hi : Usable shouldFilter i) (hnear : |freqs i - t| < 1 / 10000000) :
    (scanLoop freqs shouldFilter t 128 0 scanInit).found = true := by
  rcases scanLoop_spec freqs shouldFilter t 128 0 scanInit (scanInv_init freqs shouldFilter t)
    with ⟨_, inv⟩ | ⟨h, _⟩
  · exact absurd hnear (inv.far i (by simpa using hi.1) hi.2)
  · exact h

/-- The resolver returns the target itself when a usable entry is within `1e-7` of it. -/
theorem resolve_of_near (m : MathEnv α) (freqs : Nat → α) (shouldFilter : Nat → Bool)
    (roundingMode : Int) (t : α) (i : Nat) (hi : Usable shouldFilter i)
    (hnear : |freqs i - t| < 1 / 10000000) :
    resolve m freqs shouldFilter roundingMode t = t := by
  unfold resolve selectResult
  rw [if_pos (scan_found freqs shouldFilter t i hi hnear)]

/-- The outcome of the resolver when no usable entry is within `1e-7` of the target, by the
sides on which usable entries exist. -/
theorem resolve_sides (m : MathEnv α) (freqs : Nat → α) (shouldFilter : Nat → Bool)
    (roundingMode : Int) (t : α) (hfar : NoneNear freqs shouldFilter t) :
    ((∀ i, ¬ Usable shouldFilter i) ∧ resolve m freqs shouldFilter roundingMode t = freqs 0) ∨
    (NoneBelow freqs shouldFilter t ∧ ∃ U, LeastAbove freqs shouldFilter t U ∧
        resolve m freqs shouldFilter roundingMode t = U) ∨
    (NoneAbove freqs shouldFilter t ∧ ∃ L, GreatestBelow freqs shouldFilter t L ∧
        resolve m freqs shouldFilter roundingMode t = L) ∨
    (∃ L U, GreatestBelow freqs shouldFilter t L ∧ LeastAbove freqs shouldFilter t U ∧
        resolve m freqs shouldFilter roundingMode t =
          if roundingMode = -1 then L else if roundingMode = 1 then U
          else if t < fmid m L U then L else U) := by
  obtain ⟨hnf, inv⟩ := scan_final freqs shouldFilter t hfar
  have hres : resolve m freqs shouldFilter roundingMode t =
      selectResult m freqs roundingMode t (scanLoop freqs shouldFilter t 128 0 scanInit) := rfl
  generalize scanLoop freqs shouldFilter t 128 0 scanInit = r at hnf inv hres
  have hnf' : ¬ (r.found = true) := by rw [hnf]; simp
  have above_of : ∀ j, Usable shouldFilter j → ¬ freqs j < t → t < freqs j := by
    intro j hj hlt
    have h1 : ¬ freqs j - t < 0 := fun h => hlt (sub_neg.mp h)
    exact sub_pos.mp (pos_of_far (hfar j hj) h1)
  have lowerFacts : r.dLower ≠ 0 → GreatestBelow freqs shouldFilter t (freqs r.iLower) := by
    intro h0
    obtain ⟨a, b, c, d, e⟩ := inv.lowerSome h0
    refine ⟨⟨r.iLower, ⟨b, c⟩, rfl⟩, sub_neg.mp (d ▸ a), ?_⟩
    intro j hj hlt
    have := e j hj.1 hj.2 (sub_neg.mpr hlt)
    rw [← d] at this
    linarith
  have upperFacts : r.dUpper ≠ 0 → LeastAbove freqs shouldFilter t (freqs r.iUpper) := by
    intro h0
    obtain ⟨a, b, c, d, e⟩ := inv.upperSome h0
    refine ⟨⟨r.iUpper, ⟨b, c⟩, rfl⟩, sub_pos.mp (d ▸ a), ?_⟩
    intro j hj hlt
    have := e j hj.1 hj.2 (fun h => lt_asymm hlt (sub_neg.mp h))
    rw [← d] at this
    linarith
  have noneBelow : r.dLower = 0 → NoneBelow freqs shouldFilter t := by
    intro h0 j hj hlt
    exact inv.lowerNone h0 j hj.1 hj.2 (sub_neg.mpr hlt)
  have noneAbove : r.dUpper = 0 → NoneAbove freqs shouldFilter t := by
    intro h0 j hj hlt
    exact lt_asymm hlt (sub_neg.mp (inv.upperNone h0 j hj.1 hj.2))
  by_cases hL : r.dLower = 0
  · have e : resolve m freqs shouldFilter roundingMode t = freqs r.iUpper := by
      rw [hres]; unfold selectResult; rw [if_neg hnf', if_pos hL]
    by_cases hU : r.dUpper = 0
    · left
      refine ⟨?_, by rw [e, inv.upperIdx hU]⟩
      intro i hi
      exact noneAbove hU i hi (above_of i hi (noneBelow hL i hi))
    · right; left
      exact ⟨noneBelow hL, freqs r.iUpper, upperFacts hU, e⟩
  · by_cases hU : r.dUpper = 0
    · right; right; left
      refine ⟨noneAbove hU, freqs r.iLower, lowerFacts hL, ?_⟩
      rw [hres]; unfold selectResult
      rw [if_neg hnf', if_neg hL, if_pos (Or.inl hU)]
    · right; right; right
      have gl := lowerFacts hL
      have gu := upperFacts hU
      refine ⟨freqs r.iLower, freqs r.iUpper, gl, gu, ?_⟩
      have hne : ¬ (r.dUpper = 0 ∨ r.iLower = r.iUpper) := by
        rintro (h | h)
        · exact hU h
        · have h1 := gl.2.1
          have h2 := gu.2.1
          rw [h] at h1
          exact lt_asymm h1 h2
      rw [hres]; unfold selectResult
      rw [if_neg hnf', if_neg hL, if_neg hne]

theorem greatestBelow_unique {freqs : Nat → α} {shouldFilter : Nat → Bool} {t L L' : α}
    (h : GreatestBelow freqs shouldFilter t L) (h' : GreatestBelow freqs shouldFilter t L') :
    L = L' := by
  obtain ⟨⟨i, hi, rfl⟩, hlt, hmax⟩ := h
  obtain ⟨⟨i', hi', rfl⟩, hlt', hmax'⟩ := h'
  exact le_antisymm (hmax' i hi hlt) (hmax i' hi' hlt')

theorem leastAbove_unique {freqs : Nat → α} {shouldFilter : Nat → Bool} {t U U' : α}
    (h : LeastAbove freqs shouldFilter t U) (h' : LeastAbove freqs shouldFilter t U') :
    U = U' := by
  obtain ⟨⟨i, hi, rfl⟩, hlt, hmin⟩ := h
  obtain ⟨⟨i', hi', rfl⟩, hlt', hmin'⟩ := h'
  exact le_antisymm (hmin i' hi' hlt') (hmin' i hi hlt)

end ScanProofs

/-! ## The resolver over the reals -/

section RealResolver

/-- With the exact numeric environment the midpoint of line 169 is positive and its
logarithm is the mean of the logarithms of the two neighbours. -/
theorem log_fmid (m : MathEnv ℝ) (hm : ExactLibm m) {L U : ℝ} (hL : 0 < L) (hU : 0 < U) :
    0 < fmid m L U ∧ Real.log (fmid m L U) = (Real.log L + Real.log U) / 2 := by
  obtain ⟨hp, hl, h2⟩ := hm
  have hlog2 : 0 < Real.log 2 := Real.log_pos (by norm_num)
  unfold fmid
  rw [hp, hl, h2]
  have hpow : 0 < (2 : ℝ) ^ (1 / 2 * (Real.log (U / L) / Real.log 2)) :=
    Real.rpow_pos_of_pos (by norm_num) _
  refine ⟨mul_pos hL hpow, ?_⟩
  rw [Real.log_mul hL.ne' hpow.ne', Real.log_rpow (by norm_num), Real.log_div hU.ne' hL.ne']
  field_simp
  ring

/-- With the exact numeric environment the midpoint of line 169 is the geometric mean. -/
theorem fmid_eq_sqrt (m : MathEnv ℝ) (hm : ExactLibm m) {L U : ℝ} (hL : 0 < L) (hU : 0 < U) :
    fmid m L U = Real.sqrt (L * U) := by
  obtain ⟨hpos, hlog⟩ := log_fmid m hm hL hU
  have hs : 0 < Real.sqrt (L * U) := Real.sqrt_pos.mpr (mul_pos hL hU)
  apply Real.log_injOn_pos (Set.mem_Ioi.mpr hpos) (Set.mem_Ioi.mpr hs)
  rw [hlog, Real.sqrt_eq_rpow, Real.log_rpow (mul_pos hL hU), Real.log_mul hL.ne' hU.ne']
  ring

/-- Distances between base-2 logarithms compare as distances between natural logarithms. -/
theorem logb_dist_le {r f t : ℝ} (h : |Real.log r - Real.log t| ≤ |Real.log f - Real.log t|) :
    |Real.logb 2 r - Real.logb 2 t| ≤ |Real.logb 2 f - Real.logb 2 t| := by
  have hlog2 : 0 < Real.log 2 := Real.log_pos (by norm_num)
  simp only [Real.logb, ← sub_div, abs_div, abs_of_pos hlog2]
  exact div_le_div_of_nonneg_right h hlog2.le

/-- The result of the resolver when some index is usable: the target itself, with a usable
entry within `1e-7` of it, or the frequency of a usable index, with no usable entry within
`1e-7` of the target. -/
theorem resolve_target_or_entry {α : Type} [LinearOrderedField α] (m : MathEnv α)
    (freqs : Nat → α) (shouldFilter : Nat → Bool) (roundingMode : Int) (t : α)
    (hex : ∃ i, Usable shouldFilter i) :
    ((∃ i, Usable shouldFilter i ∧ |freqs i - t| < 1 / 10000000) ∧
        resolve m freqs shouldFilter roundingMode t = t) ∨
      (NoneNear freqs shouldFilter t ∧
        ∃ i, Usable shouldFilter i ∧ resolve m freqs shouldFilter roundingMode t = freqs i) := by
  by_cases hfar : NoneNear freqs shouldFilter t
  · right
    refine ⟨hfar, ?_⟩
    rcases resolve_sides m freqs shouldFilter roundingMode t hfar with
      ⟨hnone, _⟩ | ⟨_, U, ⟨⟨k, hk, e⟩, _⟩, hr⟩ | ⟨_, L, ⟨⟨k, hk, e⟩, _⟩, hr⟩ |
      ⟨L, U, ⟨⟨kl, hkl, el⟩, _⟩, ⟨⟨ku, hku, eu⟩, _⟩, hr⟩
    · obtain ⟨i, hi⟩ := hex
      exact absurd hi (hnone i)
    · exact ⟨k, hk, by rw [hr, e]⟩
    · exact ⟨k, hk, by rw [hr, e]⟩
    · rw [hr]
      by_cases h1 : roundingMode = -1
      · rw [if_pos h1]; exact ⟨kl, hkl, el.symm⟩
      · rw [if_neg h1]
        by_cases h2 : roundingMode = 1
        · rw [if_pos h2]; exact ⟨ku, hku, eu.symm⟩
        · rw [if_neg h2]
          by_cases h3 : t < fmid m L U
          · rw [if_pos h3]; exact ⟨kl, hkl, el.symm⟩
          · rw [if_neg h3]; exact ⟨ku, hku, eu.symm⟩
  · left
    have hex2 : ∃ j, Usable shouldFilter j ∧ |freqs j - t| < 1 / 10000000 := by
      unfold NoneNear at hfar
      push_neg at hfar
      exact hfar
    obtain ⟨j, hj, hnear⟩ := hex2
    exact ⟨⟨j, hj, hnear⟩, resolve_of_near m freqs shouldFilter roundingMode t j hj hnear⟩

/-- C1. Nearest-pitch optimality in NEAREST mode (`roundingMode = 0`), over the reals with
the exact `pow`/`log`: when some index is usable and all usable table frequencies and the
target `t` are positive, the frequency the resolver returns is at least as close to `t` in
base-2 logarithm as every usable table frequency, and it is a pitch of the table: the
frequency of a usable index, or the target itself when a usable entry lies within `1e-7` of
the target. -/
theorem resolve_nearest_in_log (m : MathEnv ℝ) (hm : ExactLibm m) (freqs : Nat → ℝ)
    (shouldFilter : Nat → Bool) (t : ℝ) (ht : 0 < t)
    (hex : ∃ i, Usable shouldFilter i)
    (hpos : ∀ i, Usable shouldFilter i → 0 < freqs i) :
    (∀ i, Usable shouldFilter i →
        |Real.logb 2 (resolve m freqs shouldFilter 0 t) - Real.logb 2 t| ≤
          |Real.logb 2 (freqs i) - Real.logb 2 t|) ∧
      (((∃ i, Usable shouldFilter i ∧ |freqs i - t| < 1 / 10000000) ∧
          resolve m freqs shouldFilter 0 t = t) ∨
        (NoneNear freqs shouldFilter t ∧
          ∃ i, Usable shouldFilter i ∧ resolve m freqs shouldFilter 0 t = freqs i)) := by
  refine ⟨?_, resolve_target_or_entry m freqs shouldFilter 0 t hex⟩
  intro i hi
  apply logb_dist_le
  by_cases hfar : NoneNear freqs shouldFilter t
  · have hfi : 0 < freqs i := hpos i hi
    have hne : freqs i ≠ t := by
      intro h
      apply hfar i hi
      rw [h, sub_self, abs_zero]; norm_num
    rcases resolve_sides m freqs shouldFilter 0 t hfar with
      ⟨hnone, _⟩ | ⟨hnb, U, hU, hr⟩ | ⟨hna, L, hL, hr⟩ | ⟨L, U, hL, hU, hr⟩
    · exact absurd hi (hnone i)
    · obtain ⟨⟨k, hk, rfl⟩, htU, hmin⟩ := hU
      have h1 : t < freqs i := lt_of_le_of_ne (le_of_not_lt (hnb i hi)) (Ne.symm hne)
      have h2 := Real.log_lt_log ht htU
      have h3 := Real.log_le_log (lt_trans ht htU) (hmin i hi h1)
      rw [hr]
      rcases abs_cases (Real.log (freqs k) - Real.log t) with ⟨e1, _⟩ | ⟨e1, _⟩ <;>
        rcases abs_cases (Real.log (freqs i) - Real.log t) with ⟨e2, _⟩ | ⟨e2, _⟩ <;>
        rw [e1, e2] <;> linarith
    · obtain ⟨⟨k, hk, rfl⟩, hLt, hmax⟩ := hL
      have h1 : freqs i < t := lt_of_le_of_ne (le_of_not_lt (hna i hi)) hne
      have h2 := Real.log_lt_log (hpos k hk) hLt
      have h3 := Real.log_le_log hfi (hmax i hi h1)
      have h4 := Real.log_lt_log hfi h1
      rw [hr]
      rcases abs_cases (Real.log (freqs k) - Real.log t) with ⟨e1, _⟩ | ⟨e1, _⟩ <;>
        rcases abs_cases (Real.log (freqs i) - Real.log t) with ⟨e2, _⟩ | ⟨e2, _⟩ <;>
        rw [e1, e2] <;> linarith
    · obtain ⟨⟨kl, hkl, rfl⟩, hLt, hmax⟩ := hL
      obtain ⟨⟨ku, hku, rfl⟩, htU, hmin⟩ := hU
      have hLpos := hpos kl hkl
      have hUpos := hpos ku hku
      obtain ⟨hmpos, hmlog⟩ := log_fmid m hm hLpos hUpos
      have hlL := Real.log_lt_log hLpos hLt
      have hlU := Real.log_lt_log ht htU
      have hside : Real.log (freqs i) ≤ Real.log (freqs kl) ∨
          Real.log (freqs ku) ≤ Real.log (freqs i) := by
        rcases lt_or_gt_of_ne hne with h | h
        · exact Or.inl (Real.log_le_log hfi (hmax i hi h))
        · exact Or.inr (Real.log_le_log hUpos (hmin i hi h))
      rw [hr, if_neg (by decide), if_neg (by decide)]
      by_cases hlt : t < fmid m (freqs kl) (freqs ku)
      · rw [if_pos hlt]
        have h5 := Real.log_lt_log ht hlt
        rw [hmlog] at h5
        rcases hside with h | h <;>
          rcases abs_cases (Real.log (freqs kl) - Real.log t) with ⟨e1, _⟩ | ⟨e1, _⟩ <;>
          rcases abs_cases (Real.log (freqs i) - Real.log t) with ⟨e2, _⟩ | ⟨e2, _⟩ <;>
          rw [e1, e2] <;> linarith
      · rw [if_neg hlt]
        have h5 := Real.log_le_log hmpos (le_of_not_lt hlt)
        rw [hmlog] at h5
        rcases hside with h | h <;>
          rcases abs_cases (Real.log (freqs ku) - Real.log t) with ⟨e1, _⟩ | ⟨e1, _⟩ <;>
          rcases abs_cases (Real.log (freqs i) - Real.log t) with ⟨e2, _⟩ | ⟨e2, _⟩ <;>
          rw [e1, e2] <;> linarith
  · have hex : ∃ j, Usable shouldFilter j ∧ |freqs j - t| < 1 / 10000000 := by
      unfold NoneNear at hfar
      push_neg at hfar
      exact hfar
    obtain ⟨j, hj, hnear⟩ := hex
    rw [resolve_of_near m freqs shouldFilter 0 t j hj hnear, sub_self, abs_zero]
    exact abs_nonneg _

/-! ### The example table -/

theorem usable_firstTwo {j : Nat} (h : Usable firstTwoUsable j) : j = 0 ∨ j = 1 := by
  have h2 : ¬ 2 ≤ j := by simpa [firstTwoUsable] using h.2
  omega

theorem usable_firstTwo_zero : Usable firstTwoUsable 0 := ⟨by norm_num, rfl⟩

theorem usable_firstTwo_one : Usable firstTwoUsable 1 := ⟨by norm_num, rfl⟩

theorem twoNoteTable_zero : (twoNoteTable 0 : ℝ) = 100 := rfl

theorem twoNoteTable_one : (twoNoteTable 1 : ℝ) = 200 := rfl

theorem twoNote_split (j : Nat) (h : Usable firstTwoUsable j) :
    (twoNoteTable j : ℝ) ≤ 100 ∨ 200 ≤ (twoNoteTable j : ℝ) := by
  rcases usable_firstTwo h with rfl | rfl
  · left; rw [twoNoteTable_zero]
  · right; rw [twoNoteTable_one]

/-- For a target between the two notes and at least `1e-7` away from both, the notes are the
neighbours of the target and nothing is within `1e-7` of it. -/
theorem twoNote_between (t : ℝ) (h1 : 100 + 1 / 10000000 ≤ t) (h2 : t + 1 / 10000000 ≤ 200) :
    NoneNear (twoNoteTable : Nat → ℝ) firstTwoUsable t ∧
      GreatestBelow (twoNoteTable : Nat → ℝ) firstTwoUsable t 100 ∧
      LeastAbove (twoNoteTable : Nat → ℝ) firstTwoUsable t 200 := by
  refine ⟨?_, ⟨⟨0, usable_firstTwo_zero, rfl⟩, by linarith, ?_⟩,
    ⟨⟨1, usable_firstTwo_one, rfl⟩, by linarith, ?_⟩⟩
  · intro j hj hnear
    rw [abs_lt] at hnear
    rcases usable_firstTwo hj with rfl | rfl
    · rw [twoNoteTable_zero] at hnear; linarith [hnear.1]
    · rw [twoNoteTable_one] at hnear; linarith [hnear.2]
  · intro j hj hlt
    rcases usable_firstTwo hj with rfl | rfl
    · rw [twoNoteTable_zero]
    · rw [twoNoteTable_one] at hlt; linarith
  · intro j hj hlt
    rcases usable_firstTwo hj with rfl | rfl
    · rw [twoNoteTable_zero] at hlt; linarith
    · rw [twoNoteTable_one]

theorem exactLibm_real (c : ℝ) :
    ExactLibm (MathEnv.mk c (Real.log 2) (fun x => 2 ^ x) Real.log) :=
  ⟨fun _ => rfl, fun _ => rfl, rfl⟩

/-! ### Claims on the resolver -/

/-- Witness for C1: the two-note table, target 150 Hz, compared with the entry at index 0. -/
theorem resolve_nearest_in_log_witness :
    0 < (150 : ℝ) ∧ Usable firstTwoUsable 0 ∧
      |Real.logb 2 (resolve (MathEnv.mk 261.6256 (Real.log 2) (fun x => 2 ^ x) Real.log)
          twoNoteTable firstTwoUsable 0 150) - Real.logb 2 150| ≤
        |Real.logb 2 (twoNoteTable 0) - Real.logb 2 150| :=
  ⟨by norm_num, usable_firstTwo_zero,
    (resolve_nearest_in_log _ (exactLibm_real 261.6256) twoNoteTable firstTwoUsable 150
      (by norm_num) ⟨0, usable_firstTwo_zero⟩
      (fun j hj => by
        rcases usable_firstTwo hj with rfl | rfl
        · rw [twoNoteTable_zero]; norm_num
        · rw [twoNoteTable_one]; norm_num)).1
      0 usable_firstTwo_zero⟩

/-- C2 (as amended). Exact-match short-circuit: when a usable entry `freqs i` lies within
`1e-7` of the target `t`, the resolver returns the target `t` itself, which is within `1e-7`
of that entry, and the result is the same for the three rounding modes. -/
theorem resolve_exact_match_returns_target {α : Type} [LinearOrderedField α] (m : MathEnv α)
    (freqs : Nat → α) (shouldFilter : Nat → Bool) (roundingMode : Int) (t : α) (i : Nat)
    (hi : Usable shouldFilter i) (hnear : |freqs i - t| < 1 / 10000000) :
    resolve m freqs shouldFilter roundingMode t = t ∧
      |freqs i - resolve m freqs shouldFilter roundingMode t| < 1 / 10000000 ∧
      resolve m freqs shouldFilter (-1) t = resolve m freqs shouldFilter 0 t ∧
      resolve m freqs shouldFilter 0 t = resolve m freqs shouldFilter 1 t := by
  have h := fun rm => resolve_of_near m freqs shouldFilter rm t i hi hnear
  refine ⟨h roundingMode, ?_, ?_, ?_⟩
  · rw [h roundingMode]; exact hnear
  · rw [h (-1), h 0]
  · rw [h 0, h 1]

/-- Witness for C2: the two-note table and the target `100 + 1e-8` Hz. -/
theorem resolve_exact_match_returns_target_witness :
    Usable firstTwoUsable 0 ∧ |(twoNoteTable 0 : ℝ) - (100 + 1 / 100000000)| < 1 / 10000000 ∧
      resolve (MathEnv.mk 261.6256 (Real.log 2) (fun x => 2 ^ x) Real.log)
        twoNoteTable firstTwoUsable 1 (100 + 1 / 100000000) = 100 + 1 / 100000000 :=
  ⟨usable_firstTwo_zero, by rw [twoNoteTable_zero, abs_lt]; constructor <;> norm_num,
    (resolve_exact_match_returns_target _ twoNoteTable firstTwoUsable 1 (100 + 1 / 100000000) 0
      usable_firstTwo_zero (by rw [twoNoteTable_zero, abs_lt]; constructor <;> norm_num)).1⟩

/-- Counterexample to C2 as stated: with the entry 100 Hz usable at index 0 and the target
`100 + 1e-8` Hz, which is within `1e-7` of it, the resolver in NEAREST mode does not return
the table frequency 100 Hz (it returns the target). -/
theorem resolve_exact_match_not_table_entry :
    Usable firstTwoUsable 0 ∧ |(twoNoteTable 0 : ℝ) - (100 + 1 / 100000000)| < 1 / 10000000 ∧
      resolve (MathEnv.mk 261.6256 (Real.log 2) (fun x => 2 ^ x) Real.log)
        twoNoteTable firstTwoUsable 0 (100 + 1 / 100000000) ≠ twoNoteTable 0 := by
  have hnear : |(twoNoteTable 0 : ℝ) - (100 + 1 / 100000000)| < 1 / 10000000 := by
    rw [twoNoteTable_zero, abs_lt]; constructor <;> norm_num
  refine ⟨usable_firstTwo_zero, hnear, ?_⟩
  rw [resolve_of_near _ _ _ _ _ 0 usable_firstTwo_zero hnear, twoNoteTable_zero]
  norm_num

/-- C3 (as amended). Result membership: when some index is usable, the resolver returns
either the target itself (exactly when a usable entry lies within `1e-7` of it), or the
greatest usable table frequency below the target, or the least usable table frequency above
it; in the last two cases the result is `freqs i` for a usable index `i`. -/
theorem resolve_result_membership {α : Type} [LinearOrderedField α] (m : MathEnv α)
    (freqs : Nat → α) (shouldFilter : Nat → Bool) (roundingMode : Int) (t : α)
    (hex : ∃ i, Usable shouldFilter i) :
    ((∃ i, Usable shouldFilter i ∧ |freqs i - t| < 1 / 10000000) ∧
        resolve m freqs shouldFilter roundingMode t = t) ∨
      (NoneNear freqs shouldFilter t ∧
        (GreatestBelow freqs shouldFilter t (resolve m freqs shouldFilter roundingMode t) ∨
          LeastAbove freqs shouldFilter t (resolve m freqs shouldFilter roundingMode t)) ∧
        ∃ i, Usable shouldFilter i ∧ resolve m freqs shouldFilter roundingMode t = freqs i) := by
  by_cases hfar : NoneNear freqs shouldFilter t
  · right
    have key : GreatestBelow freqs shouldFilter t (resolve m freqs shouldFilter roundingMode t) ∨
        LeastAbove freqs shouldFilter t (resolve m freqs shouldFilter roundingMode t) := by
      rcases resolve_sides m freqs shouldFilter roundingMode t hfar with
        ⟨hnone, _⟩ | ⟨_, U, hU, hr⟩ | ⟨_, L, hL, hr⟩ | ⟨L, U, hL, hU, hr⟩
      · obtain ⟨i, hi⟩ := hex
        exact absurd hi (hnone i)
      · right; rw [hr]; exact hU
      · left; rw [hr]; exact hL
      · rw [hr]
        by_cases h1 : roundingMode = -1
        · left; rw [if_pos h1]; exact hL
        · rw [if_neg h1]
          by_cases h2 : roundingMode = 1
          · right; rw [if_pos h2]; exact hU
          · rw [if_neg h2]
            by_cases h3 : t < fmid m L U
            · left; rw [if_pos h3]; exact hL
            · right; rw [if_neg h3]; exact hU
    refine ⟨hfar, key, ?_⟩
    rcases key with ⟨⟨i, hi, e⟩, _⟩ | ⟨⟨i, hi, e⟩, _⟩
    · exact ⟨i, hi, e.symm⟩
    · exact ⟨i, hi, e.symm⟩
  · left
    have hex2 : ∃ j, Usable shouldFilter j ∧ |freqs j - t| < 1 / 10000000 := by
      unfold NoneNear at hfar
      push_neg at hfar
      exact hfar
    obtain ⟨j, hj, hnear⟩ := hex2
    exact ⟨⟨j, hj, hnear⟩, resolve_of_near m freqs shouldFilter roundingMode t j hj hnear⟩

/-- Witness for C3: the two-note table in DOWN mode at 150 Hz; the result is a usable table
entry. -/
theorem resolve_result_membership_witness :
    Usable firstTwoUsable 0 ∧
      ∃ i, Usable firstTwoUsable i ∧
        resolve (MathEnv.mk 261.6256 (Real.log 2) (fun x => 2 ^ x) Real.log)
          twoNoteTable firstTwoUsable (-1) 150 = twoNoteTable i := by
  refine ⟨usable_firstTwo_zero, ?_⟩
  rcases resolve_result_membership (MathEnv.mk 261.6256 (Real.log 2) (fun x => 2 ^ x) Real.log)
      twoNoteTable firstTwoUsable (-1) 150 ⟨0, usable_firstTwo_zero⟩ with
    ⟨⟨j, hj, hnear⟩, _⟩ | ⟨_, _, h⟩
  · exfalso
    exact (twoNote_between 150 (by norm_num) (by norm_num)).1 j hj hnear
  · exact h

/-- Counterexample to C3 as stated: with the two-note table (usable entries 100 Hz and
200 Hz) and the target `200 - 1e-8` Hz in UP mode, the returned frequency is the frequency of
no usable index. -/
theorem resolve_result_not_in_table :
    Usable firstTwoUsable 1 ∧
      ¬ ∃ i, Usable firstTwoUsable i ∧
        resolve (MathEnv.mk 261.6256 (Real.log 2) (fun x => 2 ^ x) Real.log)
          twoNoteTable firstTwoUsable 1 (200 - 1 / 100000000) = twoNoteTable i := by
  have hnear : |(twoNoteTable 1 : ℝ) - (200 - 1 / 100000000)| < 1 / 10000000 := by
    rw [twoNoteTable_one, abs_lt]; constructor <;> norm_num
  refine ⟨usable_firstTwo_one, ?_⟩
  rintro ⟨i, hi, h⟩
  rw [resolve_of_near _ _ _ _ _ 1 usable_firstTwo_one hnear] at h
  rcases usable_firstTwo hi with rfl | rfl
  · rw [twoNoteTable_zero] at h; norm_num at h
  · rw [twoNoteTable_one] at h; norm_num at h

/-- C4. DOWN/UP policy: when no usable entry lies within `1e-7` of the target `t`, DOWN mode
(`roundingMode = -1`) returns the greatest usable frequency below `t` when there is one, UP
mode (`roundingMode = 1`) returns the least usable frequency above `t` when there is one, and
in every rounding mode a target with usable entries on one side only resolves to the
neighbour on that side. -/
theorem resolve_down_up_policy {α : Type} [LinearOrderedField α] (m : MathEnv α)
    (freqs : Nat → α) (shouldFilter : Nat → Bool) (t : α)
    (hfar : NoneNear freqs shouldFilter t) :
    (∀ L, GreatestBelow freqs shouldFilter t L → resolve m freqs shouldFilter (-1) t = L) ∧
      (∀ U, LeastAbove freqs shouldFilter t U → resolve m freqs shouldFilter 1 t = U) ∧
      (∀ roundingMode U, NoneBelow freqs shouldFilter t → LeastAbove freqs shouldFilter t U →
        resolve m freqs shouldFilter roundingMode t = U) ∧
      (∀ roundingMode L, NoneAbove freqs shouldFilter t → GreatestBelow freqs shouldFilter t L →
        resolve m freqs shouldFilter roundingMode t = L) := by
  have lowIdx : ∀ L, GreatestBelow freqs shouldFilter t L →
      ∃ i, Usable shouldFilter i ∧ freqs i < t := by
    rintro L ⟨⟨i, hi, rfl⟩, hlt, _⟩
    exact ⟨i, hi, hlt⟩
  have upIdx : ∀ U, LeastAbove freqs shouldFilter t U →
      ∃ i, Usable shouldFilter i ∧ t < freqs i := by
    rintro U ⟨⟨i, hi, rfl⟩, hlt, _⟩
    exact ⟨i, hi, hlt⟩
  refine ⟨?_, ?_, ?_, ?_⟩
  · intro L hL
    obtain ⟨i, hi, hlt⟩ := lowIdx L hL
    rcases resolve_sides m freqs shouldFilter (-1) t hfar with
      ⟨hnone, _⟩ | ⟨hnb, _⟩ | ⟨_, L', hL', hr⟩ | ⟨L', U', hL', _, hr⟩
    · exact absurd hi (hnone i)
    · exact absurd hlt (hnb i hi)
    · rw [hr]; exact greatestBelow_unique hL' hL
    · rw [hr, if_pos rfl]; exact greatestBelow_unique hL' hL
  · intro U hU
    obtain ⟨i, hi, hlt⟩ := upIdx U hU
    rcases resolve_sides m freqs shouldFilter 1 t hfar with
      ⟨hnone, _⟩ | ⟨_, U', hU', hr⟩ | ⟨hna, _⟩ | ⟨L', U', _, hU', hr⟩
    · exact absurd hi (hnone i)
    · rw [hr]; exact leastAbove_unique hU' hU
    · exact absurd hlt (hna i hi)
    · rw [hr, if_neg (by decide), if_pos rfl]; exact leastAbove_unique hU' hU
  · intro rm U hnb hU
    obtain ⟨i, hi, hlt⟩ := upIdx U hU
    rcases resolve_sides m freqs shouldFilter rm t hfar with
      ⟨hnone, _⟩ | ⟨_, U', hU', hr⟩ | ⟨hna, _⟩ | ⟨L', _, hL', _, _⟩
    · exact absurd hi (hnone i)
    · rw [hr]; exact leastAbove_unique hU' hU
    · exact absurd hlt (hna i hi)
    · obtain ⟨j, hj, hjlt⟩ := lowIdx L' hL'
      exact absurd hjlt (hnb j hj)
  · intro rm L hna hL
    obtain ⟨i, hi, hlt⟩ := lowIdx L hL
    rcases resolve_sides m freqs shouldFilter rm t hfar with
      ⟨hnone, _⟩ | ⟨hnb, _⟩ | ⟨_, L', hL', hr⟩ | ⟨_, U', _, hU', _⟩
    · exact absurd hi (hnone i)
    · exact absurd hlt (hnb i hi)
    · rw [hr]; exact greatestBelow_unique hL' hL
    · obtain ⟨j, hj, hjlt⟩ := upIdx U' hU'
      exact absurd hjlt (hna j hj)

/-- Witness for C4: the two-note table at 150 Hz; DOWN gives 100 Hz and UP gives 200 Hz. -/
theorem resolve_down_up_policy_witness :
    NoneNear (twoNoteTable : Nat → ℝ) firstTwoUsable 150 ∧
      resolve (MathEnv.mk 261.6256 (Real.log 2) (fun x => 2 ^ x) Real.log)
        twoNoteTable firstTwoUsable (-1) 150 = 100 ∧
      resolve (MathEnv.mk 261.6256 (Real.log 2) (fun x => 2 ^ x) Real.log)
        twoNoteTable firstTwoUsable 1 150 = 200 :=
  ⟨(twoNote_between 150 (by norm_num) (by norm_num)).1,
    (resolve_down_up_policy _ twoNoteTable firstTwoUsable 150
      (twoNote_between 150 (by norm_num) (by norm_num)).1).1 100
      (twoNote_between 150 (by norm_num) (by norm_num)).2.1,
    (resolve_down_up_policy _ twoNoteTable firstTwoUsable 150
      (twoNote_between 150 (by norm_num) (by norm_num)).1).2.1 200
      (twoNote_between 150 (by norm_num) (by norm_num)).2.2⟩

/-- C5. NEAREST midpoint rule, over the reals with the exact `pow`/`log`: when the usable
entries nearest to the target `t` are `fLower < t < fUpper` (every usable entry is at most
`fLower` or at least `fUpper`), `fLower` is positive and neither is within `1e-7` of `t`, the
midpoint computed on line 169 is `fLower * 2 ^ (0.5 * log2 (fUpper / fLower))`, which is
`sqrt (fLower * fUpper)`, and with `roundingMode = 0` the resolver returns `fLower` when `t`
is below it and `fUpper` when `t` is at or above it. -/
theorem resolve_nearest_midpoint (m : MathEnv ℝ) (hm : ExactLibm m) (freqs : Nat → ℝ)
    (shouldFilter : Nat → Bool) (t fLower fUpper : ℝ)
    (hL : ∃ i, Usable shouldFilter i ∧ freqs i = fLower)
    (hU : ∃ i, Usable shouldFilter i ∧ freqs i = fUpper)
    (hsplit : ∀ j, Usable shouldFilter j → freqs j ≤ fLower ∨ fUpper ≤ freqs j)
    (hpos : 0 < fLower) (hLt : fLower < t) (htU : t < fUpper)
    (hfarL : ¬ |fLower - t| < 1 / 10000000) (hfarU : ¬ |fUpper - t| < 1 / 10000000) :
    fmid m fLower fUpper = fLower * 2 ^ (1 / 2 * Real.logb 2 (fUpper / fLower)) ∧
      fmid m fLower fUpper = Real.sqrt (fLower * fUpper) ∧
      (t < Real.sqrt (fLower * fUpper) → resolve m freqs shouldFilter 0 t = fLower) ∧
      (Real.sqrt (fLower * fUpper) ≤ t → resolve m freqs shouldFilter 0 t = fUpper) := by
  have hUpos : 0 < fUpper := lt_trans (lt_trans hpos hLt) htU
  have hmid := fmid_eq_sqrt m hm hpos hUpos
  have hgb : GreatestBelow freqs shouldFilter t fLower := by
    refine ⟨hL, hLt, ?_⟩
    intro j hj hlt
    rcases hsplit j hj with h | h
    · exact h
    · exact absurd (lt_of_le_of_lt h hlt) (not_lt.mpr htU.le)
  have hla : LeastAbove freqs shouldFilter t fUpper := by
    refine ⟨hU, htU, ?_⟩
    intro j hj hlt
    rcases hsplit j hj with h | h
    · exact absurd (lt_of_lt_of_le hlt h) (not_lt.mpr hLt.le)
    · exact h
  have hfar : NoneNear freqs shouldFilter t := by
    intro j hj hnear
    rw [abs_lt] at hnear
    rcases hsplit j hj with h | h
    · apply hfarL
      rw [abs_lt]
      constructor <;> linarith [hnear.1, hnear.2]
    · apply hfarU
      rw [abs_lt]
      constructor <;> linarith [hnear.1, hnear.2]
  have hres : resolve m freqs shouldFilter 0 t =
      if t < fmid m fLower fUpper then fLower else fUpper := by
    obtain ⟨i, hi, hfi⟩ := hL
    obtain ⟨k, hk, hfk⟩ := hU
    rcases resolve_sides m freqs shouldFilter 0 t hfar with
      ⟨hnone, _⟩ | ⟨hnb, _⟩ | ⟨hna, _⟩ | ⟨L', U', hL', hU', hr⟩
    · exact absurd hi (hnone i)
    · exact absurd (hfi ▸ hLt) (hnb i hi)
    · exact absurd (hfk ▸ htU) (hna k hk)
    · rw [hr, if_neg (by decide), if_neg (by decide), greatestBelow_unique hL' hgb,
        leastAbove_unique hU' hla]
  refine ⟨?_, hmid, ?_, ?_⟩
  · unfold fmid
    rw [hm.1, hm.2.1, hm.2.2]
    rfl
  · intro h
    rw [hres, if_pos (hmid ▸ h)]
  · intro h
    rw [hres, if_neg (not_lt.mpr (hmid ▸ h))]

/-- Witness for C5: usable entries 100 Hz and 200 Hz.  The midpoint lies between 141.42 and
141.43 Hz; the target 120 Hz resolves to 100 Hz and the target 150 Hz to 200 Hz; and so do
all targets from `100 + 1e-7` up to the midpoint, and from the midpoint up to `200 - 1e-7`. -/
theorem resolve_nearest_midpoint_witness :
    ((141.42 : ℝ) < Real.sqrt (100 * 200) ∧ Real.sqrt (100 * 200) < (141.43 : ℝ)) ∧
      ((120 : ℝ) < Real.sqrt (100 * 200) ∧
        resolve (MathEnv.mk 261.6256 (Real.log 2) (fun x => 2 ^ x) Real.log)
          twoNoteTable firstTwoUsable 0 120 = 100) ∧
      (Real.sqrt (100 * 200) ≤ (150 : ℝ) ∧
        resolve (MathEnv.mk 261.6256 (Real.log 2) (fun x => 2 ^ x) Real.log)
          twoNoteTable firstTwoUsable 0 150 = 200) ∧
      (∀ t : ℝ, 100 + 1 / 10000000 ≤ t → t < Real.sqrt (100 * 200) →
        resolve (MathEnv.mk 261.6256 (Real.log 2) (fun x => 2 ^ x) Real.log)
          twoNoteTable firstTwoUsable 0 t = 100) ∧
      (∀ t : ℝ, Real.sqrt (100 * 200) ≤ t → t + 1 / 10000000 ≤ 200 →
        resolve (MathEnv.mk 261.6256 (Real.log 2) (fun x => 2 ^ x) Real.log)
          twoNoteTable firstTwoUsable 0 t = 200) := by
  have hlow : (120 : ℝ) < Real.sqrt (100 * 200) :=
    (Real.lt_sqrt (by norm_num)).mpr (by norm_num)
  have hhigh : Real.sqrt (100 * 200) ≤ (150 : ℝ) :=
    (Real.sqrt_le_left (by norm_num)).mpr (by norm_num)
  have hmid1 : (141.42 : ℝ) < Real.sqrt (100 * 200) :=
    (Real.lt_sqrt (by norm_num)).mpr (by norm_num)
  have hmid2 : Real.sqrt (100 * 200) < (141.43 : ℝ) :=
    (Real.sqrt_lt' (by norm_num)).mpr (by norm_num)
  have rule : ∀ t : ℝ, 100 + 1 / 10000000 ≤ t → t + 1 / 10000000 ≤ 200 →
      (t < Real.sqrt (100 * 200) →
        resolve (MathEnv.mk 261.6256 (Real.log 2) (fun x => 2 ^ x) Real.log)
          twoNoteTable firstTwoUsable 0 t = 100) ∧
      (Real.sqrt (100 * 200) ≤ t →
        resolve (MathEnv.mk 261.6256 (Real.log 2) (fun x => 2 ^ x) Real.log)
          twoNoteTable firstTwoUsable 0 t = 200) := by
    intro t h1 h2
    exact (resolve_nearest_midpoint _ (exactLibm_real 261.6256) twoNoteTable firstTwoUsable
      t 100 200 ⟨0, usable_firstTwo_zero, rfl⟩ ⟨1, usable_firstTwo_one, rfl⟩ twoNote_split
      (by norm_num) (by linarith) (by linarith)
      (by rw [abs_lt]; intro h; linarith [h.1])
      (by rw [abs_lt]; intro h; linarith [h.2])).2.2
  refine ⟨⟨hmid1, hmid2⟩, ⟨hlow, (rule 120 (by norm_num) (by norm_num)).1 hlow⟩,
    ⟨hhigh, (rule 150 (by norm_num) (by norm_num)).2 hhigh⟩, ?_, ?_⟩
  · intro t h1 h2
    exact (rule t h1 (by linarith)).1 h2
  · intro t h1 h2
    exact (rule t (by linarith) h2).2 h1

end RealResolver

/-! ## The loops of `process` -/

section EngineProofs

/-- A projection that every iteration other than `c` preserves, and that iteration `c`
computes from the projection alone, is after the loop what iteration `c` makes of the
initial state. -/
theorem forLoop_local {σ β : Type} (body : Nat → σ → σ) (proj : σ → β) (c : Nat)
    (hother : ∀ j s, j ≠ c → proj (body j s) = proj s)
    (hdep : ∀ s s', proj s = proj s' → proj (body c s) = proj (body c s')) :
    ∀ (n i : Nat) (s : σ),
      proj (forLoop body n i s) = if i ≤ c ∧ c < i + n then proj (body c s) else proj s := by
  intro n
  induction n with
  | zero =>
    intro i s
    have h : ¬ (i ≤ c ∧ c < i + 0) := by omega
    rw [if_neg h]
    rfl
  | succ n ih =>
    intro i s
    show proj (forLoop body n (i + 1) (body i s)) = _
    rw [ih (i + 1) (body i s)]
    by_cases hic : i = c
    · subst hic
      have h1 : ¬ (i + 1 ≤ i ∧ i < i + 1 + n) := by omega
      have h2 : i ≤ i ∧ i < i + (n + 1) := by omega
      rw [if_neg h1, if_pos h2]
    · have e := hother i s hic
      by_cases h : i + 1 ≤ c ∧ c < i + 1 + n
      · have h2 : i ≤ c ∧ c < i + (n + 1) := by omega
        rw [if_pos h, if_pos h2]
        exact hdep _ _ e
      · have h2 : ¬ (i ≤ c ∧ c < i + (n + 1)) := by omega
        rw [if_neg h, if_neg h2]
        exact e

/-- A projection that every iteration preserves is unchanged by the loop. -/
theorem forLoop_preserved {σ β : Type} (body : Nat → σ → σ) (proj : σ → β)
    (h : ∀ j s, proj (body j s) = proj s) :
    ∀ (n i : Nat) (s : σ), proj (forLoop body n i s) = proj s := by
  intro n
  induction n with
  | zero => intro i s; rfl
  | succ n ih =>
    intro i s
    show proj (forLoop body n (i + 1) (body i s)) = _
    rw [ih, h]

end EngineProofs

section RefreshProofs

variable {α : Type} [LinearOrderedField α]

/-- The refresh loop: the entries visited hold the provider's frequencies, and
`freqsUpdated` is set exactly when it was set before or some visited entry differed. -/
theorem refreshLoop_spec (t : Tick α) :
    ∀ (n i : Nat) (s : (Nat → α) × Bool),
      (∀ j, (forLoop (refreshStep t) n i s).1 j =
          if i ≤ j ∧ j < i + n then t.noteToFrequency j else s.1 j) ∧
        ((forLoop (refreshStep t) n i s).2 = true ↔
          (s.2 = true ∨ ∃ j, i ≤ j ∧ j < i + n ∧ t.noteToFrequency j ≠ s.1 j)) := by
  intro n
  induction n with
  | zero =>
    intro i s
    refine ⟨fun j => ?_, ?_⟩
    · have h : ¬ (i ≤ j ∧ j < i + 0) := by omega
      rw [if_neg h]; rfl
    · show s.2 = true ↔ _
      constructor
      · intro h; exact Or.inl h
      · rintro (h | ⟨j, h1, h2, _⟩)
        · exact h
        · omega
  | succ n ih =>
    intro i s
    have hstep1 : ∀ j, (refreshStep t i s).1 j = if j = i then t.noteToFrequency j else s.1 j := by
      intro j
      unfold refreshStep
      by_cases hne : t.noteToFrequency i ≠ s.1 i
      · rw [if_pos hne]
        by_cases hj : j = i
        · subst hj; simp
        · simp [hj]
      · rw [if_neg hne]
        by_cases hj : j = i
        · subst hj; simp; exact (not_not.mp hne).symm
        · simp [hj]
    have hstep2 : (refreshStep t i s).2 = true ↔ (s.2 = true ∨ t.noteToFrequency i ≠ s.1 i) := by
      unfold refreshStep
      by_cases hne : t.noteToFrequency i ≠ s.1 i
      · rw [if_pos hne]; simp [hne]
      · rw [if_neg hne]; simp [hne]
    obtain ⟨ih1, ih2⟩ := ih (i + 1) (refreshStep t i s)
    refine ⟨fun j => ?_, ?_⟩
    · show (forLoop (refreshStep t) n (i + 1) (refreshStep t i s)).1 j = _
      rw [ih1 j, hstep1 j]
      by_cases hj : j = i
      · subst hj
        have h1 : ¬ (j + 1 ≤ j ∧ j < j + 1 + n) := by omega
        have h2 : j ≤ j ∧ j < j + (n + 1) := by omega
        rw [if_neg h1, if_pos h2, if_pos rfl]
      · by_cases h : i + 1 ≤ j ∧ j < i + 1 + n
        · have h2 : i ≤ j ∧ j < i + (n + 1) := by omega
          rw [if_pos h, if_pos h2]
        · have h2 : ¬ (i ≤ j ∧ j < i + (n + 1)) := by omega
          rw [if_neg h, if_neg h2, if_neg hj]
    · show (forLoop (refreshStep t) n (i + 1) (refreshStep t i s)).2 = true ↔ _
      rw [ih2, hstep2]
      constructor
      · rintro ((h | h) | ⟨j, h1, h2, h3⟩)
        · exact Or.inl h
        · exact Or.inr ⟨i, le_refl i, by omega, h⟩
        · refine Or.inr ⟨j, by omega, by omega, ?_⟩
          rw [hstep1 j, if_neg (by omega)] at h3
          exact h3
      · rintro (h | ⟨j, h1, h2, h3⟩)
        · exact Or.inl (Or.inl h)
        · by_cases hj : j = i
          · subst hj; exact Or.inl (Or.inr h3)
          · refine Or.inr ⟨j, by omega, by omega, ?_⟩
            rw [hstep1 j, if_neg hj]
            exact h3

end RefreshProofs

section ViewProofs

variable {α : Type}

theorem tickView_eq {q q' : Quantizer α} {c : Nat} :
    tickView c q = tickView c q' ↔
      (q.tuningMode = q'.tuningMode ∧ q.hasMaster = q'.hasMaster ∧ q.bypassed = q'.bypassed ∧
        q.roundingMode = q'.roundingMode ∧ q.freqs = q'.freqs ∧
        q.rateLimiterPhase = q'.rateLimiterPhase ∧ q.cvOutChannels = q'.cvOutChannels ∧
        q.triggerChannels = q'.triggerChannels ∧ q.connectedLight = q'.connectedLight) ∧
      (q.pulseGenerators c = q'.pulseGenerators c ∧ q.cv_out c = q'.cv_out c ∧
        q.last_cv_in c = q'.last_cv_in c ∧ q.last_cv_out c = q'.last_cv_out c ∧
        q.cvOutPort c = q'.cvOutPort c ∧ q.triggerPort c = q'.triggerPort c ∧
        q.triggerCalled c = q'.triggerCalled c) := by
  simp only [tickView, sharedView, chanView, Prod.mk.injEq]

theorem chanView_eq {q q' : Quantizer α} {c : Nat} (h : chanView q c = chanView q' c) :
    q.pulseGenerators c = q'.pulseGenerators c ∧ q.cv_out c = q'.cv_out c ∧
      q.last_cv_in c = q'.last_cv_in c ∧ q.last_cv_out c = q'.last_cv_out c ∧
      q.cvOutPort c = q'.cvOutPort c ∧ q.triggerPort c = q'.triggerPort c ∧
      q.triggerCalled c = q'.triggerCalled c := by
  simpa only [chanView, Prod.mk.injEq] using h

theorem throttledChannel_other (j c : Nat) (q : Quantizer α) (h : j ≠ c) :
    tickView c (throttledChannel j q) = tickView c q := by
  have hc : c ≠ j := fun e => h e.symm
  rw [tickView_eq]; simp [throttledChannel, Function.update_noteq hc]

theorem throttledChannel_dep (c : Nat) (q q' : Quantizer α)
    (h : tickView c q = tickView c q') :
    tickView c (throttledChannel c q) = tickView c (throttledChannel c q') := by
  rw [tickView_eq] at h
  obtain ⟨⟨h1, h2, h3, h4, h5, h6, h7, h8, h9⟩, k1, k2, k3, k4, k5, k6, k7⟩ := h
  rw [tickView_eq]; simp [throttledChannel, *]

theorem throttledLoop_view (n : Nat) (q : Quantizer α) (c : Nat) :
    tickView c (forLoop throttledChannel n 0 q) =
      if c < n then tickView c (throttledChannel c q) else tickView c q := by
  have h := forLoop_local throttledChannel (tickView c) c
    (fun j s hj => throttledChannel_other j c s hj)
    (fun s s' hs => throttledChannel_dep c s s' hs) n 0 q
  simp only [Nat.zero_le, true_and, Nat.zero_add] at h
  exact h

end ViewProofs

section PlainBodyProofs

variable {α : Type} [LinearOrderedField α]

theorem emitChannel_other (t : Tick α) (vin : α) (j c : Nat) (q : Quantizer α)
    (h : j ≠ c) : tickView c (emitChannel t j vin q) = tickView c q := by
  have hc : c ≠ j := fun e => h e.symm
  rw [tickView_eq]
  by_cases hne : q.cv_out j = q.last_cv_out j
  · simp [emitChannel, hne, Function.update_noteq hc]
  · simp [emitChannel, hne, Function.update_noteq hc]

theorem emitChannel_dep (t : Tick α) (vin : α) (c : Nat) (q q' : Quantizer α)
    (h : tickView c q = tickView c q') :
    tickView c (emitChannel t c vin q) = tickView c (emitChannel t c vin q') := by
  rw [tickView_eq] at h
  obtain ⟨⟨h1, h2, h3, h4, h5, h6, h7, h8, h9⟩, k1, k2, k3, k4, k5, k6, k7⟩ := h
  rw [tickView_eq]
  by_cases hne : q'.cv_out c = q'.last_cv_out c
  · have hne' : q.cv_out c = q.last_cv_out c := by rw [k2, k4]; exact hne
    simp [emitChannel, hne, hne', *]
  · have hne' : ¬ q.cv_out c = q.last_cv_out c := by rw [k2, k4]; exact hne
    simp [emitChannel, hne, hne', *]

theorem passChannel_other (t : Tick α) (j c : Nat) (q : Quantizer α) (h : j ≠ c) :
    tickView c (passChannel t j q) = tickView c q := by
  have hc : c ≠ j := fun e => h e.symm
  rw [tickView_eq]; simp [passChannel, Function.update_noteq hc]

theorem passChannel_dep (t : Tick α) (c : Nat) (q q' : Quantizer α)
    (h : tickView c q = tickView c q') :
    tickView c (passChannel t c q) = tickView c (passChannel t c q') := by
  rw [tickView_eq] at h
  obtain ⟨⟨h1, h2, h3, h4, h5, h6, h7, h8, h9⟩, k1, k2, k3, k4, k5, k6, k7⟩ := h
  rw [tickView_eq]; simp [passChannel, *]

theorem passLoop_view (t : Tick α) (q : Quantizer α) (c : Nat) :
    tickView c (forLoop (passChannel t) t.channels 0 q) =
      if c < t.channels then tickView c (passChannel t c q) else tickView c q := by
  have h := forLoop_local (passChannel t) (tickView c) c
    (fun j s hj => passChannel_other t j c s hj)
    (fun s s' hs => passChannel_dep t c s s' hs) t.channels 0 q
  simp only [Nat.zero_le, true_and, Nat.zero_add] at h
  exact h

end PlainBodyProofs

section BodyProofs

variable {α : Type} [LinearOrderedField α] [FloorRing α]

theorem recompute_other (m : MathEnv α) (t : Tick α) (vin : α) (j c : Nat) (q : Quantizer α)
    (h : j ≠ c) : tickView c (recompute m t j vin q) = tickView c q := by
  have hc : c ≠ j := fun e => h e.symm
  rw [tickView_eq]
  unfold recompute midiKeyBranch
  by_cases h0 : q.tuningMode = 0
  · rw [if_pos h0]; simp [Function.update_noteq hc]
  · rw [if_neg h0]
    by_cases hf : t.shouldFilterNote (midikey vin).toNat = true
    · simp [hf]
    · simp [hf, Function.update_noteq hc]

theorem recompute_dep (m : MathEnv α) (t : Tick α) (vin : α) (c : Nat) (q q' : Quantizer α)
    (h : tickView c q = tickView c q') :
    tickView c (recompute m t c vin q) = tickView c (recompute m t c vin q') := by
  rw [tickView_eq] at h
  obtain ⟨⟨h1, h2, h3, h4, h5, h6, h7, h8, h9⟩, k1, k2, k3, k4, k5, k6, k7⟩ := h
  rw [tickView_eq]
  unfold recompute midiKeyBranch
  rw [h1, h4, h5]
  by_cases h0 : q'.tuningMode = 0
  · rw [if_pos h0, if_pos h0]; simp [*]
  · rw [if_neg h0, if_neg h0]
    by_cases hf : t.shouldFilterNote (midikey vin).toNat = true
    · simp [hf, *]
    · simp [hf, *]

theorem updateOutput_other (m : MathEnv α) (t : Tick α) (fu : Bool) (vin : α) (j c : Nat)
    (q : Quantizer α) (h : j ≠ c) :
    tickView c (updateOutput m t fu j vin q) = tickView c q := by
  have hc : c ≠ j := fun e => h e.symm
  unfold updateOutput
  split_ifs
  · rw [tickView_eq]; simp [Function.update_noteq hc]
  · exact recompute_other m t _ j c q h

theorem updateOutput_dep (m : MathEnv α) (t : Tick α) (fu : Bool) (vin : α) (c : Nat)
    (q q' : Quantizer α) (h : tickView c q = tickView c q') :
    tickView c (updateOutput m t fu c vin q) = tickView c (updateOutput m t fu c vin q') := by
  unfold updateOutput
  have h' := h
  rw [tickView_eq] at h'
  obtain ⟨⟨h1, h2, h3, h4, h5, h6, h7, h8, h9⟩, k1, k2, k3, k4, k5, k6, k7⟩ := h'
  rw [k3]
  split_ifs
  · rw [tickView_eq]; simp [*]
  · exact recompute_dep m t _ c q q' h

theorem quantizeChannel_other (m : MathEnv α) (t : Tick α) (fu : Bool) (j c : Nat)
    (q : Quantizer α) (h : j ≠ c) :
    tickView c (quantizeChannel m t fu j q) = tickView c q := by
  unfold quantizeChannel
  simp only []
  rw [emitChannel_other t _ j c _ h, updateOutput_other m t fu _ j c q h]

theorem quantizeChannel_dep (m : MathEnv α) (t : Tick α) (fu : Bool) (c : Nat)
    (q q' : Quantizer α) (h : tickView c q = tickView c q') :
    tickView c (quantizeChannel m t fu c q) = tickView c (quantizeChannel m t fu c q') := by
  unfold quantizeChannel
  simp only []
  exact emitChannel_dep t _ c _ _ (updateOutput_dep m t fu _ c q q' h)

end BodyProofs

/-! ## One tick, channel by channel -/

section ProcessProofs

variable {α : Type} [LinearOrderedField α] [FloorRing α]

theorem throttle_of_no_master (t : Tick α) (q : Quantizer α) (hm : t.master = false) :
    throttle t q = false := by
  unfold throttle
  split_ifs
  · rfl
  · simp [hm]

theorem process_throttled (m : MathEnv α) (t : Tick α) (q : Quantizer α)
    (hthr : throttle t q = true) :
    process m t q =
      { forLoop throttledChannel t.channels 0 (preTick t q) with
        cvOutChannels := t.channels, triggerChannels := t.channels } := by
  unfold process
  simp only []
  rw [if_pos hthr]

theorem process_master (m : MathEnv α) (t : Tick α) (q : Quantizer α)
    (hthr : throttle t q = false) (hm : t.master = true) :
    process m t q =
      { masterBranch m t q.hasMaster q.roundingMode (preTick t q) with
        cvOutChannels := t.channels, triggerChannels := t.channels } := by
  have h1 : ¬ (throttle t q = true) := by rw [hthr]; simp
  have h2 : (preTick t q).hasMaster = true := hm
  unfold process
  simp only []
  rw [if_neg h1, if_pos h2]

theorem process_no_master (m : MathEnv α) (t : Tick α) (q : Quantizer α)
    (hm : t.master = false) :
    process m t q =
      { forLoop (passChannel t) t.channels 0 (preTick t q) with
        cvOutChannels := t.channels, triggerChannels := t.channels } := by
  have h1 : ¬ (throttle t q = true) := by rw [throttle_of_no_master t q hm]; simp
  have h2 : ¬ ((preTick t q).hasMaster = true) := by
    show ¬ (t.master = true)
    rw [hm]; simp
  unfold process
  simp only []
  rw [if_neg h1, if_neg h2]

theorem masterBranch_view (m : MathEnv α) (t : Tick α) (q : Quantizer α) (c : Nat) :
    tickView c (masterBranch m t q.hasMaster q.roundingMode (preTick t q)) =
      if c < t.channels then
        tickView c (quantizeChannel m t (freqsUpdated t q) c (tickStart t q))
      else tickView c (tickStart t q) := by
  have h := forLoop_local (quantizeChannel m t (freqsUpdated t q)) (tickView c) c
    (fun j s hj => quantizeChannel_other m t _ j c s hj)
    (fun s s' hs => quantizeChannel_dep m t _ c s s' hs) t.channels 0 (tickStart t q)
  simp only [Nat.zero_le, true_and, Nat.zero_add] at h
  exact h

/-- The channel part of the state after a tick that takes the `hasMaster` branch. -/
theorem process_master_chan (m : MathEnv α) (t : Tick α) (q : Quantizer α) (c : Nat)
    (hthr : throttle t q = false) (hm : t.master = true) (hc : c < t.channels) :
    chanView (process m t q) c =
      chanView (quantizeChannel m t (freqsUpdated t q) c (tickStart t q)) c := by
  rw [process_master m t q hthr hm]
  have h := masterBranch_view m t q c
  rw [if_pos hc] at h
  exact congrArg Prod.snd h

/-- The channel part of the state after a tick without master. -/
theorem process_no_master_chan (m : MathEnv α) (t : Tick α) (q : Quantizer α) (c : Nat)
    (hm : t.master = false) (hc : c < t.channels) :
    chanView (process m t q) c = chanView (passChannel t c (preTick t q)) c := by
  rw [process_no_master m t q hm]
  have h := passLoop_view t (preTick t q) c
  rw [if_pos hc] at h
  exact congrArg Prod.snd h

/-- The channel part of the state after a throttled tick. -/
theorem process_throttled_chan (m : MathEnv α) (t : Tick α) (q : Quantizer α) (c : Nat)
    (hthr : throttle t q = true) :
    chanView (process m t q) c =
      if c < t.channels then chanView (throttledChannel c (preTick t q)) c
      else chanView (preTick t q) c := by
  rw [process_throttled m t q hthr]
  have h := throttledLoop_view t.channels (preTick t q) c
  by_cases hc : c < t.channels
  · rw [if_pos hc] at h; rw [if_pos hc]; exact congrArg Prod.snd h
  · rw [if_neg hc] at h; rw [if_neg hc]; exact congrArg Prod.snd h

/-- The shared part of the state after a tick that takes the `hasMaster` branch, up to the
channel counts of the ports. -/
theorem process_master_shared (m : MathEnv α) (t : Tick α) (q : Quantizer α)
    (hthr : throttle t q = false) (hm : t.master = true) :
    (process m t q).tuningMode = q.tuningMode ∧ (process m t q).hasMaster = t.master ∧
      (process m t q).bypassed = false ∧
      (process m t q).roundingMode = cround t.roundingParam ∧
      (process m t q).freqs = (tickStart t q).freqs := by
  rw [process_master m t q hthr hm]
  have h := masterBranch_view m t q t.channels
  rw [if_neg (lt_irrefl _), tickView_eq] at h
  obtain ⟨⟨h1, h2, h3, h4, h5, _⟩, _⟩ := h
  exact ⟨h1, h2, h3, h4, h5⟩

/-- The shared part of the state after a throttled tick or a tick without master. -/
theorem process_other_shared (m : MathEnv α) (t : Tick α) (q : Quantizer α)
    (h : throttle t q = true ∨ t.master = false) :
    (process m t q).tuningMode = q.tuningMode ∧ (process m t q).hasMaster = t.master ∧
      (process m t q).bypassed = false ∧
      (process m t q).roundingMode = cround t.roundingParam ∧
      (process m t q).freqs = q.freqs := by
  by_cases hthr : throttle t q = true
  · rw [process_throttled m t q hthr]
    have h := throttledLoop_view t.channels (preTick t q) t.channels
    rw [if_neg (lt_irrefl _), tickView_eq] at h
    obtain ⟨⟨h1, h2, h3, h4, h5, _⟩, _⟩ := h
    exact ⟨h1, h2, h3, h4, h5⟩
  · have hm : t.master = false := by
      rcases h with h | h
      · exact absurd h hthr
      · exact h
    rw [process_no_master m t q hm]
    have h := passLoop_view t (preTick t q) t.channels
    rw [if_neg (lt_irrefl _), tickView_eq] at h
    obtain ⟨⟨h1, h2, h3, h4, h5, _⟩, _⟩ := h
    exact ⟨h1, h2, h3, h4, h5⟩

/-- After any `process` tick: the master flag and rounding mode are those of the tick and
`bypassed` is clear. -/
theorem process_flags (m : MathEnv α) (t : Tick α) (q : Quantizer α) :
    (process m t q).hasMaster = t.master ∧ (process m t q).bypassed = false ∧
      (process m t q).roundingMode = cround t.roundingParam ∧
      (process m t q).tuningMode = q.tuningMode := by
  by_cases hthr : throttle t q = true
  · obtain ⟨h1, h2, h3, h4, _⟩ := process_other_shared m t q (Or.inl hthr)
    exact ⟨h2, h3, h4, h1⟩
  · by_cases hm : t.master = true
    · obtain ⟨h1, h2, h3, h4, _⟩ :=
        process_master_shared m t q (by simpa using hthr) hm
      exact ⟨h2, h3, h4, h1⟩
    · obtain ⟨h1, h2, h3, h4, _⟩ :=
        process_other_shared m t q (Or.inr (by simpa using hm))
      exact ⟨h2, h3, h4, h1⟩

end ProcessProofs

section EmitProofs

variable {α : Type} [LinearOrderedField α]

/-- Lines 207-217 on their own channel. -/
theorem emitChannel_self (t : Tick α) (c : Nat) (vin : α) (q : Quantizer α) :
    (emitChannel t c vin q).cv_out c = q.cv_out c ∧
      (emitChannel t c vin q).last_cv_in c = vin ∧
      (emitChannel t c vin q).cvOutPort c = Volt.finite (q.cv_out c) ∧
      (emitChannel t c vin q).last_cv_out c = q.cv_out c ∧
      ((emitChannel t c vin q).triggerCalled c = true ↔
        (q.cv_out c ≠ q.last_cv_out c ∨ q.triggerCalled c = true)) ∧
      (emitChannel t c vin q).pulseGenerators c =
        (pulseProcess
          (if q.cv_out c ≠ q.last_cv_out c then pulseTrigger (q.pulseGenerators c) (1 / 1000)
            else q.pulseGenerators c) t.sampleTime).2 ∧
      (emitChannel t c vin q).triggerPort c =
        if (pulseProcess
          (if q.cv_out c ≠ q.last_cv_out c then pulseTrigger (q.pulseGenerators c) (1 / 1000)
            else q.pulseGenerators c) t.sampleTime).1 then 10 else 0 := by
  by_cases hne : q.cv_out c = q.last_cv_out c
  · simp [emitChannel, hne]
  · simp [emitChannel, hne]

end EmitProofs

section ChannelFacts

variable {α : Type} [LinearOrderedField α] [FloorRing α]

/-- The recomputation writes `cv_out[c]` and nothing else. -/
theorem recompute_frame (m : MathEnv α) (t : Tick α) (c : Nat) (vin : α) (q : Quantizer α) :
    recompute m t c vin q =
      { q with cv_out := Function.update q.cv_out c ((recompute m t c vin q).cv_out c) } := by
  unfold recompute midiKeyBranch
  by_cases h0 : q.tuningMode = 0
  · rw [if_pos h0]; simp
  · rw [if_neg h0]
    by_cases hf : t.shouldFilterNote (midikey vin).toNat = true
    · simp [hf]
    · simp [hf]

/-- Lines 114-205 write `cv_out[c]` and nothing else. -/
theorem updateOutput_frame (m : MathEnv α) (t : Tick α) (fu : Bool) (c : Nat) (vin : α)
    (q : Quantizer α) :
    updateOutput m t fu c vin q =
      { q with cv_out :=
          Function.update q.cv_out c ((updateOutput m t fu c vin q).cv_out c) } := by
  unfold updateOutput
  split_ifs
  · simp
  · exact recompute_frame m t c vin q

/-- The body of the channel loop of the `hasMaster` branch on its own channel, in terms of
the output `cv_out[c]` that lines 114-205 leave. -/
theorem quantizeChannel_self (m : MathEnv α) (t : Tick α) (fu : Bool) (c : Nat)
    (q : Quantizer α) :
    (quantizeChannel m t fu c q).cv_out c =
        (updateOutput m t fu c (sanitize (t.voltage c)) q).cv_out c ∧
      (quantizeChannel m t fu c q).last_cv_in c = sanitize (t.voltage c) ∧
      (quantizeChannel m t fu c q).cvOutPort c =
        Volt.finite ((updateOutput m t fu c (sanitize (t.voltage c)) q).cv_out c) ∧
      (quantizeChannel m t fu c q).last_cv_out c =
        (updateOutput m t fu c (sanitize (t.voltage c)) q).cv_out c ∧
      ((quantizeChannel m t fu c q).triggerCalled c = true ↔
        ((updateOutput m t fu c (sanitize (t.voltage c)) q).cv_out c ≠ q.last_cv_out c ∨
          q.triggerCalled c = true)) ∧
      (quantizeChannel m t fu c q).pulseGenerators c =
        (pulseProcess
          (if (updateOutput m t fu c (sanitize (t.voltage c)) q).cv_out c ≠ q.last_cv_out c
            then pulseTrigger (q.pulseGenerators c) (1 / 1000)
            else q.pulseGenerators c) t.sampleTime).2 := by
  have hf := updateOutput_frame m t fu c (sanitize (t.voltage c)) q
  have h1 : (updateOutput m t fu c (sanitize (t.voltage c)) q).last_cv_out = q.last_cv_out := by
    rw [hf]
  have h2 : (updateOutput m t fu c (sanitize (t.voltage c)) q).triggerCalled
      = q.triggerCalled := by rw [hf]
  have h3 : (updateOutput m t fu c (sanitize (t.voltage c)) q).pulseGenerators
      = q.pulseGenerators := by rw [hf]
  obtain ⟨e1, e2, e3, e4, e5, e6, _⟩ :=
    emitChannel_self t c (sanitize (t.voltage c))
      (updateOutput m t fu c (sanitize (t.voltage c)) q)
  rw [h1, h2] at e5
  rw [h1, h3] at e6
  exact ⟨e1, e2, e3, e4, e5, e6⟩

end ChannelFacts


/-! ## Table refresh, skip branch and recomputation -/

section TickFacts

variable {α : Type} [LinearOrderedField α] [FloorRing α]

/-- The flag `freqsUpdated` is set exactly when the master flag changed, the rounding mode
changed, or some table entry differs from the provider's. -/
theorem freqsUpdated_iff (t : Tick α) (q : Quantizer α) :
    freqsUpdated t q = true ↔
      (t.master ≠ q.hasMaster ∨ cround t.roundingParam ≠ q.roundingMode ∨
        ∃ j, j < 128 ∧ t.noteToFrequency j ≠ q.freqs j) := by
  have h := (refreshLoop_spec t 128 0
    (q.freqs, (t.master != q.hasMaster) || (cround t.roundingParam != q.roundingMode))).2
  have e : freqsUpdated t q = (forLoop (refreshStep t) 128 0
    (q.freqs, (t.master != q.hasMaster) || (cround t.roundingParam != q.roundingMode))).2 := rfl
  rw [e, h]
  simp only [Bool.or_eq_true, bne_iff_ne, ne_eq, Nat.zero_le, true_and, Nat.zero_add]
  constructor
  · rintro ((h1 | h1) | h1)
    · exact Or.inl h1
    · exact Or.inr (Or.inl h1)
    · exact Or.inr (Or.inr h1)
  · rintro (h1 | h1 | h1)
    · exact Or.inl (Or.inl h1)
    · exact Or.inl (Or.inr h1)
    · exact Or.inr h1

/-- The table at the start of the channel loop holds the provider's frequencies. -/
theorem tickStart_freqs (t : Tick α) (q : Quantizer α) (j : Nat) :
    (tickStart t q).freqs j = if j < 128 then t.noteToFrequency j else q.freqs j := by
  have h := (refreshLoop_spec t 128 0
    (q.freqs, (t.master != q.hasMaster) || (cround t.roundingParam != q.roundingMode))).1 j
  simp only [Nat.zero_le, true_and, Nat.zero_add] at h
  exact h

theorem updateOutput_of_updated (m : MathEnv α) (t : Tick α) (c : Nat) (vin : α)
    (q : Quantizer α) : updateOutput m t true c vin q = recompute m t c vin q := by
  unfold updateOutput
  simp

theorem updateOutput_of_changed (m : MathEnv α) (t : Tick α) (fu : Bool) (c : Nat) (vin : α)
    (q : Quantizer α) (h : vin ≠ q.last_cv_in c) :
    updateOutput m t fu c vin q = recompute m t c vin q := by
  unfold updateOutput
  simp [h]

theorem updateOutput_skip (m : MathEnv α) (t : Tick α) (c : Nat) (vin : α)
    (q : Quantizer α) (h : vin = q.last_cv_in c) :
    (updateOutput m t false c vin q).cv_out c = q.last_cv_out c := by
  unfold updateOutput
  simp [h]

theorem recompute_continuous (m : MathEnv α) (t : Tick α) (c : Nat) (vin : α)
    (q : Quantizer α) (h : q.tuningMode = 0) :
    (recompute m t c vin q).cv_out c =
      m.log (qfun m q.freqs t.shouldFilterNote q.roundingMode vin / m.FREQ_C4) / m.ln2 := by
  unfold recompute
  rw [if_pos h]
  simp

theorem recompute_midikey (m : MathEnv α) (t : Tick α) (c : Nat) (vin : α)
    (q : Quantizer α) (h : q.tuningMode ≠ 0)
    (hf : t.shouldFilterNote (midikey vin).toNat = false) :
    (recompute m t c vin q).cv_out c =
      stayInTuning m q.freqs t.shouldFilterNote q.roundingMode
        (m.log (q.freqs (midikey vin).toNat / m.FREQ_C4) / m.ln2) := by
  unfold recompute midiKeyBranch
  rw [if_neg h]
  simp [hf]

/-- What a non-throttled tick with master leaves on a channel below the channel count, in
terms of the output of lines 114-205. -/
theorem master_tick_out (m : MathEnv α) (t : Tick α) (q : Quantizer α) (c : Nat)
    (hthr : throttle t q = false) (hm : t.master = true) (hc : c < t.channels) :
    (process m t q).cvOutPort c = Volt.finite
        ((updateOutput m t (freqsUpdated t q) c (sanitize (t.voltage c)) (tickStart t q)).cv_out c) ∧
      (process m t q).last_cv_out c =
        (updateOutput m t (freqsUpdated t q) c (sanitize (t.voltage c)) (tickStart t q)).cv_out c ∧
      (process m t q).last_cv_in c = sanitize (t.voltage c) ∧
      ((process m t q).triggerCalled c = true ↔
        (updateOutput m t (freqsUpdated t q) c (sanitize (t.voltage c)) (tickStart t q)).cv_out c
          ≠ q.last_cv_out c) := by
  obtain ⟨_, _, p3, p4, p5, _, p7⟩ := chanView_eq (process_master_chan m t q c hthr hm hc)
  obtain ⟨_, e2, e3, e4, e5, _⟩ :=
    quantizeChannel_self m t (freqsUpdated t q) c (tickStart t q)
  have ht : ¬ ((tickStart t q).triggerCalled c = true) := by
    show ¬ (false = true)
    simp
  rw [p3, p4, p5, p7]
  refine ⟨e3, e4, e2, ?_⟩
  rw [e5]
  constructor
  · rintro (h | h)
    · exact h
    · exact absurd h ht
  · intro h; exact Or.inl h

/-- What a throttled tick leaves: the emitted voltage is `last_cv_out[c]`, and the
per-channel state is as before. -/
theorem throttled_tick_out (m : MathEnv α) (t : Tick α) (q : Quantizer α) (c : Nat)
    (hthr : throttle t q = true) :
    (c < t.channels → (process m t q).cvOutPort c = Volt.finite (q.last_cv_out c)) ∧
      (process m t q).pulseGenerators c = q.pulseGenerators c ∧
      (process m t q).cv_out c = q.cv_out c ∧
      (process m t q).last_cv_in c = q.last_cv_in c ∧
      (process m t q).last_cv_out c = q.last_cv_out c ∧
      (process m t q).triggerCalled c = false := by
  have h := process_throttled_chan m t q c hthr
  by_cases hc : c < t.channels
  · rw [if_pos hc] at h
    obtain ⟨k1, k2, k3, k4, k5, _, k7⟩ := chanView_eq h
    rw [k1, k2, k3, k4, k5, k7]
    refine ⟨fun _ => ?_, rfl, rfl, rfl, rfl, rfl⟩
    simp [throttledChannel, preTick]
  · rw [if_neg hc] at h
    obtain ⟨k1, k2, k3, k4, _, _, k7⟩ := chanView_eq h
    rw [k1, k2, k3, k4, k7]
    exact ⟨fun h => absurd h hc, rfl, rfl, rfl, rfl, rfl⟩

/-- The throttle flag in terms of the stored state. -/
theorem throttle_iff (t : Tick α) (q : Quantizer α) :
    throttle t q = true ↔
      (advancedPhase t q < 1 ∧ t.master = true ∧ q.hasMaster = true ∧
        cround t.roundingParam = q.roundingMode ∧ q.bypassed = false) := by
  unfold throttle
  by_cases hp : advancedPhase t q ≥ 1
  · rw [if_pos hp]
    constructor
    · intro h; cases h
    · rintro ⟨h, _⟩; exact absurd hp (not_le.mpr h)
  · rw [if_neg hp]
    simp only [Bool.and_eq_true, beq_iff_eq, Bool.not_eq_true', not_le.mp hp, true_and]
    constructor
    · rintro ⟨⟨⟨h1, h2⟩, h3⟩, h4⟩
      exact ⟨h1, by rw [← h2, h1], h3, h4⟩
    · rintro ⟨h1, h2, h3, h4⟩
      exact ⟨⟨⟨h1, by rw [h1, h2]⟩, h3⟩, h4⟩

end TickFacts

section BypassFacts

variable {α : Type} [LinearOrderedField α]

/-- The fields `processBypass` keeps or sets. -/
theorem processBypass_fields (t : Tick α) (q : Quantizer α) :
    (processBypass t q).hasMaster = t.master ∧ (processBypass t q).bypassed = true ∧
      (processBypass t q).roundingMode = q.roundingMode ∧
      (processBypass t q).tuningMode = q.tuningMode ∧
      (processBypass t q).freqs = q.freqs ∧
      (processBypass t q).cv_out = q.cv_out ∧
      (processBypass t q).last_cv_in = q.last_cv_in ∧
      (processBypass t q).last_cv_out = q.last_cv_out ∧
      (processBypass t q).rateLimiterPhase = q.rateLimiterPhase := by
  refine ⟨?_, ?_, ?_, ?_, ?_, ?_, ?_, ?_, ?_⟩
  · exact (forLoop_preserved (bypassChannel t) (fun s : Quantizer α => s.hasMaster)
      (fun _ _ => rfl) t.channels 0 _).trans rfl
  · exact (forLoop_preserved (bypassChannel t) (fun s : Quantizer α => s.bypassed)
      (fun _ _ => rfl) t.channels 0 _).trans rfl
  · exact (forLoop_preserved (bypassChannel t) (fun s : Quantizer α => s.roundingMode)
      (fun _ _ => rfl) t.channels 0 _).trans rfl
  · exact (forLoop_preserved (bypassChannel t) (fun s : Quantizer α => s.tuningMode)
      (fun _ _ => rfl) t.channels 0 _).trans rfl
  · exact (forLoop_preserved (bypassChannel t) (fun s : Quantizer α => s.freqs)
      (fun _ _ => rfl) t.channels 0 _).trans rfl
  · exact (forLoop_preserved (bypassChannel t) (fun s : Quantizer α => s.cv_out)
      (fun _ _ => rfl) t.channels 0 _).trans rfl
  · exact (forLoop_preserved (bypassChannel t) (fun s : Quantizer α => s.last_cv_in)
      (fun _ _ => rfl) t.channels 0 _).trans rfl
  · exact (forLoop_preserved (bypassChannel t) (fun s : Quantizer α => s.last_cv_out)
      (fun _ _ => rfl) t.channels 0 _).trans rfl
  · exact (forLoop_preserved (bypassChannel t) (fun s : Quantizer α => s.rateLimiterPhase)
      (fun _ _ => rfl) t.channels 0 _).trans rfl

end BypassFacts

/-- The phase accumulator after a `process` tick. -/
theorem process_phase {α : Type} [LinearOrderedField α] [FloorRing α] (m : MathEnv α)
    (t : Tick α) (q : Quantizer α) :
    (process m t q).rateLimiterPhase =
      if advancedPhase t q ≥ 1 then advancedPhase t q - 1 else advancedPhase t q := by
  by_cases hthr : throttle t q = true
  · rw [process_throttled m t q hthr]
    have h := throttledLoop_view t.channels (preTick t q) t.channels
    rw [if_neg (lt_irrefl _), tickView_eq] at h
    exact h.1.2.2.2.2.2.1
  · by_cases hm : t.master = true
    · rw [process_master m t q (by simpa using hthr) hm]
      have h := masterBranch_view m t q t.channels
      rw [if_neg (lt_irrefl _), tickView_eq] at h
      exact h.1.2.2.2.2.2.1
    · rw [process_no_master m t q (by simpa using hm)]
      have h := passLoop_view t (preTick t q) t.channels
      rw [if_neg (lt_irrefl _), tickView_eq] at h
      exact h.1.2.2.2.2.2.1

/-! ## Claims on one tick -/

section TickClaims

variable {α : Type} [LinearOrderedField α] [FloorRing α]

theorem process_no_master_view (m : MathEnv α) (t : Tick α) (q : Quantizer α) (k : Nat)
    (hm : t.master = false) :
    chanView (process m t q) k =
      if k < t.channels then chanView (passChannel t k (preTick t q)) k
      else chanView (preTick t q) k := by
  rw [process_no_master m t q hm]
  have h := passLoop_view t (preTick t q) k
  by_cases hc : k < t.channels
  · rw [if_pos hc] at h; rw [if_pos hc]; exact congrArg Prod.snd h
  · rw [if_neg hc] at h; rw [if_neg hc]; exact congrArg Prod.snd h

/-- C8. Trigger rule: on a non-throttled tick with a master present and for a channel `c`
below the channel count, `pulseGenerators[c].trigger` is called, with duration `1e-3`, if
and only if the output `cv_out[c]` of this tick differs from `last_cv_out[c]` as it was
before the tick; after the tick the emitted voltage and `last_cv_out[c]` are `cv_out[c]`
and `last_cv_in[c]` is the sanitized input voltage. -/
theorem process_trigger_rule (m : MathEnv α) (t : Tick α) (q : Quantizer α) (c : Nat)
    (hthr : throttle t q = false) (hm : t.master = true) (hc : c < t.channels) :
    ((process m t q).triggerCalled c = true ↔ (process m t q).cv_out c ≠ q.last_cv_out c) ∧
      (process m t q).pulseGenerators c =
        (pulseProcess
          (if (process m t q).cv_out c ≠ q.last_cv_out c
            then pulseTrigger (q.pulseGenerators c) (1 / 1000)
            else q.pulseGenerators c) t.sampleTime).2 ∧
      (process m t q).cvOutPort c = Volt.finite ((process m t q).cv_out c) ∧
      (process m t q).last_cv_out c = (process m t q).cv_out c ∧
      (process m t q).last_cv_in c = sanitize (t.voltage c) := by
  obtain ⟨p1, p2, p3, p4, p5, _, p7⟩ := chanView_eq (process_master_chan m t q c hthr hm hc)
  obtain ⟨e1, e2, e3, e4, e5, e6⟩ :=
    quantizeChannel_self m t (freqsUpdated t q) c (tickStart t q)
  have hl : (tickStart t q).last_cv_out c = q.last_cv_out c := rfl
  have hp : (tickStart t q).pulseGenerators c = q.pulseGenerators c := rfl
  have ht : ¬ ((tickStart t q).triggerCalled c = true) := by
    show ¬ (false = true)
    simp
  rw [hl] at e5
  rw [hl, hp] at e6
  rw [← e1] at e3 e4 e5 e6
  rw [p1, p2, p3, p4, p5, p7]
  refine ⟨?_, e6, e3, e4, e2⟩
  rw [e5]
  constructor
  · rintro (h | h)
    · exact h
    · exact absurd h ht
  · intro h; exact Or.inl h

/-- C9. Pass-through without master: for every channel `c` below the channel count the
emitted voltage, `last_cv_in[c]` and `last_cv_out[c]` are the sanitized input voltage (the
input when finite, `0` when NaN or infinite), no pulse generator is triggered or changed,
whatever the rounding parameter, `tuningMode` and the phase. -/
theorem process_pass_through (m : MathEnv α) (t : Tick α) (q : Quantizer α) (c : Nat)
    (hm : t.master = false) (hc : c < t.channels) :
    (process m t q).cvOutPort c = Volt.finite (sanitize (t.voltage c)) ∧
      (process m t q).last_cv_in c = sanitize (t.voltage c) ∧
      (process m t q).last_cv_out c = sanitize (t.voltage c) ∧
      (∀ k, (process m t q).triggerCalled k = false) ∧
      (∀ k, (process m t q).pulseGenerators k = q.pulseGenerators k) ∧
      (∀ v : α, sanitize (Volt.finite v) = v) ∧
      sanitize (Volt.nan : Volt α) = 0 ∧ sanitize (Volt.posInf : Volt α) = 0 ∧
      sanitize (Volt.negInf : Volt α) = 0 := by
  have hv := process_no_master_view m t q c hm
  rw [if_pos hc] at hv
  obtain ⟨_, _, p3, p4, p5, _, _⟩ := chanView_eq hv
  have hall : ∀ k, (process m t q).triggerCalled k = false ∧
      (process m t q).pulseGenerators k = q.pulseGenerators k := by
    intro k
    have hk := process_no_master_view m t q k hm
    by_cases hkc : k < t.channels
    · rw [if_pos hkc] at hk
      obtain ⟨k1, _, _, _, _, _, k7⟩ := chanView_eq hk
      rw [k1, k7]
      exact ⟨rfl, rfl⟩
    · rw [if_neg hkc] at hk
      obtain ⟨k1, _, _, _, _, _, k7⟩ := chanView_eq hk
      rw [k1, k7]
      exact ⟨rfl, rfl⟩
  refine ⟨?_, ?_, ?_, fun k => (hall k).1, fun k => (hall k).2, fun _ => rfl, rfl, rfl, rfl⟩
  · rw [p5]; simp [passChannel]
  · rw [p3]; simp [passChannel]
  · rw [p4]; simp [passChannel]

/-- C10. Throttle gate: a tick is throttled exactly when the phase accumulator advanced by
`sampleTime / 0.005` is below 1, a master is present now and was at the end of the previous
tick, the rounded rounding parameter equals the stored rounding mode and `bypassed` is
clear.  After a `process` tick these stored values are that tick's master flag and rounded
rounding parameter, and the stored phase is the advanced phase, less 1 when it has reached
1; after `processBypass` the flag `bypassed` is set and the rounding mode is kept.  Hence a
window-boundary tick and the first tick after `processBypass` are never throttled.  A
throttled tick emits `last_cv_out[c]` and leaves the table and the per-channel state as
they were. -/
theorem throttle_gate (m : MathEnv α) (t t0 : Tick α) (q q0 : Quantizer α) :
    (throttle t q = true ↔
        (q.rateLimiterPhase + t.sampleTime / (5 / 1000) < 1 ∧ t.master = true ∧
          q.hasMaster = true ∧ cround t.roundingParam = q.roundingMode ∧
          q.bypassed = false)) ∧
      (throttle t (process m t0 q0) = true ↔
        ((process m t0 q0).rateLimiterPhase + t.sampleTime / (5 / 1000) < 1 ∧
          t.master = true ∧ t0.master = true ∧
          cround t.roundingParam = cround t0.roundingParam)) ∧
      ((process m t q).rateLimiterPhase =
        if 1 ≤ q.rateLimiterPhase + t.sampleTime / (5 / 1000)
        then q.rateLimiterPhase + t.sampleTime / (5 / 1000) - 1
        else q.rateLimiterPhase + t.sampleTime / (5 / 1000)) ∧
      ((processBypass t0 q0).hasMaster = t0.master ∧ (processBypass t0 q0).bypassed = true ∧
        (processBypass t0 q0).roundingMode = q0.roundingMode) ∧
      (1 ≤ q.rateLimiterPhase + t.sampleTime / (5 / 1000) → throttle t q = false) ∧
      throttle t (processBypass t0 q0) = false ∧
      (throttle t q = true →
        (∀ c, c < t.channels → (process m t q).cvOutPort c = Volt.finite (q.last_cv_out c)) ∧
          (process m t q).freqs = q.freqs ∧ (process m t q).cv_out = q.cv_out ∧
          (process m t q).last_cv_in = q.last_cv_in ∧
          (process m t q).last_cv_out = q.last_cv_out ∧
          (process m t q).pulseGenerators = q.pulseGenerators ∧
          (∀ c, (process m t q).triggerCalled c = false)) := by
  have hbypass := processBypass_fields t0 q0
  have hadv : ∀ (t' : Tick α) (q' : Quantizer α),
      advancedPhase t' q' = q'.rateLimiterPhase + t'.sampleTime / (5 / 1000) := fun _ _ => rfl
  rw [← hadv t q, ← hadv t (process m t0 q0)]
  refine ⟨throttle_iff t q, ?_, process_phase m t q, ⟨hbypass.1, hbypass.2.1, hbypass.2.2.1⟩,
    ?_, ?_, ?_⟩
  · obtain ⟨f1, f2, f3, _⟩ := process_flags m t0 q0
    rw [throttle_iff, f1, f2, f3]
    constructor
    · rintro ⟨h1, h2, h3, h4, _⟩; exact ⟨h1, h2, h3, h4⟩
    · rintro ⟨h1, h2, h3, h4⟩; exact ⟨h1, h2, h3, h4, rfl⟩
  · intro h
    unfold throttle
    rw [if_pos h]
  · cases hthr : throttle t (processBypass t0 q0)
    · rfl
    · have h := ((throttle_iff _ _).mp hthr).2.2.2.2
      rw [hbypass.2.1] at h
      cases h
  · intro hthr
    have hsh := process_other_shared m t q (Or.inl hthr)
    have field := fun c => throttled_tick_out m t q c hthr
    exact ⟨fun c hc => (field c).1 hc, hsh.2.2.2.2, funext fun c => (field c).2.2.1,
      funext fun c => (field c).2.2.2.1, funext fun c => (field c).2.2.2.2.1,
      funext fun c => (field c).2.1, fun c => (field c).2.2.2.2.2⟩

/-- C7 (as amended). Idempotence over two consecutive `process` ticks with a master present on
both, for a channel below both channel counts: when the first tick is not throttled and the
second tick has the same input voltage on the channel, the same provider table and the same
rounded rounding parameter, or when the second tick is throttled (whatever its input, table
and rounding parameter), the second tick emits the voltage the first tick emitted and does
not call the channel's `trigger`. -/
theorem process_twice_same_output (m : MathEnv α) (t1 t2 : Tick α) (q : Quantizer α) (c : Nat)
    (hm1 : t1.master = true) (hm2 : t2.master = true)
    (hc1 : c < t1.channels) (hc2 : c < t2.channels)
    (hcase : (throttle t1 q = false ∧ t2.voltage c = t1.voltage c ∧
        (∀ j, j < 128 → t2.noteToFrequency j = t1.noteToFrequency j) ∧
        cround t2.roundingParam = cround t1.roundingParam) ∨
      throttle t2 (process m t1 q) = true) :
    (process m t2 (process m t1 q)).cvOutPort c = (process m t1 q).cvOutPort c ∧
      (process m t2 (process m t1 q)).triggerCalled c = false := by
  have hport : (process m t1 q).cvOutPort c = Volt.finite ((process m t1 q).last_cv_out c) := by
    cases h1 : throttle t1 q
    · obtain ⟨a, b, _, _⟩ := master_tick_out m t1 q c h1 hm1 hc1
      rw [a, b]
    · obtain ⟨a, _, _, _, b, _⟩ := throttled_tick_out m t1 q c h1
      rw [a hc1, b]
  cases h2 : throttle t2 (process m t1 q)
  · have hfirst : throttle t1 q = false ∧ t2.voltage c = t1.voltage c ∧
        (∀ j, j < 128 → t2.noteToFrequency j = t1.noteToFrequency j) ∧
        cround t2.roundingParam = cround t1.roundingParam := by
      rcases hcase with h | h
      · exact h
      · rw [h2] at h; cases h
    obtain ⟨h1, hv, htab, hr⟩ := hfirst
    obtain ⟨_, b1, c1, _⟩ := master_tick_out m t1 q c h1 hm1 hc1
    obtain ⟨_, s2, _, s4, s5⟩ := process_master_shared m t1 q h1 hm1
    have hfu : freqsUpdated t2 (process m t1 q) = false := by
      cases hfu : freqsUpdated t2 (process m t1 q)
      · rfl
      · rcases (freqsUpdated_iff t2 (process m t1 q)).mp hfu with h | h | ⟨j, hj, h⟩
        · rw [s2, hm1, hm2] at h; exact absurd rfl h
        · rw [s4, hr] at h; exact absurd rfl h
        · rw [s5, tickStart_freqs, if_pos hj, htab j hj] at h; exact absurd rfl h
    obtain ⟨a2, _, _, d2⟩ := master_tick_out m t2 (process m t1 q) c h2 hm2 hc2
    have hskip : (updateOutput m t2 (freqsUpdated t2 (process m t1 q)) c
        (sanitize (t2.voltage c)) (tickStart t2 (process m t1 q))).cv_out c
        = (process m t1 q).last_cv_out c := by
      rw [hfu]
      exact updateOutput_skip m t2 c _ _ (by rw [hv]; exact c1.symm)
    rw [hskip] at a2 d2
    refine ⟨by rw [a2, hport], ?_⟩
    cases hcall : (process m t2 (process m t1 q)).triggerCalled c
    · rfl
    · exact absurd rfl (d2.mp hcall)
  · obtain ⟨a, _, _, _, _, b⟩ := throttled_tick_out m t2 (process m t1 q) c h2
    exact ⟨by rw [a hc2, hport], b⟩


end TickClaims

/-! ## The store in a `float` -/

/-- A power of two is positive. -/
theorem ulp_pos {α : Type} [LinearOrderedField α] (e : Int) : 0 < (2 : α) ^ e :=
  zpow_pos (by norm_num) e

/-- Up to the exponent 23 the grid of the store is a negative power of two. -/
theorem ulp_fine {α : Type} [LinearOrderedField α] (e : Int) (he : e ≤ 23) : ∃ p : Nat, (2 : α) ^ (e - 23) = ((2 : α) ^ p)⁻¹ := by
  obtain ⟨p, hp⟩ := Int.eq_ofNat_of_zero_le (by omega : 0 ≤ 23 - e)
  refine ⟨p, ?_⟩
  have : e - 23 = -(p : Int) := by omega
  rw [this, zpow_neg, zpow_natCast]

section FloatStore
variable {α : Type} [LinearOrderedField α] [FloorRing α]

theorem roundHalfEven_bounds (y : α) :
    Int.floor y ≤ roundHalfEven y ∧ roundHalfEven y ≤ Int.ceil y := by
  unfold roundHalfEven
  have hfc : Int.floor y ≤ Int.ceil y := Int.floor_le_ceil y
  have hstep : (y - Int.floor y ≠ 0) → Int.floor y + 1 ≤ Int.ceil y := by
    intro h
    have h1 : (Int.floor y : α) < y := lt_of_le_of_ne (Int.floor_le y) (fun e => h (by rw [e]; ring))
    have h2 : (Int.floor y : α) < (Int.ceil y : α) := lt_of_lt_of_le h1 (Int.le_ceil y)
    have h3 : Int.floor y < Int.ceil y := by exact_mod_cast h2
    omega
  by_cases h1 : y - Int.floor y < 1 / 2
  · rw [if_pos h1]; exact ⟨le_refl _, hfc⟩
  · rw [if_neg h1]
    have hne : y - Int.floor y ≠ 0 := by
      intro e; apply h1; rw [e]; norm_num
    by_cases h2 : 1 / 2 < y - Int.floor y
    · rw [if_pos h2]; exact ⟨by omega, hstep hne⟩
    · rw [if_neg h2]
      by_cases h3 : Int.floor y % 2 = 0
      · rw [if_pos h3]; exact ⟨le_refl _, hfc⟩
      · rw [if_neg h3]; exact ⟨by omega, hstep hne⟩

theorem roundHalfEven_of_lt_half (y : α) (n : Int) (h1 : (n : α) ≤ y) (h2 : y < n + 1 / 2) :
    roundHalfEven y = n := by
  have hf : Int.floor y = n := by
    rw [Int.floor_eq_iff]
    exact ⟨h1, by linarith⟩
  unfold roundHalfEven
  rw [hf, if_pos (by linarith)]

theorem roundHalfEven_of_gt_half (y : α) (n : Int) (h1 : (n : α) - 1 / 2 < y) (h2 : y < n) :
    roundHalfEven y = n := by
  have hf : Int.floor y = n - 1 := by
    rw [Int.floor_eq_iff]
    push_cast
    exact ⟨by linarith, by linarith⟩
  unfold roundHalfEven
  rw [hf]
  push_cast
  rw [if_neg (by linarith), if_pos (by linarith)]
  ring

theorem toFloat32_nonpos (x : α) (h : x ≤ 0) : toFloat32 x ≤ 0 := by
  unfold toFloat32
  have hu := ulp_pos (α := α) (max (Int.log 2 |x|) (-126) - 23)
  have h1 : x / (2 : α) ^ (max (Int.log 2 |x|) (-126) - 23) ≤ 0 :=
    div_nonpos_of_nonpos_of_nonneg h hu.le
  have h2 : Int.ceil (x / (2 : α) ^ (max (Int.log 2 |x|) (-126) - 23)) ≤ 0 := by
    rw [Int.ceil_le]; simpa using h1
  have h3 := (roundHalfEven_bounds (x / (2 : α) ^ (max (Int.log 2 |x|) (-126) - 23))).2
  have h4 : ((roundHalfEven (x / (2 : α) ^ (max (Int.log 2 |x|) (-126) - 23)) : Int) : α) ≤ 0 := by
    exact_mod_cast le_trans h3 h2
  exact mul_nonpos_of_nonpos_of_nonneg h4 hu.le

/-- On a grid at least as fine as the integers, an integer below the value stays below the
stored value and an integer above it stays above. -/
theorem grid_round (x : α) (p : Nat) (j : Int) :
    ((j : α) ≤ x → (j : α) ≤ (roundHalfEven (x / ((2 : α) ^ p)⁻¹) : α) * ((2 : α) ^ p)⁻¹) ∧
      (x ≤ (j : α) → (roundHalfEven (x / ((2 : α) ^ p)⁻¹) : α) * ((2 : α) ^ p)⁻¹ ≤ (j : α)) := by
  have hp : (0 : α) < (2 : α) ^ p := pow_pos (by norm_num) p
  have hdiv : x / ((2 : α) ^ p)⁻¹ = x * (2 : α) ^ p := by rw [div_inv_eq_mul]
  rw [hdiv]
  obtain ⟨hlo, hhi⟩ := roundHalfEven_bounds (x * (2 : α) ^ p)
  have hcast : ((j * 2 ^ p : Int) : α) = (j : α) * (2 : α) ^ p := by push_cast; ring
  constructor
  · intro h
    have h1 : ((j * 2 ^ p : Int) : α) ≤ x * (2 : α) ^ p := by
      rw [hcast]; exact mul_le_mul_of_nonneg_right h hp.le
    have h2 : j * 2 ^ p ≤ roundHalfEven (x * (2 : α) ^ p) := le_trans (Int.le_floor.mpr h1) hlo
    have h3 : ((j * 2 ^ p : Int) : α) ≤ (roundHalfEven (x * (2 : α) ^ p) : α) := by
      exact_mod_cast h2
    rw [hcast] at h3
    rw [le_mul_inv_iff₀ hp]
    exact h3
  · intro h
    have h1 : x * (2 : α) ^ p ≤ ((j * 2 ^ p : Int) : α) := by
      rw [hcast]; exact mul_le_mul_of_nonneg_right h hp.le
    have h2 : roundHalfEven (x * (2 : α) ^ p) ≤ j * 2 ^ p := le_trans hhi (Int.ceil_le.mpr h1)
    have h3 : (roundHalfEven (x * (2 : α) ^ p) : α) ≤ ((j * 2 ^ p : Int) : α) := by
      exact_mod_cast h2
    rw [hcast] at h3
    rw [mul_inv_le_iff₀ hp]
    exact h3

/-- The binary exponent of a value of magnitude below `2 ^ 24` is at most 23. -/
theorem log_le_of_lt (x : α) (h : |x| < 2 ^ 24) : max (Int.log 2 |x|) (-126) ≤ 23 := by
  apply max_le _ (by norm_num)
  by_cases h0 : |x| ≤ 0
  · rw [Int.log_of_right_le_zero 2 h0]; norm_num
  · have hpos : 0 < |x| := lt_of_not_le h0
    have h1 : Int.log 2 |x| < 24 := by
      rw [← Int.lt_zpow_iff_log_lt (by norm_num) hpos]
      have : ((2 : Nat) : α) ^ (24 : Int) = 2 ^ 24 := by norm_num
      rw [this]; exact h
    omega

theorem toFloat32_int_le (x : α) (j : Int) (hj : j ≤ 128) (h : (j : α) ≤ x) (hx : 0 ≤ x) :
    (j : α) ≤ toFloat32 x := by
  unfold toFloat32
  by_cases he : max (Int.log 2 |x|) (-126) ≤ 23
  · obtain ⟨p, hp⟩ := ulp_fine (α := α) _ he
    rw [hp]
    exact (grid_round x p j).1 h
  · have he' : 24 ≤ max (Int.log 2 |x|) (-126) := by omega
    have hlog : 24 ≤ Int.log 2 |x| := by
      rcases le_max_iff.mp he' with h1 | h1
      · exact h1
      · norm_num at h1
    have hxne : ¬ |x| ≤ 0 := by
      intro h0
      rw [Int.log_of_right_le_zero 2 h0] at hlog
      norm_num at hlog
    have hxpos : 0 < |x| := lt_of_not_le hxne
    have hmax : max (Int.log 2 |x|) (-126) = Int.log 2 |x| := max_eq_left (by omega)
    rw [hmax]
    have hle := Int.zpow_log_le_self (b := 2) (by norm_num) hxpos
    rw [abs_of_nonneg hx] at hle hlog ⊢
    have hu := ulp_pos (α := α) (Int.log 2 x - 23)
    have hq : (2 : α) ^ (23 : Int) ≤ x / (2 : α) ^ (Int.log 2 x - 23) := by
      rw [le_div_iff₀ hu, ← zpow_add₀ (by norm_num : (2 : α) ≠ 0)]
      have : (23 : Int) + (Int.log 2 x - 23) = Int.log 2 x := by ring
      rw [this]
      simpa using hle
    have hq' : ((2 ^ 23 : Int) : α) ≤ x / (2 : α) ^ (Int.log 2 x - 23) := by
      have : ((2 ^ 23 : Int) : α) = (2 : α) ^ (23 : Int) := by norm_num
      rw [this]; exact hq
    have h2 : (2 ^ 23 : Int) ≤ roundHalfEven (x / (2 : α) ^ (Int.log 2 x - 23)) :=
      le_trans (Int.le_floor.mpr hq') (roundHalfEven_bounds _).1
    have h3 : ((2 ^ 23 : Int) : α) ≤ (roundHalfEven (x / (2 : α) ^ (Int.log 2 x - 23)) : α) := by
      exact_mod_cast h2
    have hu1 : (1 : α) ≤ (2 : α) ^ (Int.log 2 x - 23) :=
      one_le_zpow₀ (by norm_num) (by omega)
    have hj' : (j : α) ≤ 128 := by exact_mod_cast hj
    have h4 : (128 : α) ≤ ((2 ^ 23 : Int) : α) := by norm_num
    calc (j : α) ≤ ((2 ^ 23 : Int) : α) * 1 := by linarith
      _ ≤ (roundHalfEven (x / (2 : α) ^ (Int.log 2 x - 23)) : α) *
            (2 : α) ^ (Int.log 2 x - 23) :=
          mul_le_mul h3 hu1 (by norm_num) (le_trans (by norm_num) h3)

theorem toFloat32_le_int (x : α) (j : Int) (hj0 : 0 ≤ j) (hj : j ≤ 128) (h : x ≤ (j : α)) :
    toFloat32 x ≤ (j : α) := by
  have hj0' : (0 : α) ≤ (j : α) := by exact_mod_cast hj0
  by_cases hx : x ≤ 0
  · exact le_trans (toFloat32_nonpos x hx) hj0'
  · have hxpos : 0 < x := lt_of_not_le hx
    have hj' : (j : α) ≤ 128 := by exact_mod_cast hj
    have habs : |x| < 2 ^ 24 := by
      rw [abs_of_pos hxpos]
      have : (128 : α) < 2 ^ 24 := by norm_num
      linarith
    obtain ⟨p, hp⟩ := ulp_fine (α := α) _ (log_le_of_lt x habs)
    unfold toFloat32
    rw [hp]
    exact (grid_round x p j).2 h

/-- The store is exact on the integers from 0 to 128. -/
theorem toFloat32_int (j : Int) (hj0 : 0 ≤ j) (hj : j ≤ 128) : toFloat32 (j : α) = j :=
  le_antisymm (toFloat32_le_int _ j hj0 hj (le_refl _))
    (toFloat32_int_le _ j hj (le_refl _) (by exact_mod_cast hj0))

/-- Evaluation of the store for a value whose binade is known. -/
theorem toFloat32_eval (x : α) (e n : Int) (h1 : (2 : α) ^ e ≤ |x|) (h2 : |x| < (2 : α) ^ (e + 1))
    (he : -126 ≤ e) (hn : roundHalfEven (x / (2 : α) ^ (e - 23)) = n) :
    toFloat32 x = n * (2 : α) ^ (e - 23) := by
  have hpos : 0 < |x| := lt_of_lt_of_le (ulp_pos e) h1
  have hlog : Int.log 2 |x| = e := by
    have a : e ≤ Int.log 2 |x| := by
      rw [← Int.zpow_le_iff_le_log (by norm_num) hpos]
      simpa using h1
    have b : Int.log 2 |x| < e + 1 := by
      rw [← Int.lt_zpow_iff_log_lt (by norm_num) hpos]
      simpa using h2
    omega
  unfold toFloat32
  rw [hlog, max_eq_left he, hn]

end FloatStore


/-! ## The MIDI-key mapping -/

/-- The clamped key value lies in `[0, 127]`. -/
theorem clamp_key_bounds {α : Type} [LinearOrderedField α] (x : α) :
    0 ≤ clamp x 0 127 ∧ clamp x 0 127 ≤ 127 := by
  unfold clamp
  constructor
  · exact le_max_right _ _
  · exact max_le (min_le_right _ _) (by norm_num)

section MidiKey

variable {α : Type} [LinearOrderedField α] [FloorRing α]

/-- Clamping to `[0, 127]` and converting to `int` is clamping the floor. -/
theorem ctrunc_clamp (y : α) :
    ctrunc (clamp y 0 127) = max (min (Int.floor y) 127) 0 := by
  unfold ctrunc
  rw [if_pos (clamp_key_bounds _).1]
  unfold clamp
  have h1 : Int.floor (max (min y 127) (0 : α))
      = max (Int.floor (min y (127 : α))) (Int.floor (0 : α)) :=
    (Int.floor_mono (α := α)).map_max
  have h2 : Int.floor (min y (127 : α)) = min (Int.floor y) (Int.floor (127 : α)) :=
    (Int.floor_mono (α := α)).map_min
  have h3 : Int.floor (127 : α) = 127 := by
    rw [Int.floor_eq_iff]; constructor <;> norm_num
  rw [h1, h2, h3, Int.floor_zero]

/-- The MIDI key is the floor of the stored `float` value of `60 + vin * 12`, clamped to
`[0, 127]`. -/
theorem midikey_eq (v : α) :
    midikey v = max (min (Int.floor (toFloat32 (60 + v * 12))) 127) 0 :=
  ctrunc_clamp _

theorem midikey_bounds (v : α) : 0 ≤ midikey v ∧ midikey v ≤ 127 := by
  rw [midikey_eq]
  constructor
  · exact le_max_right _ _
  · exact max_le (min_le_right _ _) (by norm_num)

/-- The MIDI key when `60 + vin * 12` is an integer. -/
theorem midikey_of_int (v : α) (z : Int) (h : 60 + v * 12 = (z : α)) :
    midikey v = max (min z 127) 0 := by
  rw [midikey_eq, h]
  by_cases h0 : z ≤ 0
  · have hx : ((z : Int) : α) ≤ 0 := by exact_mod_cast h0
    have hf : Int.floor (toFloat32 (z : α)) ≤ 0 := by
      have := toFloat32_nonpos (z : α) hx
      have h2 : Int.floor (toFloat32 (z : α)) ≤ Int.floor (0 : α) := Int.floor_mono this
      rwa [Int.floor_zero] at h2
    rw [max_eq_right (le_trans (min_le_left _ _) hf), max_eq_right (le_trans (min_le_left _ _) h0)]
  · have hz0 : 0 ≤ z := by omega
    by_cases h1 : z ≤ 128
    · rw [toFloat32_int z hz0 h1, Int.floor_intCast]
    · have h127 : ((127 : Int) : α) ≤ (z : α) := by exact_mod_cast (by omega : (127 : Int) ≤ z)
      have hx0 : (0 : α) ≤ (z : α) := by exact_mod_cast hz0
      have hge := toFloat32_int_le (z : α) 127 (by norm_num) h127 hx0
      have hf : 127 ≤ Int.floor (toFloat32 (z : α)) := Int.le_floor.mpr hge
      rw [min_eq_right hf, min_eq_right (by omega : (127 : Int) ≤ z)]

/-- The MIDI key is the clamped floor of `60 + vin * 12`, or one more. -/
theorem midikey_bracket (v : α) :
    max (min (Int.floor (60 + v * 12)) 127) 0 ≤ midikey v ∧
      midikey v ≤ max (min (Int.floor (60 + v * 12) + 1) 127) 0 := by
  rw [midikey_eq]
  constructor
  · apply max_le _ (le_max_right _ _)
    by_cases h0 : min (Int.floor (60 + v * 12)) 127 ≤ 0
    · exact le_trans h0 (le_max_right _ _)
    · have hpos : 0 < min (Int.floor (60 + v * 12)) 127 := by omega
      have h1 : min (Int.floor (60 + v * 12)) 127 ≤ Int.floor (60 + v * 12) := min_le_left _ _
      have h2 : ((min (Int.floor (60 + v * 12)) 127 : Int) : α) ≤ 60 + v * 12 :=
        le_trans (by exact_mod_cast h1) (Int.floor_le _)
      have hx0 : (0 : α) ≤ 60 + v * 12 :=
        le_trans (by exact_mod_cast hpos.le) h2
      have h3 := toFloat32_int_le (60 + v * 12) (min (Int.floor (60 + v * 12)) 127)
        (le_trans (min_le_right _ _) (by norm_num)) h2 hx0
      exact le_trans (le_min (Int.le_floor.mpr h3) (min_le_right _ _)) (le_max_left _ _)
  · apply max_le _ (le_max_right _ _)
    by_cases h127 : 127 ≤ Int.floor (60 + v * 12) + 1
    · rw [min_eq_right h127]
      exact le_trans (min_le_right _ _) (le_max_left _ _)
    · have hlt : Int.floor (60 + v * 12) + 1 < 127 := by omega
      rw [min_eq_left hlt.le]
      have hx : 60 + v * 12 ≤ ((Int.floor (60 + v * 12) + 1 : Int) : α) := by
        push_cast
        exact (Int.lt_floor_add_one _).le
      by_cases h0 : Int.floor (60 + v * 12) + 1 ≤ 0
      · have hx0 : 60 + v * 12 ≤ 0 := le_trans hx (by exact_mod_cast h0)
        have hf : Int.floor (toFloat32 (60 + v * 12)) ≤ Int.floor (0 : α) :=
          Int.floor_mono (toFloat32_nonpos _ hx0)
        rw [Int.floor_zero] at hf
        exact le_trans (min_le_left _ _) (le_trans hf (le_max_right _ _))
      · have h3 := toFloat32_le_int (60 + v * 12) (Int.floor (60 + v * 12) + 1) (by omega)
          (by omega) hx
        have hf : Int.floor (toFloat32 (60 + v * 12)) ≤ Int.floor (60 + v * 12) + 1 := by
          have := Int.floor_mono h3
          rwa [Int.floor_intCast] at this
        exact le_trans (min_le_left _ _) (le_trans hf (le_max_left _ _))

/-- The store of `60.75` is exact. -/
theorem toFloat32_key_exact : toFloat32 (60 + (1 / 16 : α) * 12) = 243 / 4 := by
  have hx : (60 + (1 / 16 : α) * 12) = 243 / 4 := by norm_num
  rw [hx]
  have habs : |(243 / 4 : α)| = 243 / 4 := abs_of_pos (by norm_num)
  rw [toFloat32_eval (243 / 4 : α) 5 15925248 (by rw [habs]; norm_num) (by rw [habs]; norm_num)
    (by norm_num)
    (roundHalfEven_of_lt_half _ _ (by norm_num) (by norm_num))]
  norm_num

/-- The store rounds `60 + 12 * vin` up to 67 for the `float` nearest to `7 / 12`. -/
theorem toFloat32_key_up : toFloat32 (60 + (9786709 / 16777216 : α) * 12) = 67 := by
  have hx : (60 + (9786709 / 16777216 : α) * 12) = 281018367 / 4194304 := by norm_num
  rw [hx]
  have habs : |(281018367 / 4194304 : α)| = 281018367 / 4194304 := abs_of_pos (by norm_num)
  rw [toFloat32_eval (281018367 / 4194304 : α) 6 8781824 (by rw [habs]; norm_num)
    (by rw [habs]; norm_num) (by norm_num)
    (roundHalfEven_of_gt_half _ _ (by norm_num) (by norm_num))]
  norm_num

/-- C13 (as amended). The index used in MIDI-key mode is the value `60 + 12 * v`, stored in a
`float` (rounded to the nearest single-precision value), clamped to `[0, 127]` and converted
to `int`, which drops the fraction.  It is the clamped floor of `60 + 12 * v` or one more
than it, and it is the clamped floor whenever the store is exact; at `v = 1 / 16` it is 60,
and at `v = 9786709 / 2 ^ 24`, the `float` nearest to `7 / 12`, the store rounds up and the
index is 67 although the floor of `60 + 12 * v` is 66. -/
theorem midikey_is_trunc_of_float (v : α) :
    midikey v = max (min (Int.floor (toFloat32 (60 + v * 12))) 127) 0 ∧
      max (min (Int.floor (60 + v * 12)) 127) 0 ≤ midikey v ∧
      midikey v ≤ max (min (Int.floor (60 + v * 12) + 1) 127) 0 ∧
      (toFloat32 (60 + v * 12) = 60 + v * 12 →
        midikey v = max (min (Int.floor (60 + v * 12)) 127) 0) ∧
      midikey (1 / 16 : α) = 60 ∧
      midikey (9786709 / 16777216 : α) = 67 ∧
      Int.floor (60 + (9786709 / 16777216 : α) * 12) = 66 := by
  refine ⟨midikey_eq v, (midikey_bracket v).1, (midikey_bracket v).2, ?_, ?_, ?_, ?_⟩
  · intro h
    rw [midikey_eq, h]
  · rw [midikey_eq, toFloat32_key_exact]
    have h : Int.floor (243 / 4 : α) = 60 := by
      rw [Int.floor_eq_iff]; constructor <;> norm_num
    rw [h]; rfl
  · rw [midikey_eq, toFloat32_key_up]
    have h : Int.floor (67 : α) = 67 := by
      rw [Int.floor_eq_iff]; constructor <;> norm_num
    rw [h]; rfl
  · rw [Int.floor_eq_iff]; constructor <;> norm_num

/-- C14. In MIDI-key mode the input voltages `0`, `-1`, `1`, `-20` and `20` give the indices
60, 48, 72, 0 and 127, and for every input voltage the index lies in `0..127`, so that
`freqs[midikeyi]` and the filter query stay inside the 128 entries. -/
theorem midikey_values_and_bounds :
    midikey (0 : α) = 60 ∧ midikey (-1 : α) = 48 ∧ midikey (1 : α) = 72 ∧
      midikey (-20 : α) = 0 ∧ midikey (20 : α) = 127 ∧
      ∀ v : α, 0 ≤ midikey v ∧ midikey v ≤ 127 ∧ (midikey v).toNat < 128 := by
  refine ⟨?_, ?_, ?_, ?_, ?_, ?_⟩
  · rw [midikey_of_int (0 : α) 60 (by norm_num)]; rfl
  · rw [midikey_of_int (-1 : α) 48 (by norm_num)]; rfl
  · rw [midikey_of_int (1 : α) 72 (by norm_num)]; rfl
  · rw [midikey_of_int (-20 : α) (-180) (by norm_num)]; rfl
  · rw [midikey_of_int (20 : α) 300 (by norm_num)]; rfl
  · intro v
    obtain ⟨h0, h1⟩ := midikey_bounds v
    refine ⟨h0, h1, ?_⟩
    omega

/-- Counterexample to C13 as stated: for the input `0.0625 V` the value `60.75` is stored
exactly and the code's index is 60, while `round (60 + 12 * 0.0625)` clamped to `[0, 127]`
is 61. -/
theorem midikey_not_rounded :
    midikey (1 / 16 : ℝ) = 60 ∧ max (min (round (60 + 12 * (1 / 16 : ℝ))) 127) 0 = 61 := by
  constructor
  · rw [midikey_eq, toFloat32_key_exact]
    have h : Int.floor (243 / 4 : ℝ) = 60 := by
      rw [Int.floor_eq_iff]; constructor <;> norm_num
    rw [h]; rfl
  · have h : round (60 + 12 * (1 / 16 : ℝ)) = 61 := by
      rw [round_eq, Int.floor_eq_iff]; constructor <;> norm_num
    rw [h]; rfl

theorem midikey_zero : midikey (0 : ℝ) = 60 := by
  rw [midikey_of_int (0 : ℝ) 60 (by norm_num)]; rfl

end MidiKey

/-! ## The example run -/

section ExampleRun

theorem usable_noFilter {j : Nat} (hj : j < 128) : Usable noFilter j := ⟨hj, rfl⟩

theorem stepTable_values (j : Nat) : (stepTable j : ℝ) = 250 ∨ (stepTable j : ℝ) = 500 := by
  unfold stepTable
  by_cases h : j = 0
  · left; rw [if_pos h]
  · right; rw [if_neg h]

/-- A table that agrees with `stepTable` on the 128 indices, seen from a target between the
two frequencies: 250 Hz is the greatest usable frequency below, none is within `1e-7`. -/
theorem stepTable_low (f : Nat → ℝ) (hf : ∀ j, j < 128 → f j = stepTable j) (t : ℝ)
    (h1 : 250 + 1 / 10000000 ≤ t) (h2 : t + 1 / 10000000 ≤ 500) :
    NoneNear f noFilter t ∧ GreatestBelow f noFilter t 250 := by
  refine ⟨?_, ⟨0, usable_noFilter (by norm_num), by rw [hf 0 (by norm_num)]; rfl⟩,
    by linarith, ?_⟩
  · intro j hj hnear
    rw [hf j hj.1, abs_lt] at hnear
    rcases stepTable_values j with e | e
    · rw [e] at hnear; linarith [hnear.1, hnear.2]
    · rw [e] at hnear; linarith [hnear.1, hnear.2]
  · intro j hj hlt
    rw [hf j hj.1] at hlt ⊢
    rcases stepTable_values j with e | e
    · rw [e]
    · rw [e] at hlt; linarith

/-- The same table seen from a target above both frequencies: 500 Hz is the greatest usable
frequency below. -/
theorem stepTable_high (f : Nat → ℝ) (hf : ∀ j, j < 128 → f j = stepTable j) (t : ℝ)
    (h1 : 500 + 1 / 10000000 ≤ t) :
    NoneNear f noFilter t ∧ GreatestBelow f noFilter t 500 := by
  refine ⟨?_, ⟨1, usable_noFilter (by norm_num), by rw [hf 1 (by norm_num)]; rfl⟩,
    by linarith, ?_⟩
  · intro j hj hnear
    rw [hf j hj.1, abs_lt] at hnear
    rcases stepTable_values j with e | e
    · rw [e] at hnear; linarith [hnear.1, hnear.2]
    · rw [e] at hnear; linarith [hnear.1, hnear.2]
  · intro j hj hlt
    rw [hf j hj.1]
    rcases stepTable_values j with e | e
    · rw [e]; norm_num
    · rw [e]

theorem cround_neg_one : cround (-1 : ℝ) = -1 := by
  unfold cround
  rw [if_neg (by norm_num)]
  have h : Int.floor (-(-1 : ℝ) + 1 / 2) = 1 := by
    rw [Int.floor_eq_iff]
    constructor <;> norm_num
  rw [h]

/-- DOWN mode returns the greatest usable frequency below the target when nothing is within
`1e-7` of the target. -/
theorem resolve_down_eq {α : Type} [LinearOrderedField α] (m : MathEnv α) (freqs : Nat → α)
    (shouldFilter : Nat → Bool) (t L : α) (hfar : NoneNear freqs shouldFilter t)
    (hL : GreatestBelow freqs shouldFilter t L) :
    resolve m freqs shouldFilter (-1) t = L := by
  have hL0 := hL
  obtain ⟨⟨i, hi, hfi⟩, hlt, _⟩ := hL0
  rcases resolve_sides m freqs shouldFilter (-1) t hfar with
    ⟨hnone, _⟩ | ⟨hnb, _⟩ | ⟨_, L', hL', hr⟩ | ⟨L', U', hL', _, hr⟩
  · exact absurd hi (hnone i)
  · exact absurd (hfi ▸ hlt) (hnb i hi)
  · rw [hr]; exact greatestBelow_unique hL' hL
  · rw [hr, if_pos rfl]; exact greatestBelow_unique hL' hL

/-- The recomputation in continuous mode and DOWN rounding, with the exact numeric
environment and `FREQ_C4 = 261.6256`, on a table whose greatest usable frequency below the
target `261.6256 * 2 ^ v` is `L`. -/
theorem recompute_down_value (m : MathEnv ℝ) (hm : ExactLibm m) (hC : m.FREQ_C4 = 261.6256)
    (t : Tick ℝ) (q : Quantizer ℝ) (c : Nat) (v L : ℝ) (htm : q.tuningMode = 0)
    (hrm : q.roundingMode = -1)
    (hfar : NoneNear q.freqs t.shouldFilterNote (261.6256 * 2 ^ v))
    (hL : GreatestBelow q.freqs t.shouldFilterNote (261.6256 * 2 ^ v) L) :
    (recompute m t c v q).cv_out c = Real.log (L / 261.6256) / Real.log 2 := by
  rw [recompute_continuous m t c v q htm]
  unfold qfun
  rw [hrm, hm.1, hC, resolve_down_eq m q.freqs t.shouldFilterNote _ L hfar hL, hm.2.1, hm.2.2]

/-- The first tick of the example run: from the constructed state, with a master present
and input `0 V`, the tick is not throttled and emits the voltage of 250 Hz. -/
theorem first_tick (m : MathEnv ℝ) (hm : ExactLibm m) (hC : m.FREQ_C4 = 261.6256)
    (cv0 : Nat → ℝ) (st : ℝ) :
    throttle (heldTick st 0) (init m cv0) = false ∧
      (process m (heldTick st 0) (init m cv0)).cvOutPort 0 =
        Volt.finite (Real.log (250 / 261.6256) / Real.log 2) ∧
      (process m (heldTick st 0) (init m cv0)).last_cv_out 0 =
        Real.log (250 / 261.6256) / Real.log 2 ∧
      (process m (heldTick st 0) (init m cv0)).last_cv_in 0 = 0 ∧
      (process m (heldTick st 0) (init m cv0)).hasMaster = true ∧
      (process m (heldTick st 0) (init m cv0)).roundingMode = -1 ∧
      (process m (heldTick st 0) (init m cv0)).bypassed = false ∧
      (process m (heldTick st 0) (init m cv0)).tuningMode = 0 ∧
      (∀ j, j < 128 → (process m (heldTick st 0) (init m cv0)).freqs j = stepTable j) := by
  have hthr : throttle (heldTick st 0) (init m cv0) = false := by
    cases h : throttle (heldTick st 0) (init m cv0)
    · rfl
    · have h' := ((throttle_iff _ _).mp h).2.2.1
      exact absurd h' (by simp [init])
  have hfu : freqsUpdated (heldTick st 0) (init m cv0) = true :=
    (freqsUpdated_iff _ _).mpr (Or.inl (by simp [heldTick, init]))
  have hfreq : ∀ j, j < 128 →
      (tickStart (heldTick st 0) (init m cv0)).freqs j = stepTable j := by
    intro j hj
    rw [tickStart_freqs, if_pos hj]
    rfl
  obtain ⟨a, b, c, _⟩ := master_tick_out m (heldTick st 0) (init m cv0) 0 hthr rfl
    (Nat.lt_succ_self 0)
  obtain ⟨s1, s2, s3, s4, s5⟩ := process_master_shared m (heldTick st 0) (init m cv0) hthr rfl
  have hval : (updateOutput m (heldTick st 0) (freqsUpdated (heldTick st 0) (init m cv0)) 0
      (sanitize ((heldTick st 0).voltage 0)) (tickStart (heldTick st 0) (init m cv0))).cv_out 0
      = Real.log (250 / 261.6256) / Real.log 2 := by
    rw [hfu, updateOutput_of_updated]
    have e : sanitize ((heldTick st 0).voltage 0) = (0 : ℝ) := rfl
    rw [e]
    have ht : (261.6256 : ℝ) * 2 ^ (0 : ℝ) = 261.6256 := by rw [Real.rpow_zero, mul_one]
    have hfacts := stepTable_low _ hfreq 261.6256 (by norm_num) (by norm_num)
    rw [← ht] at hfacts
    exact recompute_down_value m hm hC _ _ 0 0 250 rfl cround_neg_one hfacts.1 hfacts.2
  rw [hval] at a b
  refine ⟨hthr, a, b, c, s2, ?_, s3, s1, ?_⟩
  · rw [s4]; exact cround_neg_one
  · intro j hj
    rw [s5]
    exact hfreq j hj

theorem log_ratio_lt : Real.log (250 / 261.6256) / Real.log 2 <
    Real.log (500 / 261.6256) / Real.log 2 := by
  have hlog2 : 0 < Real.log 2 := Real.log_pos (by norm_num)
  have h : Real.log (250 / 261.6256) < Real.log (500 / 261.6256) :=
    Real.log_lt_log (by norm_num) (by norm_num)
  exact div_lt_div_of_pos_right h hlog2

theorem log_ratio_bounds : ¬ Real.log (500 / 261.6256) / Real.log 2 < -5 ∧
    ¬ Real.log (500 / 261.6256) / Real.log 2 > 5 := by
  have hlog2 : 0 < Real.log 2 := Real.log_pos (by norm_num)
  have h1 : 0 < Real.log (500 / 261.6256) := Real.log_pos (by norm_num)
  have h2 : Real.log (500 / 261.6256) ≤ Real.log ((2 : ℝ) ^ 5) :=
    Real.log_le_log (by norm_num) (by norm_num)
  rw [Real.log_pow] at h2
  constructor
  · have : 0 < Real.log (500 / 261.6256) / Real.log 2 := div_pos h1 hlog2
    linarith
  · rw [gt_iff_lt, not_lt, div_le_iff₀ hlog2]
    exact_mod_cast h2

/-- The failing run for the skip branch, for any exact numeric environment: after a tick in
continuous mode, a bypassed tick and the toggle of `tuningMode`, the next tick is not
throttled, takes the skip branch and emits the voltage of 250 Hz, while the recomputation
in MIDI-key mode gives the voltage of 500 Hz. -/
theorem toggledRun_facts (m : MathEnv ℝ) (hm : ExactLibm m) (hC : m.FREQ_C4 = 261.6256) :
    throttle (heldTick (1 / 48000) 0) (toggledRun m) = false ∧
      (process m (heldTick (1 / 48000) 0) (toggledRun m)).cvOutPort 0 =
        Volt.finite (Real.log (250 / 261.6256) / Real.log 2) ∧
      (recompute m (heldTick (1 / 48000) 0) 0 (sanitize ((heldTick (1 / 48000) 0).voltage 0))
          (tickStart (heldTick (1 / 48000) 0) (toggledRun m))).cv_out 0 =
        Real.log (500 / 261.6256) / Real.log 2 := by
  obtain ⟨_, _, f3, f4, f5, f6, _, f8, f9⟩ := first_tick m hm hC (fun _ => 0) (1 / 48000)
  obtain ⟨b1, b2, b3, b4, b5, _, b7, b8, _⟩ :=
    processBypass_fields (heldTick (1 / 48000) 0)
      (process m (heldTick (1 / 48000) 0) (init m (fun _ => 0)))
  have g1 : (toggledRun m).hasMaster = true := b1
  have g2 : (toggledRun m).bypassed = true := b2
  have g3 : (toggledRun m).roundingMode = -1 := b3.trans f6
  have g4 : (toggledRun m).tuningMode = 1 := by
    show (if _ = 0 then (1 : Int) else 0) = 1
    rw [b4, f8]; rfl
  have g5 : ∀ j, j < 128 → (toggledRun m).freqs j = stepTable j := by
    intro j hj
    show (processBypass _ _).freqs j = _
    rw [b5]; exact f9 j hj
  have g6 : (toggledRun m).last_cv_in 0 = 0 := by
    show (processBypass _ _).last_cv_in 0 = _
    rw [b7]; exact f4
  have g7 : (toggledRun m).last_cv_out 0 = Real.log (250 / 261.6256) / Real.log 2 := by
    show (processBypass _ _).last_cv_out 0 = _
    rw [b8]; exact f3
  have hthr : throttle (heldTick (1 / 48000) 0) (toggledRun m) = false := by
    cases h : throttle (heldTick (1 / 48000) 0) (toggledRun m)
    · rfl
    · have h' := ((throttle_iff _ _).mp h).2.2.2.2
      rw [g2] at h'; cases h'
  have hfu : freqsUpdated (heldTick (1 / 48000) 0) (toggledRun m) = false := by
    cases h : freqsUpdated (heldTick (1 / 48000) 0) (toggledRun m)
    · rfl
    · rcases (freqsUpdated_iff _ _).mp h with h' | h' | ⟨j, hj, h'⟩
      · rw [g1] at h'; exact absurd rfl h'
      · rw [g3] at h'; exact absurd cround_neg_one h'
      · rw [g5 j hj] at h'; exact absurd rfl h'
  obtain ⟨a, _, _, _⟩ := master_tick_out m (heldTick (1 / 48000) 0) (toggledRun m) 0 hthr rfl
    (Nat.lt_succ_self 0)
  refine ⟨hthr, ?_, ?_⟩
  · have hskip : (updateOutput m (heldTick (1 / 48000) 0) false 0
        (sanitize ((heldTick (1 / 48000) 0).voltage 0))
        (tickStart (heldTick (1 / 48000) 0) (toggledRun m))).cv_out 0
        = (tickStart (heldTick (1 / 48000) 0) (toggledRun m)).last_cv_out 0 :=
      updateOutput_skip m _ 0 _ _ (by
        show (0 : ℝ) = (toggledRun m).last_cv_in 0
        rw [g6])
    rw [a, hfu, hskip]
    exact congrArg Volt.finite g7
  · have e : sanitize ((heldTick (1 / 48000) 0).voltage 0) = (0 : ℝ) := rfl
    have hkey : (midikey (0 : ℝ)).toNat = 60 := by rw [midikey_zero]; rfl
    have htm : (tickStart (heldTick (1 / 48000) 0) (toggledRun m)).tuningMode ≠ 0 := by
      show (toggledRun m).tuningMode ≠ 0
      rw [g4]; decide
    rw [e, recompute_midikey m _ 0 0 _ htm (by rw [hkey]; rfl), hkey, tickStart_freqs,
      if_pos (by norm_num)]
    have e60 : (heldTick (1 / 48000) (0 : ℝ)).noteToFrequency 60 = 500 := by
      show (stepTable 60 : ℝ) = 500
      simp [stepTable]
    rw [e60, hm.2.1, hm.2.2, hC]
    unfold stayInTuning
    simp only []
    rw [if_neg log_ratio_bounds.1, if_neg log_ratio_bounds.2]

/-- C6, the code at the failing input (exact `pow`/`log`, `FREQ_C4 = 261.6256`).  The run:
construction; a tick at 48 kHz with a master, DOWN rounding, table `stepTable`, input `0 V`,
continuous mode; a bypassed tick; the menu toggles `tuningMode` to MIDI-key mode; the same
tick again.  That last tick is not throttled and has a master, it emits the voltage of
250 Hz kept from continuous mode, and the full recomputation on the same input, table,
filter, rounding mode and `tuningMode` gives the voltage of 500 Hz, which is different. -/
theorem skip_branch_stale_after_mode_toggle :
    throttle (heldTick (1 / 48000) 0)
        (toggledRun (MathEnv.mk 261.6256 (Real.log 2) (fun x => 2 ^ x) Real.log)) = false ∧
      (heldTick (1 / 48000) (0 : ℝ)).master = true ∧
      (process (MathEnv.mk 261.6256 (Real.log 2) (fun x => 2 ^ x) Real.log)
          (heldTick (1 / 48000) 0)
          (toggledRun (MathEnv.mk 261.6256 (Real.log 2) (fun x => 2 ^ x) Real.log))).cvOutPort 0 =
        Volt.finite (Real.log (250 / 261.6256) / Real.log 2) ∧
      (recompute (MathEnv.mk 261.6256 (Real.log 2) (fun x => 2 ^ x) Real.log)
          (heldTick (1 / 48000) 0) 0 (sanitize ((heldTick (1 / 48000) 0).voltage 0))
          (tickStart (heldTick (1 / 48000) 0)
            (toggledRun (MathEnv.mk 261.6256 (Real.log 2) (fun x => 2 ^ x) Real.log)))).cv_out 0 =
        Real.log (500 / 261.6256) / Real.log 2 ∧
      Real.log (250 / 261.6256) / Real.log 2 ≠ Real.log (500 / 261.6256) / Real.log 2 := by
  obtain ⟨h1, h2, h3⟩ := toggledRun_facts _ (exactLibm_real 261.6256) rfl
  exact ⟨h1, rfl, h2, h3, ne_of_lt log_ratio_lt⟩

/-- The lagging run, for any exact numeric environment: after one tick of 2 ms with input
`0 V`, a tick with input `1 V` is throttled and emits the old voltage of 250 Hz; the next
tick with the same input is a window-boundary tick, recomputes, emits the voltage of 500 Hz
and calls `trigger`. -/
theorem lagRun_facts (m : MathEnv ℝ) (hm : ExactLibm m) (hC : m.FREQ_C4 = 261.6256) :
    throttle (heldTick (1 / 500) 1) (lagRun m) = true ∧
      throttle (heldTick (1 / 500) 1) (process m (heldTick (1 / 500) 1) (lagRun m)) = false ∧
      (process m (heldTick (1 / 500) 1) (lagRun m)).cvOutPort 0 =
        Volt.finite (Real.log (250 / 261.6256) / Real.log 2) ∧
      (process m (heldTick (1 / 500) 1)
          (process m (heldTick (1 / 500) 1) (lagRun m))).cvOutPort 0 =
        Volt.finite (Real.log (500 / 261.6256) / Real.log 2) ∧
      (process m (heldTick (1 / 500) 1)
          (process m (heldTick (1 / 500) 1) (lagRun m))).triggerCalled 0 = true := by
  obtain ⟨_, _, f3, f4, f5, f6, f7, f8, f9⟩ := first_tick m hm hC (fun _ => 0) (1 / 500)
  have p1 : (lagRun m).rateLimiterPhase = 2 / 5 := by
    show (process m (heldTick (1 / 500) 0) (init m (fun _ => 0))).rateLimiterPhase = _
    rw [process_phase]
    have e : advancedPhase (heldTick (1 / 500) 0) (init m (fun _ => (0 : ℝ))) = 2 / 5 := by
      show (0 : ℝ) + 1 / 500 / (5 / 1000) = 2 / 5
      norm_num
    rw [e, if_neg (by norm_num)]
  have a1 : advancedPhase (heldTick (1 / 500) 1) (lagRun m) = 4 / 5 := by
    show (lagRun m).rateLimiterPhase + 1 / 500 / (5 / 1000) = 4 / 5
    rw [p1]; norm_num
  have hthr1 : throttle (heldTick (1 / 500) 1) (lagRun m) = true := by
    rw [throttle_iff, a1]
    exact ⟨by norm_num, rfl, f5, cround_neg_one.trans f6.symm, f7⟩
  obtain ⟨t1, _, _, t4, t5, _⟩ := throttled_tick_out m (heldTick (1 / 500) 1) (lagRun m) 0 hthr1
  obtain ⟨u1, u2, u3, u4, u5⟩ :=
    process_other_shared m (heldTick (1 / 500) 1) (lagRun m) (Or.inl hthr1)
  have p2 : (process m (heldTick (1 / 500) 1) (lagRun m)).rateLimiterPhase = 4 / 5 := by
    rw [process_phase, a1, if_neg (by norm_num)]
  have a2 : advancedPhase (heldTick (1 / 500) 1)
      (process m (heldTick (1 / 500) 1) (lagRun m)) = 6 / 5 := by
    show (process m (heldTick (1 / 500) 1) (lagRun m)).rateLimiterPhase
      + 1 / 500 / (5 / 1000) = 6 / 5
    rw [p2]; norm_num
  have hthr2 : throttle (heldTick (1 / 500) 1)
      (process m (heldTick (1 / 500) 1) (lagRun m)) = false := by
    cases h : throttle (heldTick (1 / 500) 1) (process m (heldTick (1 / 500) 1) (lagRun m))
    · rfl
    · have h' := ((throttle_iff _ _).mp h).1
      rw [a2] at h'
      norm_num at h'
  obtain ⟨a, _, _, d⟩ := master_tick_out m (heldTick (1 / 500) 1)
    (process m (heldTick (1 / 500) 1) (lagRun m)) 0 hthr2 rfl (Nat.lt_succ_self 0)
  have hfreq : ∀ j, j < 128 →
      (tickStart (heldTick (1 / 500) 1)
        (process m (heldTick (1 / 500) 1) (lagRun m))).freqs j = stepTable j := by
    intro j hj
    rw [tickStart_freqs, if_pos hj]
    rfl
  have hval : (updateOutput m (heldTick (1 / 500) 1)
      (freqsUpdated (heldTick (1 / 500) 1) (process m (heldTick (1 / 500) 1) (lagRun m))) 0
      (sanitize ((heldTick (1 / 500) 1).voltage 0))
      (tickStart (heldTick (1 / 500) 1) (process m (heldTick (1 / 500) 1) (lagRun m)))).cv_out 0
      = Real.log (500 / 261.6256) / Real.log 2 := by
    have e : sanitize ((heldTick (1 / 500) 1).voltage 0) = (1 : ℝ) := rfl
    have hin : (1 : ℝ) ≠ (tickStart (heldTick (1 / 500) 1)
        (process m (heldTick (1 / 500) 1) (lagRun m))).last_cv_in 0 := by
      show (1 : ℝ) ≠ (process m (heldTick (1 / 500) 1) (lagRun m)).last_cv_in 0
      rw [t4]
      show (1 : ℝ) ≠ (process m (heldTick (1 / 500) 0) (init m (fun _ => 0))).last_cv_in 0
      rw [f4]
      norm_num
    rw [e, updateOutput_of_changed m _ _ 0 1 _ hin]
    have ht : (261.6256 : ℝ) * 2 ^ (1 : ℝ) = 523.2512 := by rw [Real.rpow_one]; norm_num
    have hfacts := stepTable_high _ hfreq 523.2512 (by norm_num)
    rw [← ht] at hfacts
    have htm : (tickStart (heldTick (1 / 500) 1)
        (process m (heldTick (1 / 500) 1) (lagRun m))).tuningMode = 0 := by
      show (process m (heldTick (1 / 500) 1) (lagRun m)).tuningMode = 0
      rw [u1]; exact f8
    exact recompute_down_value m hm hC _ _ 0 1 500 htm cround_neg_one hfacts.1 hfacts.2
  rw [hval] at a d
  refine ⟨hthr1, hthr2, ?_, a, ?_⟩
  · rw [t1 (Nat.lt_succ_self 0)]
    exact congrArg Volt.finite f3
  · rw [d, t5]
    show Real.log (500 / 261.6256) / Real.log 2
      ≠ (process m (heldTick (1 / 500) 0) (init m (fun _ => 0))).last_cv_out 0
    rw [f3]
    exact ne_of_gt log_ratio_lt

/-- Counterexample to C7 as stated (exact `pow`/`log`, `FREQ_C4 = 261.6256`): after
construction and one tick of 2 ms with input `0 V`, two consecutive ticks with the same
tick data (master present, input `1 V`, same table, filter and rounding parameter,
`tuningMode` untouched) emit different voltages on channel 0, and the second one calls
`trigger`: the first is throttled and reuses the old output, the second is a
window-boundary tick and recomputes. -/
theorem throttled_then_boundary_changes_output :
    (heldTick (1 / 500) (1 : ℝ)).master = true ∧
      (process (MathEnv.mk 261.6256 (Real.log 2) (fun x => 2 ^ x) Real.log)
          (heldTick (1 / 500) 1)
          (process (MathEnv.mk 261.6256 (Real.log 2) (fun x => 2 ^ x) Real.log)
            (heldTick (1 / 500) 1)
            (lagRun (MathEnv.mk 261.6256 (Real.log 2) (fun x => 2 ^ x) Real.log)))).cvOutPort 0 ≠
        (process (MathEnv.mk 261.6256 (Real.log 2) (fun x => 2 ^ x) Real.log)
          (heldTick (1 / 500) 1)
          (lagRun (MathEnv.mk 261.6256 (Real.log 2) (fun x => 2 ^ x) Real.log))).cvOutPort 0 ∧
      (process (MathEnv.mk 261.6256 (Real.log 2) (fun x => 2 ^ x) Real.log)
          (heldTick (1 / 500) 1)
          (process (MathEnv.mk 261.6256 (Real.log 2) (fun x => 2 ^ x) Real.log)
            (heldTick (1 / 500) 1)
            (lagRun (MathEnv.mk 261.6256 (Real.log 2) (fun x => 2 ^ x) Real.log)))).triggerCalled 0
        = true := by
  obtain ⟨_, _, h3, h4, h5⟩ := lagRun_facts _ (exactLibm_real 261.6256) rfl
  refine ⟨rfl, ?_, h5⟩
  rw [h3, h4]
  intro h
  exact absurd (Volt.finite.inj h) (ne_of_gt log_ratio_lt)

/-- Witness for C7: after the first tick of the lagging run (input `0 V`), the throttled
tick with input `1 V` emits the voltage of the first tick and calls no `trigger`. -/
theorem process_twice_same_output_witness :
    throttle (heldTick (1 / 500) 1)
        (lagRun (MathEnv.mk 261.6256 (Real.log 2) (fun x => 2 ^ x) Real.log)) = true ∧
      (process (MathEnv.mk 261.6256 (Real.log 2) (fun x => 2 ^ x) Real.log)
          (heldTick (1 / 500) 1)
          (lagRun (MathEnv.mk 261.6256 (Real.log 2) (fun x => 2 ^ x) Real.log))).cvOutPort 0 =
        (lagRun (MathEnv.mk 261.6256 (Real.log 2) (fun x => 2 ^ x) Real.log)).cvOutPort 0 ∧
      (process (MathEnv.mk 261.6256 (Real.log 2) (fun x => 2 ^ x) Real.log)
          (heldTick (1 / 500) 1)
          (lagRun (MathEnv.mk 261.6256 (Real.log 2) (fun x => 2 ^ x) Real.log))).triggerCalled 0
        = false := by
  have h := (lagRun_facts _ (exactLibm_real 261.6256) rfl).1
  exact ⟨h, process_twice_same_output _ (heldTick (1 / 500) 0) (heldTick (1 / 500) 1)
    (init _ (fun _ => 0)) 0 rfl rfl (Nat.lt_succ_self 0) (Nat.lt_succ_self 0) (Or.inr h)⟩

/-- Witness for C8: the first tick of the example run, channel 0. -/
theorem process_trigger_rule_witness :
    throttle (heldTick (1 / 48000) 0)
        (init (MathEnv.mk 261.6256 (Real.log 2) (fun x => 2 ^ x) Real.log) (fun _ => 0)) = false ∧
      (process (MathEnv.mk 261.6256 (Real.log 2) (fun x => 2 ^ x) Real.log)
          (heldTick (1 / 48000) 0)
          (init (MathEnv.mk 261.6256 (Real.log 2) (fun x => 2 ^ x) Real.log)
            (fun _ => 0))).last_cv_in 0 = sanitize ((heldTick (1 / 48000) (0 : ℝ)).voltage 0) := by
  have h := (first_tick _ (exactLibm_real 261.6256) rfl (fun _ => 0) (1 / 48000)).1
  exact ⟨h, (process_trigger_rule _ (heldTick (1 / 48000) 0) (init _ (fun _ => 0)) 0 h rfl
    (Nat.lt_succ_self 0)).2.2.2.2⟩

/-- Witness for C9: a tick without master carrying a NaN on channel 0 emits `0 V`. -/
theorem process_pass_through_witness :
    (process (MathEnv.mk 261.6256 (Real.log 2) (fun x => 2 ^ x) Real.log)
        { heldTick (1 / 48000) (0 : ℝ) with master := false, voltage := fun _ => Volt.nan }
        (init (MathEnv.mk 261.6256 (Real.log 2) (fun x => 2 ^ x) Real.log)
          (fun _ => 0))).cvOutPort 0 = Volt.finite 0 :=
  (process_pass_through _
    { heldTick (1 / 48000) (0 : ℝ) with master := false, voltage := fun _ => Volt.nan }
    (init _ (fun _ => 0)) 0 rfl (Nat.lt_succ_self 0)).1

end ExampleRun

/-! ## The resolver: table reads and idempotence -/

section ResolverReads

variable {α : Type} [LinearOrderedField α]

/-- The indices kept in `iLower` and `iUpper` stay below 128. -/
theorem scanLoop_bounds (freqs : Nat → α) (shouldFilter : Nat → Bool) (freq : α) :
    ∀ (n i : Nat) (s : Scan α), i + n ≤ 128 → s.iLower < 128 → s.iUpper < 128 →
      (scanLoop freqs shouldFilter freq n i s).iLower < 128 ∧
        (scanLoop freqs shouldFilter freq n i s).iUpper < 128 := by
  intro n
  induction n with
  | zero => intro i s _ h1 h2; exact ⟨h1, h2⟩
  | succ n ih =>
    intro i s hin h1 h2
    have hi : i < 128 := by omega
    have hn : i + 1 + n ≤ 128 := by omega
    rw [scanLoop_succ]
    split_ifs
    · exact ih (i + 1) s hn h1 h2
    · exact ⟨h1, h2⟩
    · exact ih (i + 1) _ hn hi h2
    · exact ih (i + 1) s hn h1 h2
    · exact ih (i + 1) _ hn h1 hi
    · exact ih (i + 1) s hn h1 h2

/-- The scan reads the table only at the indices it visits. -/
theorem scanLoop_congr (freqs freqs' : Nat → α) (shouldFilter : Nat → Bool) (freq : α) :
    ∀ (n i : Nat) (s : Scan α), (∀ j, i ≤ j → j < i + n → freqs' j = freqs j) →
      scanLoop freqs' shouldFilter freq n i s = scanLoop freqs shouldFilter freq n i s := by
  intro n
  induction n with
  | zero => intro i s _; rfl
  | succ n ih =>
    intro i s h
    have hi : freqs' i = freqs i := h i (le_refl i) (by omega)
    have hrest : ∀ s', scanLoop freqs' shouldFilter freq n (i + 1) s'
        = scanLoop freqs shouldFilter freq n (i + 1) s' :=
      fun s' => ih (i + 1) s' (fun j h1 h2 => h j (by omega) (by omega))
    rw [scanLoop_succ, scanLoop_succ, hi]
    simp only [hrest]

/-- The resolver depends on the table only through the entries at the indices 0..127. -/
theorem resolve_congr (m : MathEnv α) (freqs freqs' : Nat → α) (shouldFilter : Nat → Bool)
    (roundingMode : Int) (t : α) (h : ∀ i, i < 128 → freqs' i = freqs i) :
    resolve m freqs' shouldFilter roundingMode t = resolve m freqs shouldFilter roundingMode t := by
  have hb := scanLoop_bounds freqs shouldFilter t 128 0 scanInit (le_refl _)
    (by show 0 < 128; norm_num) (by show 0 < 128; norm_num)
  unfold resolve
  rw [scanLoop_congr freqs freqs' shouldFilter t 128 0 scanInit (fun j _ hj => h j (by omega))]
  unfold selectResult
  rw [h _ hb.1, h _ hb.2]

/-- With every index filtered the resolver returns `freqs[0]`. -/
theorem resolve_all_filtered (m : MathEnv α) (freqs : Nat → α) (shouldFilter : Nat → Bool)
    (roundingMode : Int) (t : α) (h : ∀ i, i < 128 → shouldFilter i = true) :
    resolve m freqs shouldFilter roundingMode t = freqs 0 := by
  have hnone : ∀ i, ¬ Usable shouldFilter i := by
    rintro i ⟨hi, hu⟩
    rw [h i hi] at hu
    cases hu
  have hfar : NoneNear freqs shouldFilter t := fun i hi => absurd hi (hnone i)
  rcases resolve_sides m freqs shouldFilter roundingMode t hfar with
    ⟨_, hr⟩ | ⟨_, U, ⟨⟨i, hi, _⟩, _⟩, _⟩ | ⟨_, L, ⟨⟨i, hi, _⟩, _⟩, _⟩ | ⟨L, _, ⟨⟨i, hi, _⟩, _⟩, _⟩
  · exact hr
  · exact absurd hi (hnone i)
  · exact absurd hi (hnone i)
  · exact absurd hi (hnone i)

/-- Resolving a resolved frequency gives it back. -/
theorem resolve_idem (m : MathEnv α) (freqs : Nat → α) (shouldFilter : Nat → Bool)
    (roundingMode : Int) (t : α) :
    resolve m freqs shouldFilter roundingMode (resolve m freqs shouldFilter roundingMode t) =
      resolve m freqs shouldFilter roundingMode t := by
  have entry : ∀ i, Usable shouldFilter i →
      resolve m freqs shouldFilter roundingMode (freqs i) = freqs i := by
    intro i hi
    exact resolve_of_near m freqs shouldFilter roundingMode (freqs i) i hi
      (by rw [sub_self, abs_zero]; norm_num)
  by_cases hfar : NoneNear freqs shouldFilter t
  · rcases resolve_sides m freqs shouldFilter roundingMode t hfar with
      ⟨hnone, hr⟩ | ⟨_, U, hU, hr⟩ | ⟨_, L, hL, hr⟩ | ⟨L, U, hL, hU, hr⟩
    · have hall : ∀ i, i < 128 → shouldFilter i = true := by
        intro i hi
        cases hf : shouldFilter i
        · exact absurd ⟨hi, hf⟩ (hnone i)
        · rfl
      rw [hr]
      exact resolve_all_filtered m freqs shouldFilter roundingMode _ hall
    · obtain ⟨⟨i, hi, e⟩, _⟩ := hU
      rw [hr, ← e]; exact entry i hi
    · obtain ⟨⟨i, hi, e⟩, _⟩ := hL
      rw [hr, ← e]; exact entry i hi
    · obtain ⟨⟨i, hi, e⟩, _⟩ := hL
      obtain ⟨⟨k, hk, e'⟩, _⟩ := hU
      rw [hr]
      split_ifs
      · rw [← e]; exact entry i hi
      · rw [← e']; exact entry k hk
      · rw [← e]; exact entry i hi
      · rw [← e']; exact entry k hk
  · have hex : ∃ j, Usable shouldFilter j ∧ |freqs j - t| < 1 / 10000000 := by
      unfold NoneNear at hfar
      push_neg at hfar
      exact hfar
    obtain ⟨j, hj, hnear⟩ := hex
    rw [resolve_of_near m freqs shouldFilter roundingMode t j hj hnear]
    exact resolve_of_near m freqs shouldFilter roundingMode t j hj hnear

/-- C20. Totality of the resolver: the indices `iLower` and `iUpper` used for the reads
`freqs[iLower]` and `freqs[iUpper]` are below 128 and the result depends on the table only
through the entries 0..127 (no read outside the table is reachable); and when all 128
indices are filtered the resolver returns `freqs[0]`, whatever the target and the rounding
mode. -/
theorem resolve_total_in_bounds (m : MathEnv α) (freqs : Nat → α) (shouldFilter : Nat → Bool)
    (roundingMode : Int) (t : α) :
    ((scanLoop freqs shouldFilter t 128 0 scanInit).iLower < 128 ∧
        (scanLoop freqs shouldFilter t 128 0 scanInit).iUpper < 128) ∧
      (∀ freqs' : Nat → α, (∀ i, i < 128 → freqs' i = freqs i) →
        resolve m freqs' shouldFilter roundingMode t =
          resolve m freqs shouldFilter roundingMode t) ∧
      ((∀ i, i < 128 → shouldFilter i = true) →
        ∀ (roundingMode' : Int) (t' : α),
          resolve m freqs shouldFilter roundingMode' t' = freqs 0) := by
  refine ⟨?_, ?_, ?_⟩
  · exact scanLoop_bounds freqs shouldFilter t 128 0 scanInit (le_refl _)
      (by show 0 < 128; norm_num) (by show 0 < 128; norm_num)
  · intro freqs' h
    exact resolve_congr m freqs freqs' shouldFilter roundingMode t h
  · intro h rm' t'
    exact resolve_all_filtered m freqs shouldFilter rm' t' h

end ResolverReads

/-! ## Loading and saving `tuningMode` -/

section Persistence

variable {α : Type}

/-- C17 (as amended). Loading an object without the entry `quantize_mode` leaves `tuningMode`
(and the rest of the state) as it was; this is `0`, continuous pitch, when the state is the
freshly constructed one.  Loading an object that has the entry sets `tuningMode` to the
stored integer. -/
theorem dataFromJson_absent_keeps_mode (root : List (String × JsonValue)) (q : Quantizer α)
    (habsent : json_object_get root quantizeModeKey = none) :
    dataFromJson root q = q ∧
      (q.tuningMode = 0 → (dataFromJson root q).tuningMode = 0) ∧
      (∀ n : Int, (dataFromJson ((quantizeModeKey, JsonValue.integer n) :: root) q).tuningMode
        = toInt32 n) := by
  refine ⟨?_, ?_, ?_⟩
  · unfold dataFromJson
    rw [habsent]
  · intro h
    unfold dataFromJson
    rw [habsent]
    exact h
  · intro n
    unfold dataFromJson json_object_get
    simp [List.lookup, json_integer_value]

/-- Witness for C17: the freshly constructed state and the empty object. -/
theorem dataFromJson_absent_keeps_mode_witness :
    json_object_get [] quantizeModeKey = none ∧
      (dataFromJson []
        (init (MathEnv.mk 261.6256 (Real.log 2) (fun x => 2 ^ x) Real.log)
          (fun _ => 0))).tuningMode = 0 :=
  ⟨rfl, (dataFromJson_absent_keeps_mode []
    (init (MathEnv.mk 261.6256 (Real.log 2) (fun x => 2 ^ x) Real.log) (fun _ => 0)) rfl).2.1
    rfl⟩

/-- Counterexample to C17 as stated: after the menu action has set `tuningMode` to 1,
loading the empty object (no `quantize_mode` entry) leaves `tuningMode` at 1, not 0. -/
theorem dataFromJson_absent_does_not_reset :
    json_object_get [] quantizeModeKey = none ∧
      (dataFromJson []
        (toggleTuningMode
          (init (MathEnv.mk 261.6256 (Real.log 2) (fun x => 2 ^ x) Real.log)
            (fun _ => 0)))).tuningMode = 1 :=
  ⟨rfl, rfl⟩

end Persistence

/-! ## Throttled ticks -/

section ThrottledFrame

variable {α : Type} [LinearOrderedField α] [FloorRing α]

/-- A throttled tick leaves the voltages of the trigger port as they were. -/
theorem throttled_tick_trigger_port (m : MathEnv α) (t : Tick α) (q : Quantizer α) (c : Nat)
    (hthr : throttle t q = true) :
    (process m t q).triggerPort c = q.triggerPort c := by
  have h := process_throttled_chan m t q c hthr
  by_cases hc : c < t.channels
  · rw [if_pos hc] at h
    obtain ⟨_, _, _, _, _, k6, _⟩ := chanView_eq h
    rw [k6]; rfl
  · rw [if_neg hc] at h
    obtain ⟨_, _, _, _, _, k6, _⟩ := chanView_eq h
    rw [k6]; rfl

/-- C18. Frame of the throttle path: a throttled tick emits `last_cv_out[c]` on every
channel below the channel count and leaves `cv_out`, `last_cv_in`, `last_cv_out`, the cached
table, the pulse generators, the trigger port voltages and `tuningMode` unchanged; of
`hasMaster`, `roundingMode`, `bypassed` and `rateLimiterPhase`, which it writes, only the
phase takes a new value. -/
theorem throttled_tick_frame (m : MathEnv α) (t : Tick α) (q : Quantizer α)
    (hthr : throttle t q = true) :
    (∀ c, c < t.channels → (process m t q).cvOutPort c = Volt.finite (q.last_cv_out c)) ∧
      (process m t q).cv_out = q.cv_out ∧
      (process m t q).last_cv_in = q.last_cv_in ∧
      (process m t q).last_cv_out = q.last_cv_out ∧
      (process m t q).freqs = q.freqs ∧
      (process m t q).pulseGenerators = q.pulseGenerators ∧
      (process m t q).triggerPort = q.triggerPort ∧
      (process m t q).tuningMode = q.tuningMode ∧
      (process m t q).hasMaster = q.hasMaster ∧
      (process m t q).roundingMode = q.roundingMode ∧
      (process m t q).bypassed = q.bypassed ∧
      (process m t q).rateLimiterPhase = advancedPhase t q ∧
      (∀ c, (process m t q).triggerCalled c = false) := by
  obtain ⟨g1, g2, g3, g4, g5⟩ := (throttle_iff t q).mp hthr
  obtain ⟨s1, s2, s3, s4, s5⟩ := process_other_shared m t q (Or.inl hthr)
  have field := fun c => throttled_tick_out m t q c hthr
  refine ⟨fun c hc => (field c).1 hc, funext fun c => (field c).2.2.1,
    funext fun c => (field c).2.2.2.1, funext fun c => (field c).2.2.2.2.1, s5,
    funext fun c => (field c).2.1,
    funext fun c => throttled_tick_trigger_port m t q c hthr, s1, ?_, ?_, ?_, ?_,
    fun c => (field c).2.2.2.2.2⟩
  · rw [s2, g2, g3]
  · rw [s4, g4]
  · rw [s3, g5]
  · rw [process_phase, if_neg (not_le.mpr g1)]

end ThrottledFrame

section ThrottledFrameExample

/-- Witness for C18: the throttled tick of the lagging run. -/
theorem throttled_tick_frame_witness :
    throttle (heldTick (1 / 500) 1)
        (lagRun (MathEnv.mk 261.6256 (Real.log 2) (fun x => 2 ^ x) Real.log)) = true ∧
      (process (MathEnv.mk 261.6256 (Real.log 2) (fun x => 2 ^ x) Real.log)
          (heldTick (1 / 500) 1)
          (lagRun (MathEnv.mk 261.6256 (Real.log 2) (fun x => 2 ^ x) Real.log))).last_cv_out =
        (lagRun (MathEnv.mk 261.6256 (Real.log 2) (fun x => 2 ^ x) Real.log)).last_cv_out := by
  have h := (lagRun_facts _ (exactLibm_real 261.6256) rfl).1
  exact ⟨h, (throttled_tick_frame _ (heldTick (1 / 500) 1) (lagRun _) h).2.2.2.1⟩

end ThrottledFrameExample

/-! ## Idempotence of the resolver -/

section ResolverIdempotence

/-- C19. Idempotence of the resolver: for every table, filter, rounding mode and target,
resolving the resolved frequency gives it back; hence, with the exact `pow`/`log` and a
positive `FREQ_C4`, feeding the output voltage of the continuous mode back in as input
gives the same output voltage, whenever the resolved frequency is positive (so that its
voltage is defined). -/
theorem resolve_idempotent (m : MathEnv ℝ) (freqs : Nat → ℝ) (shouldFilter : Nat → Bool)
    (roundingMode : Int) (t : ℝ) :
    resolve m freqs shouldFilter roundingMode (resolve m freqs shouldFilter roundingMode t) =
        resolve m freqs shouldFilter roundingMode t ∧
      (ExactLibm m → 0 < m.FREQ_C4 →
        ∀ (tk : Tick ℝ) (q : Quantizer ℝ) (c : Nat) (vin : ℝ), q.tuningMode = 0 →
          0 < qfun m q.freqs tk.shouldFilterNote q.roundingMode vin →
          (recompute m tk c ((recompute m tk c vin q).cv_out c) q).cv_out c =
            (recompute m tk c vin q).cv_out c) := by
  refine ⟨resolve_idem m freqs shouldFilter roundingMode t, ?_⟩
  intro hm hC tk q c vin htm hpos
  rw [recompute_continuous m tk c _ q htm, recompute_continuous m tk c vin q htm]
  have hlog2 : 0 < Real.log 2 := Real.log_pos (by norm_num)
  have hratio : 0 < qfun m q.freqs tk.shouldFilterNote q.roundingMode vin / m.FREQ_C4 :=
    div_pos hpos hC
  have hback : qfun m q.freqs tk.shouldFilterNote q.roundingMode
      (m.log (qfun m q.freqs tk.shouldFilterNote q.roundingMode vin / m.FREQ_C4) / m.ln2)
      = qfun m q.freqs tk.shouldFilterNote q.roundingMode vin := by
    have hpow : m.pow2 (m.log (qfun m q.freqs tk.shouldFilterNote q.roundingMode vin
        / m.FREQ_C4) / m.ln2)
        = qfun m q.freqs tk.shouldFilterNote q.roundingMode vin / m.FREQ_C4 := by
      rw [hm.1, hm.2.1, hm.2.2, Real.rpow_def_of_pos (by norm_num), mul_div_cancel₀ _ hlog2.ne',
        Real.exp_log hratio]
    have e : qfun m q.freqs tk.shouldFilterNote q.roundingMode
        (m.log (qfun m q.freqs tk.shouldFilterNote q.roundingMode vin / m.FREQ_C4) / m.ln2)
        = resolve m q.freqs tk.shouldFilterNote q.roundingMode
          (m.FREQ_C4 * m.pow2 (m.log (qfun m q.freqs tk.shouldFilterNote q.roundingMode vin
            / m.FREQ_C4) / m.ln2)) := rfl
    rw [e, hpow, mul_div_cancel₀ _ hC.ne']
    exact resolve_idem m q.freqs tk.shouldFilterNote q.roundingMode _
  rw [hback]

end ResolverIdempotence

/-! ## Convergence after a table change -/

section Convergence

variable {α : Type} [LinearOrderedField α] [FloorRing α]

/-- Throttled ticks leave the cached table and `tuningMode` as they were. -/
theorem runTicks_throttled (m : MathEnv α) :
    ∀ (ts : List (Tick α)) (q : Quantizer α), AllThrottled m ts q →
      (runTicks m ts q).freqs = q.freqs ∧ (runTicks m ts q).tuningMode = q.tuningMode := by
  intro ts
  induction ts with
  | nil => intro q _; exact ⟨rfl, rfl⟩
  | cons t ts ih =>
    intro q h
    obtain ⟨h1, h2⟩ := h
    obtain ⟨s1, _, _, _, s5⟩ := process_other_shared m t q (Or.inl h1)
    obtain ⟨a, b⟩ := ih (process m t q) h2
    exact ⟨a.trans s5, b.trans s1⟩

/-- A window-boundary tick is not throttled. -/
theorem throttle_of_boundary (t : Tick α) (q : Quantizer α) (h : 1 ≤ advancedPhase t q) :
    throttle t q = false := by
  unfold throttle
  rw [if_pos h]

/-- A non-throttled tick with a master whose table differs from the cached one: the cache
is refreshed and every channel below the channel count is recomputed. -/
theorem refreshed_tick_out (m : MathEnv α) (t : Tick α) (q : Quantizer α)
    (hthr : throttle t q = false) (hmaster : t.master = true)
    (hdiff : ∃ i, i < 128 ∧ t.noteToFrequency i ≠ q.freqs i) :
    freqsUpdated t q = true ∧
      (∀ i, i < 128 → (process m t q).freqs i = t.noteToFrequency i) ∧
      (q.tuningMode = 0 → ∀ c, c < t.channels →
        (process m t q).cvOutPort c = Volt.finite
          (toVolts m (resolve m t.noteToFrequency t.shouldFilterNote (cround t.roundingParam)
            (m.FREQ_C4 * m.pow2 (sanitize (t.voltage c)))))) := by
  have hfu : freqsUpdated t q = true :=
    (freqsUpdated_iff t q).mpr (Or.inr (Or.inr hdiff))
  obtain ⟨_, _, _, _, s5⟩ := process_master_shared m t q hthr hmaster
  have hfreq : ∀ i, i < 128 → (tickStart t q).freqs i = t.noteToFrequency i := by
    intro i hi
    rw [tickStart_freqs, if_pos hi]
  refine ⟨hfu, ?_, ?_⟩
  · intro i hi
    rw [s5]
    exact hfreq i hi
  · intro htm c hc
    obtain ⟨a, _, _, _⟩ := master_tick_out m t q c hthr hmaster hc
    have htm' : (tickStart t q).tuningMode = 0 := htm
    rw [a, hfu, updateOutput_of_updated, recompute_continuous m t c _ (tickStart t q) htm']
    have e : qfun m (tickStart t q).freqs t.shouldFilterNote (tickStart t q).roundingMode
        (sanitize (t.voltage c))
        = resolve m t.noteToFrequency t.shouldFilterNote (cround t.roundingParam)
          (m.FREQ_C4 * m.pow2 (sanitize (t.voltage c))) :=
      resolve_congr m t.noteToFrequency (tickStart t q).freqs t.shouldFilterNote _ _ hfreq
    rw [e]
    rfl

end Convergence

section ConvergenceReal

/-- With the exact numeric environment the voltage of a frequency is the base-2 logarithm of
its ratio to `FREQ_C4`. -/
theorem toVolts_exact (m : MathEnv ℝ) (hm : ExactLibm m) (f : ℝ) :
    toVolts m f = Real.logb 2 (f / m.FREQ_C4) := by
  unfold toVolts
  rw [hm.2.1, hm.2.2]
  rfl

/-- C11 (as amended). Convergence after a table change, with an authority present: let the
provider's table differ from the cached table `freqs` of the state `q`, let the ticks `ts`
that follow
be throttled, and let `t` be the next window-boundary tick (advanced phase at least 1) with
a master.  After `t` the cached table holds the provider's frequency at every index
0..127, `freqsUpdated` is set, and in continuous mode every channel below the channel count
emits `log2 (resolve (C4 * 2 ^ vin) / C4)` for its sanitized input and the new table,
whether or not the input changed. -/
theorem table_change_converges (m : MathEnv ℝ) (hm : ExactLibm m) (ts : List (Tick ℝ))
    (t : Tick ℝ) (q : Quantizer ℝ) (hts : AllThrottled m ts q)
    (hboundary : 1 ≤ advancedPhase t (runTicks m ts q)) (hmaster : t.master = true)
    (hdiff : ∃ i, i < 128 ∧ t.noteToFrequency i ≠ q.freqs i) :
    (∀ i, i < 128 → (process m t (runTicks m ts q)).freqs i = t.noteToFrequency i) ∧
      freqsUpdated t (runTicks m ts q) = true ∧
      (q.tuningMode = 0 → ∀ c, c < t.channels →
        (process m t (runTicks m ts q)).cvOutPort c = Volt.finite
          (Real.logb 2
            (resolve m t.noteToFrequency t.shouldFilterNote (cround t.roundingParam)
              (m.FREQ_C4 * 2 ^ sanitize (t.voltage c)) / m.FREQ_C4))) := by
  obtain ⟨hf, htm⟩ := runTicks_throttled m ts q hts
  have hdiff' : ∃ i, i < 128 ∧ t.noteToFrequency i ≠ (runTicks m ts q).freqs i := by
    rw [hf]; exact hdiff
  obtain ⟨a, b, c⟩ := refreshed_tick_out m t (runTicks m ts q)
    (throttle_of_boundary t _ hboundary) hmaster hdiff'
  refine ⟨b, a, ?_⟩
  intro h0 ch hch
  rw [c (htm.trans h0) ch hch, toVolts_exact m hm, hm.1]

end ConvergenceReal

section ConvergenceExample

/-- After the first tick of the lagging run, a tick of 2 ms with a master and DOWN rounding
is throttled, and the tick of 2 ms after it is a window-boundary tick. -/
theorem lagRun_next (m : MathEnv ℝ) (hm : ExactLibm m) (hC : m.FREQ_C4 = 261.6256)
    (t t' : Tick ℝ) (h1 : t.sampleTime = 1 / 500) (h2 : t.master = true)
    (h3 : t.roundingParam = -1) (h1' : t'.sampleTime = 1 / 500) :
    throttle t (lagRun m) = true ∧ 1 ≤ advancedPhase t' (process m t (lagRun m)) ∧
      (lagRun m).freqs 0 = 250 ∧ (lagRun m).tuningMode = 0 := by
  obtain ⟨_, _, _, _, f5, f6, f7, f8, f9⟩ := first_tick m hm hC (fun _ => 0) (1 / 500)
  have p1 : (lagRun m).rateLimiterPhase = 2 / 5 := by
    show (process m (heldTick (1 / 500) 0) (init m (fun _ => 0))).rateLimiterPhase = _
    rw [process_phase]
    have e : advancedPhase (heldTick (1 / 500) 0) (init m (fun _ => (0 : ℝ))) = 2 / 5 := by
      show (0 : ℝ) + 1 / 500 / (5 / 1000) = 2 / 5
      norm_num
    rw [e, if_neg (by norm_num)]
  have a1 : advancedPhase t (lagRun m) = 4 / 5 := by
    show (lagRun m).rateLimiterPhase + t.sampleTime / (5 / 1000) = 4 / 5
    rw [p1, h1]; norm_num
  have hthr : throttle t (lagRun m) = true := by
    rw [throttle_iff, a1]
    refine ⟨by norm_num, h2, f5, ?_, f7⟩
    rw [h3]
    exact cround_neg_one.trans f6.symm
  have p2 : (process m t (lagRun m)).rateLimiterPhase = 4 / 5 := by
    rw [process_phase, a1, if_neg (by norm_num)]
  refine ⟨hthr, ?_, ?_, f8⟩
  · show 1 ≤ (process m t (lagRun m)).rateLimiterPhase + t'.sampleTime / (5 / 1000)
    rw [p2, h1']; norm_num
  · show (process m (heldTick (1 / 500) 0) (init m (fun _ => 0))).freqs 0 = 250
    rw [f9 0 (by norm_num)]
    rfl

/-- Witness for C11: after the first tick of the lagging run the provider switches to
`twoNoteTable`; a throttled tick follows, and at the window-boundary tick after it the
cache holds the new table. -/
theorem table_change_converges_witness :
    AllThrottled (MathEnv.mk 261.6256 (Real.log 2) (fun x => 2 ^ x) Real.log)
        [retunedTick (1 / 500) 0]
        (lagRun (MathEnv.mk 261.6256 (Real.log 2) (fun x => 2 ^ x) Real.log)) ∧
      (process (MathEnv.mk 261.6256 (Real.log 2) (fun x => 2 ^ x) Real.log)
          (retunedTick (1 / 500) 0)
          (runTicks (MathEnv.mk 261.6256 (Real.log 2) (fun x => 2 ^ x) Real.log)
            [retunedTick (1 / 500) 0]
            (lagRun (MathEnv.mk 261.6256 (Real.log 2) (fun x => 2 ^ x) Real.log)))).freqs 0 =
        (retunedTick (1 / 500) (0 : ℝ)).noteToFrequency 0 := by
  obtain ⟨h1, h2, h3, _⟩ := lagRun_next _ (exactLibm_real 261.6256) rfl
    (retunedTick (1 / 500) 0) (retunedTick (1 / 500) 0) rfl rfl rfl rfl
  have hts : AllThrottled (MathEnv.mk 261.6256 (Real.log 2) (fun x => 2 ^ x) Real.log)
      [retunedTick (1 / 500) 0]
      (lagRun (MathEnv.mk 261.6256 (Real.log 2) (fun x => 2 ^ x) Real.log)) := ⟨h1, trivial⟩
  refine ⟨hts, ?_⟩
  exact (table_change_converges _ (exactLibm_real 261.6256) [retunedTick (1 / 500) 0]
    (retunedTick (1 / 500) 0) (lagRun _) hts h2 rfl
    ⟨0, by norm_num, by
      rw [h3]
      show (twoNoteTable 0 : ℝ) ≠ 250
      rw [twoNoteTable_zero]
      norm_num⟩).1 0 (by norm_num)

end ConvergenceExample

/-! ## Out-of-range voltages in MIDI-key mode -/

section StayInTuning

variable {α : Type} [LinearOrderedField α] [FloorRing α]

end StayInTuning

section PowersOfTwo

end PowersOfTwo

/-! ## The resolver at two targets -/

section ResolverShift

variable {α : Type} [LinearOrderedField α]

end ResolverShift

/-! ## Out-of-range voltages: the stored `float` -/

section StoredVoltage

end StoredVoltage

section OutOfRange

end OutOfRange

/-! ## Pulse length and sticky hold -/

section PulseAndHold

variable {α : Type} [LinearOrderedField α] [FloorRing α]

/-- The trigger port after a non-throttled tick with a master, on a channel below the
channel count. -/
theorem master_tick_trigger_port (m : MathEnv α) (t : Tick α) (q : Quantizer α) (c : Nat)
    (hthr : throttle t q = false) (hm : t.master = true) (hc : c < t.channels) :
    (process m t q).triggerPort c =
      if (pulseProcess
        (if (updateOutput m t (freqsUpdated t q) c (sanitize (t.voltage c))
              (tickStart t q)).cv_out c ≠ q.last_cv_out c
          then pulseTrigger (q.pulseGenerators c) (1 / 1000)
          else q.pulseGenerators c) t.sampleTime).1 then 10 else 0 := by
  obtain ⟨_, _, _, _, _, p6, _⟩ := chanView_eq (process_master_chan m t q c hthr hm hc)
  have hf := updateOutput_frame m t (freqsUpdated t q) c (sanitize (t.voltage c)) (tickStart t q)
  have h1 : (updateOutput m t (freqsUpdated t q) c (sanitize (t.voltage c))
      (tickStart t q)).last_cv_out c = q.last_cv_out c := by rw [hf]; rfl
  have h3 : (updateOutput m t (freqsUpdated t q) c (sanitize (t.voltage c))
      (tickStart t q)).pulseGenerators c = q.pulseGenerators c := by rw [hf]; rfl
  have e7 := (emitChannel_self t c (sanitize (t.voltage c))
    (updateOutput m t (freqsUpdated t q) c (sanitize (t.voltage c)) (tickStart t q))).2.2.2.2.2.2
  rw [h1, h3] at e7
  rw [p6]
  exact e7

/-- The stored output after a non-throttled tick with a master is the output of lines
114-205. -/
theorem master_tick_cv_out (m : MathEnv α) (t : Tick α) (q : Quantizer α) (c : Nat)
    (hthr : throttle t q = false) (hm : t.master = true) (hc : c < t.channels) :
    (process m t q).cv_out c =
      (updateOutput m t (freqsUpdated t q) c (sanitize (t.voltage c)) (tickStart t q)).cv_out c := by
  obtain ⟨_, p2, _⟩ := chanView_eq (process_master_chan m t q c hthr hm hc)
  rw [p2]
  exact (quantizeChannel_self m t (freqsUpdated t q) c (tickStart t q)).1

/-- A tick without master, on a channel below the channel count: the input is passed on and
recorded, `cv_out[c]` is not written. -/
theorem no_master_tick_out (m : MathEnv α) (t : Tick α) (q : Quantizer α) (c : Nat)
    (hm : t.master = false) (hc : c < t.channels) :
    (process m t q).cvOutPort c = Volt.finite (sanitize (t.voltage c)) ∧
      (process m t q).last_cv_out c = sanitize (t.voltage c) ∧
      (process m t q).last_cv_in c = sanitize (t.voltage c) ∧
      (process m t q).cv_out c = q.cv_out c := by
  have hv := process_no_master_view m t q c hm
  rw [if_pos hc] at hv
  obtain ⟨_, p2, p3, p4, p5, _, _⟩ := chanView_eq hv
  rw [p2, p3, p4, p5]
  refine ⟨?_, ?_, ?_, rfl⟩
  · simp [passChannel]
  · simp [passChannel]
  · simp [passChannel]

/-- In MIDI-key mode a filtered key leaves the state as it is. -/
theorem recompute_filtered (m : MathEnv α) (t : Tick α) (c : Nat) (vin : α) (q : Quantizer α)
    (h : q.tuningMode ≠ 0) (hf : t.shouldFilterNote (midikey vin).toNat = true) :
    recompute m t c vin q = q := by
  unfold recompute midiKeyBranch
  rw [if_neg h]
  simp [hf]

end PulseAndHold

section PulseExample

/-- Repeating a tick at 48 kHz with a master and DOWN rounding from a state with a master,
DOWN rounding, `bypassed` clear and phase `p`: as long as the phase stays below 1 every such
tick is throttled, and the trigger port and the pulse generators are left as they were. -/
theorem throttled_repeat (m : MathEnv ℝ) (t : Tick ℝ) (ht1 : t.sampleTime = 1 / 48000)
    (ht2 : t.master = true) (ht3 : t.roundingParam = -1) :
    ∀ (k : Nat) (s : Quantizer ℝ) (p : ℝ), s.hasMaster = true → s.roundingMode = -1 →
      s.bypassed = false → s.rateLimiterPhase = p → p + (k : ℝ) / 240 < 1 →
      AllThrottled m (List.replicate k t) s ∧
        (runTicks m (List.replicate k t) s).triggerPort = s.triggerPort ∧
        (runTicks m (List.replicate k t) s).pulseGenerators = s.pulseGenerators := by
  intro k
  induction k with
  | zero =>
    intro s p _ _ _ _ _
    exact ⟨trivial, rfl, rfl⟩
  | succ k ih =>
    intro s p h1 h2 h3 h4 h5
    have hk : (0 : ℝ) ≤ (k : ℝ) / 240 := by positivity
    have hcast : ((k + 1 : ℕ) : ℝ) / 240 = 1 / 240 + (k : ℝ) / 240 := by
      push_cast; ring
    rw [hcast] at h5
    have a1 : advancedPhase t s = p + 1 / 240 := by
      show s.rateLimiterPhase + t.sampleTime / (5 / 1000) = _
      rw [h4, ht1]; norm_num
    have hthr : throttle t s = true := by
      rw [throttle_iff, a1]
      refine ⟨by linarith, ht2, h1, ?_, h3⟩
      rw [ht3, h2]; exact cround_neg_one
    obtain ⟨_, s2, s3, s4, _⟩ := process_other_shared m t s (Or.inl hthr)
    have hp : (process m t s).rateLimiterPhase = p + 1 / 240 := by
      rw [process_phase, a1, if_neg (by linarith)]
    obtain ⟨b1, b2, b3⟩ := ih (process m t s) (p + 1 / 240) (s2.trans ht2)
      (by rw [s4, ht3]; exact cround_neg_one) s3 hp (by linarith)
    refine ⟨⟨hthr, b1⟩, ?_, ?_⟩
    · show (runTicks m (List.replicate k t) (process m t s)).triggerPort = _
      rw [b2]
      exact funext fun c => throttled_tick_trigger_port m t s c hthr
    · show (runTicks m (List.replicate k t) (process m t s)).pulseGenerators = _
      rw [b3]
      exact funext fun c => (throttled_tick_out m t s c hthr).2.1

theorem log_ratio_neg : Real.log (250 / 261.6256) / Real.log 2 < 0 := by
  have hlog2 : 0 < Real.log 2 := Real.log_pos (by norm_num)
  have h : Real.log (250 / 261.6256) < 0 := Real.log_neg (by norm_num) (by norm_num)
  exact div_neg_of_neg_of_pos h hlog2

/-- The pulse of the example run, for any exact numeric environment: the first tick changes
the output, calls `trigger` and raises the trigger port to 10 V; the next 100 ticks are
throttled and leave the port at 10 V. -/
theorem pulseRun_facts (m : MathEnv ℝ) (hm : ExactLibm m) (hC : m.FREQ_C4 = 261.6256) :
    (process m (heldTick (1 / 48000) 0) (init m (fun _ => 0))).triggerCalled 0 = true ∧
      AllThrottled m (List.replicate 100 (heldTick (1 / 48000) 0))
        (process m (heldTick (1 / 48000) 0) (init m (fun _ => 0))) ∧
      (pulseRun m 100).triggerPort 0 = 10 := by
  obtain ⟨hthr, _, f3, _, f5, f6, f7, _, _⟩ := first_tick m hm hC (fun _ => 0) (1 / 48000)
  obtain ⟨_, b, _, d⟩ := master_tick_out m (heldTick (1 / 48000) 0) (init m (fun _ => 0)) 0
    hthr rfl (Nat.lt_succ_self 0)
  have hout : (updateOutput m (heldTick (1 / 48000) 0)
      (freqsUpdated (heldTick (1 / 48000) 0) (init m (fun _ => 0))) 0
      (sanitize ((heldTick (1 / 48000) 0).voltage 0))
      (tickStart (heldTick (1 / 48000) 0) (init m (fun _ => 0)))).cv_out 0
      = Real.log (250 / 261.6256) / Real.log 2 := b.symm.trans f3
  have hne : Real.log (250 / 261.6256) / Real.log 2 ≠ (init m (fun _ => (0 : ℝ))).last_cv_out 0 :=
    ne_of_lt log_ratio_neg
  have hport : (process m (heldTick (1 / 48000) 0) (init m (fun _ => 0))).triggerPort 0 = 10 := by
    rw [master_tick_trigger_port m _ _ 0 hthr rfl (Nat.lt_succ_self 0), hout, if_pos hne]
    have e : pulseTrigger ((init m (fun _ => (0 : ℝ))).pulseGenerators 0) (1 / 1000)
        = 1 / 1000 := by
      show pulseTrigger (0 : ℝ) (1 / 1000) = 1 / 1000
      unfold pulseTrigger
      rw [if_pos (by norm_num)]
    rw [e]
    unfold pulseProcess
    rw [if_pos (by norm_num)]
  have hphase : (process m (heldTick (1 / 48000) 0) (init m (fun _ => 0))).rateLimiterPhase
      = 1 / 240 := by
    rw [process_phase]
    have e : advancedPhase (heldTick (1 / 48000) 0) (init m (fun _ => (0 : ℝ))) = 1 / 240 := by
      show (0 : ℝ) + 1 / 48000 / (5 / 1000) = 1 / 240
      norm_num
    rw [e, if_neg (by norm_num)]
  obtain ⟨r1, r2, _⟩ := throttled_repeat m (heldTick (1 / 48000) 0) rfl rfl rfl 100
    (process m (heldTick (1 / 48000) 0) (init m (fun _ => 0))) (1 / 240) f5 f6 f7 hphase
    (by norm_num)
  refine ⟨d.mpr (by rw [hout]; exact hne), r1, ?_⟩
  show (runTicks m (List.replicate 100 (heldTick (1 / 48000) 0))
    (process m (heldTick (1 / 48000) 0) (init m (fun _ => 0)))).triggerPort 0 = 10
  rw [r2]
  exact hport

/-- C12, the code at the failing input (exact `pow`/`log`, `FREQ_C4 = 261.6256`).  At 48 kHz
the first tick after construction (master present, input `0 V`) changes the output and
calls `trigger(1e-3)`.  The 100 ticks that follow are throttled; they span more than 1 ms of
sample time, and after them the trigger port still holds 10 V. -/
theorem trigger_stays_high_while_throttled :
    (process (MathEnv.mk 261.6256 (Real.log 2) (fun x => 2 ^ x) Real.log)
        (heldTick (1 / 48000) 0)
        (init (MathEnv.mk 261.6256 (Real.log 2) (fun x => 2 ^ x) Real.log)
          (fun _ => 0))).triggerCalled 0 = true ∧
      AllThrottled (MathEnv.mk 261.6256 (Real.log 2) (fun x => 2 ^ x) Real.log)
        (List.replicate 100 (heldTick (1 / 48000) 0))
        (process (MathEnv.mk 261.6256 (Real.log 2) (fun x => 2 ^ x) Real.log)
          (heldTick (1 / 48000) 0)
          (init (MathEnv.mk 261.6256 (Real.log 2) (fun x => 2 ^ x) Real.log) (fun _ => 0))) ∧
      (1 : ℝ) / 1000 < 100 * (1 / 48000) ∧
      (pulseRun (MathEnv.mk 261.6256 (Real.log 2) (fun x => 2 ^ x) Real.log) 100).triggerPort 0
        = 10 := by
  obtain ⟨h1, h2, h3⟩ := pulseRun_facts _ (exactLibm_real 261.6256) rfl
  exact ⟨h1, h2, by norm_num, h3⟩

/-- The sticky hold after a pass-through tick, for any exact numeric environment: the state
`stickyRun` is in MIDI-key mode and its last tick emitted `0 V`; the next tick has a master
and a filtered key, is not throttled, emits the voltage of 250 Hz left in `cv_out[0]` by the
earlier quantization and calls `trigger`. -/
theorem stickyRun_facts (m : MathEnv ℝ) (hm : ExactLibm m) (hC : m.FREQ_C4 = 261.6256) :
    (stickyRun m).tuningMode = 1 ∧
      (stickyRun m).cvOutPort 0 = Volt.finite 0 ∧
      throttle (filteredTick (1 / 48000) 0) (stickyRun m) = false ∧
      (process m (filteredTick (1 / 48000) 0) (stickyRun m)).cvOutPort 0 =
        Volt.finite (Real.log (250 / 261.6256) / Real.log 2) ∧
      (process m (filteredTick (1 / 48000) 0) (stickyRun m)).triggerCalled 0 = true := by
  obtain ⟨hthr1, _, f3, _, _, _, _, f8, _⟩ := first_tick m hm hC (fun _ => 0) (1 / 48000)
  have c1 : (process m (heldTick (1 / 48000) 0) (init m (fun _ => 0))).cv_out 0
      = Real.log (250 / 261.6256) / Real.log 2 := by
    rw [master_tick_cv_out m _ _ 0 hthr1 rfl (Nat.lt_succ_self 0)]
    exact ((master_tick_out m _ _ 0 hthr1 rfl (Nat.lt_succ_self 0)).2.1).symm.trans f3
  obtain ⟨n1, n2, _, n4⟩ := no_master_tick_out m (silentTick (1 / 48000) 0)
    (toggleTuningMode (process m (heldTick (1 / 48000) 0) (init m (fun _ => 0)))) 0 rfl
    (Nat.lt_succ_self 0)
  obtain ⟨s1, s2, _, _, _⟩ := process_other_shared m (silentTick (1 / 48000) 0)
    (toggleTuningMode (process m (heldTick (1 / 48000) 0) (init m (fun _ => 0)))) (Or.inr rfl)
  have g1 : (stickyRun m).tuningMode = 1 := by
    show (process m (silentTick (1 / 48000) 0) _).tuningMode = 1
    rw [s1]
    show (if _ = 0 then (1 : Int) else 0) = 1
    rw [f8]; rfl
  have g2 : (stickyRun m).hasMaster = false := s2
  have g3 : (stickyRun m).cv_out 0 = Real.log (250 / 261.6256) / Real.log 2 := by
    show (process m (silentTick (1 / 48000) 0) _).cv_out 0 = _
    rw [n4]
    exact c1
  have g4 : (stickyRun m).last_cv_out 0 = 0 := n2
  have hthr : throttle (filteredTick (1 / 48000) 0) (stickyRun m) = false := by
    cases h : throttle (filteredTick (1 / 48000) 0) (stickyRun m)
    · rfl
    · have h' := ((throttle_iff _ _).mp h).2.2.1
      rw [g2] at h'; cases h'
  have hfu : freqsUpdated (filteredTick (1 / 48000) 0) (stickyRun m) = true :=
    (freqsUpdated_iff _ _).mpr (Or.inl (by rw [g2]; simp [filteredTick, heldTick]))
  obtain ⟨a, _, _, d⟩ := master_tick_out m (filteredTick (1 / 48000) 0) (stickyRun m) 0 hthr rfl
    (Nat.lt_succ_self 0)
  have hmode : (tickStart (filteredTick (1 / 48000) 0) (stickyRun m)).tuningMode ≠ 0 := by
    show (stickyRun m).tuningMode ≠ 0
    rw [g1]; decide
  have hout : (updateOutput m (filteredTick (1 / 48000) 0)
      (freqsUpdated (filteredTick (1 / 48000) 0) (stickyRun m)) 0
      (sanitize ((filteredTick (1 / 48000) 0).voltage 0))
      (tickStart (filteredTick (1 / 48000) 0) (stickyRun m))).cv_out 0
      = Real.log (250 / 261.6256) / Real.log 2 := by
    rw [hfu, updateOutput_of_updated, recompute_filtered m _ 0 _ _ hmode rfl]
    exact g3
  rw [hout] at a d
  refine ⟨g1, n1, hthr, a, d.mpr ?_⟩
  rw [g4]
  exact ne_of_lt log_ratio_neg

/-- C15, the code at the failing input (exact `pow`/`log`, `FREQ_C4 = 261.6256`).  The run:
construction; a tick at 48 kHz with a master and input `0 V` in continuous mode, which
leaves the voltage of 250 Hz in `cv_out[0]`; the menu sets MIDI-key mode; a tick without
master, which emits the input `0 V`.  The next tick has a master and filters every key: it
is not throttled, its key is filtered, yet it emits the voltage of 250 Hz, not the `0 V`
emitted on the previous tick, and it calls `trigger`. -/
theorem sticky_hold_after_pass_through :
    (stickyRun (MathEnv.mk 261.6256 (Real.log 2) (fun x => 2 ^ x) Real.log)).tuningMode = 1 ∧
      (filteredTick (1 / 48000) (0 : ℝ)).master = true ∧
      (filteredTick (1 / 48000) (0 : ℝ)).shouldFilterNote (midikey (0 : ℝ)).toNat = true ∧
      throttle (filteredTick (1 / 48000) 0)
        (stickyRun (MathEnv.mk 261.6256 (Real.log 2) (fun x => 2 ^ x) Real.log)) = false ∧
      (stickyRun (MathEnv.mk 261.6256 (Real.log 2) (fun x => 2 ^ x) Real.log)).cvOutPort 0 =
        Volt.finite 0 ∧
      (process (MathEnv.mk 261.6256 (Real.log 2) (fun x => 2 ^ x) Real.log)
          (filteredTick (1 / 48000) 0)
          (stickyRun (MathEnv.mk 261.6256 (Real.log 2) (fun x => 2 ^ x) Real.log))).cvOutPort 0 =
        Volt.finite (Real.log (250 / 261.6256) / Real.log 2) ∧
      Real.log (250 / 261.6256) / Real.log 2 ≠ 0 ∧
      (process (MathEnv.mk 261.6256 (Real.log 2) (fun x => 2 ^ x) Real.log)
          (filteredTick (1 / 48000) 0)
          (stickyRun (MathEnv.mk 261.6256 (Real.log 2) (fun x => 2 ^ x) Real.log))).triggerCalled 0
        = true := by
  obtain ⟨h1, h2, h3, h4, h5⟩ := stickyRun_facts _ (exactLibm_real 261.6256) rfl
  exact ⟨h1, rfl, rfl, h3, h2, h4, ne_of_lt log_ratio_neg, h5⟩

end PulseExample

/-! ## A table change without master -/

section ConvergenceCounterexample

/-- Counterexample to C11 as stated (exact `pow`/`log`, `FREQ_C4 = 261.6256`): the state is
the constructed one after a tick of 10 ms without master; the next tick is again without
master and with the same rounding parameter, so authority presence and rounding mode are
unchanged; it is a window-boundary tick and the provider's table has 500 Hz at index 69
where the cached table has 440 Hz.  After the tick the cached entry is still 440 Hz, and
channel 0 emits its input `0 V`. -/
theorem table_change_ignored_without_master :
    (process (MathEnv.mk 261.6256 (Real.log 2) (fun x => 2 ^ x) Real.log)
        (silentTick (1 / 100) 0)
        (init (MathEnv.mk 261.6256 (Real.log 2) (fun x => 2 ^ x) Real.log)
          (fun _ => 0))).hasMaster = (silentTick (1 / 100) (0 : ℝ)).master ∧
      (process (MathEnv.mk 261.6256 (Real.log 2) (fun x => 2 ^ x) Real.log)
        (silentTick (1 / 100) 0)
        (init (MathEnv.mk 261.6256 (Real.log 2) (fun x => 2 ^ x) Real.log)
          (fun _ => 0))).roundingMode = cround (silentTick (1 / 100) (0 : ℝ)).roundingParam ∧
      (process (MathEnv.mk 261.6256 (Real.log 2) (fun x => 2 ^ x) Real.log)
        (silentTick (1 / 100) 0)
        (init (MathEnv.mk 261.6256 (Real.log 2) (fun x => 2 ^ x) Real.log)
          (fun _ => 0))).tuningMode = 0 ∧
      (process (MathEnv.mk 261.6256 (Real.log 2) (fun x => 2 ^ x) Real.log)
        (silentTick (1 / 100) 0)
        (init (MathEnv.mk 261.6256 (Real.log 2) (fun x => 2 ^ x) Real.log)
          (fun _ => 0))).freqs 69 = 440 ∧
      (silentTick (1 / 100) (0 : ℝ)).noteToFrequency 69 = 500 ∧
      1 ≤ advancedPhase (silentTick (1 / 100) 0)
        (process (MathEnv.mk 261.6256 (Real.log 2) (fun x => 2 ^ x) Real.log)
          (silentTick (1 / 100) 0)
          (init (MathEnv.mk 261.6256 (Real.log 2) (fun x => 2 ^ x) Real.log) (fun _ => 0))) ∧
      (process (MathEnv.mk 261.6256 (Real.log 2) (fun x => 2 ^ x) Real.log)
        (silentTick (1 / 100) 0)
        (process (MathEnv.mk 261.6256 (Real.log 2) (fun x => 2 ^ x) Real.log)
          (silentTick (1 / 100) 0)
          (init (MathEnv.mk 261.6256 (Real.log 2) (fun x => 2 ^ x) Real.log)
            (fun _ => 0)))).freqs 69 = 440 ∧
      (process (MathEnv.mk 261.6256 (Real.log 2) (fun x => 2 ^ x) Real.log)
        (silentTick (1 / 100) 0)
        (process (MathEnv.mk 261.6256 (Real.log 2) (fun x => 2 ^ x) Real.log)
          (silentTick (1 / 100) 0)
          (init (MathEnv.mk 261.6256 (Real.log 2) (fun x => 2 ^ x) Real.log)
            (fun _ => 0)))).cvOutPort 0 = Volt.finite 0 := by
  obtain ⟨a1, a2, _, a4, a5⟩ := process_other_shared
    (MathEnv.mk 261.6256 (Real.log 2) (fun x => 2 ^ x) Real.log) (silentTick (1 / 100) 0)
    (init (MathEnv.mk 261.6256 (Real.log 2) (fun x => 2 ^ x) Real.log) (fun _ => 0))
    (Or.inr rfl)
  obtain ⟨_, _, _, _, b5⟩ := process_other_shared
    (MathEnv.mk 261.6256 (Real.log 2) (fun x => 2 ^ x) Real.log) (silentTick (1 / 100) 0)
    (process (MathEnv.mk 261.6256 (Real.log 2) (fun x => 2 ^ x) Real.log)
      (silentTick (1 / 100) 0)
      (init (MathEnv.mk 261.6256 (Real.log 2) (fun x => 2 ^ x) Real.log) (fun _ => 0)))
    (Or.inr rfl)
  have h440 : (init (MathEnv.mk 261.6256 (Real.log 2) (fun x => 2 ^ x) Real.log)
      (fun _ => (0 : ℝ))).freqs 69 = 440 := by
    show (440 : ℝ) * (2 : ℝ) ^ ((((69 : Nat) : ℝ) - 69) / 12) = 440
    norm_num
  have hphase : (process (MathEnv.mk 261.6256 (Real.log 2) (fun x => 2 ^ x) Real.log)
      (silentTick (1 / 100) 0)
      (init (MathEnv.mk 261.6256 (Real.log 2) (fun x => 2 ^ x) Real.log)
        (fun _ => 0))).rateLimiterPhase = 1 := by
    rw [process_phase]
    have e : advancedPhase (silentTick (1 / 100) 0)
        (init (MathEnv.mk 261.6256 (Real.log 2) (fun x => 2 ^ x) Real.log)
          (fun _ => (0 : ℝ))) = 2 := by
      show (0 : ℝ) + 1 / 100 / (5 / 1000) = 2
      norm_num
    rw [e, if_pos (by norm_num)]
    norm_num
  have hadv : 1 ≤ advancedPhase (silentTick (1 / 100) 0)
      (process (MathEnv.mk 261.6256 (Real.log 2) (fun x => 2 ^ x) Real.log)
        (silentTick (1 / 100) 0)
        (init (MathEnv.mk 261.6256 (Real.log 2) (fun x => 2 ^ x) Real.log) (fun _ => 0))) := by
    show (1 : ℝ) ≤ (process _ _ _).rateLimiterPhase + 1 / 100 / (5 / 1000)
    rw [hphase]
    norm_num
  refine ⟨a2, a4, a1, by rw [a5]; exact h440, ?_, hadv, by rw [b5, a5]; exact h440, ?_⟩
  · show (if (69 : Nat) = 0 then (250 : ℝ) else 500) = 500
    norm_num
  · exact (no_master_tick_out _ (silentTick (1 / 100) 0) _ 0 rfl (Nat.lt_succ_self 0)).1

end ConvergenceCounterexample

end QuantizerMTS
